import Mathlib

/-!
# 1PUX import: `src/format/OPUXReader.cpp`

A shallow embedding of the 1PUX reader (`readItem`, `readVault`,
`OPUXReader::convert`, `hasError`, `errorString`) and of its caller in
`src/gui/ImportOpenWidget.cpp` (`importOPUX`, `openDatabase`), together with
the properties proved about them.

Conventions of the embedding

* A `QJsonObject` and the `QVariantMap` obtained from it by `toVariantMap()`
  are both a key/value list (keys of a parsed object are unique).  Absent
  keys read as `JsonValue.null`, which stands for both the JSON `null` and
  Qt's "undefined"/invalid value: every conversion used by the reader treats
  the two alike.
* JSON numbers are integers, rendered in decimal by `QVariant::toString`.
* Functions of Qt or of other parts of the application that the reader
  calls but that are not part of the reader are fields of `Env`.
* `QUuid::createUuid()` is a stream `Env.createUuid`; the position in the
  stream is threaded through the functions as a counter.
* A call whose behaviour C++/Qt leaves undefined ends the computation with
  `Failure.undefinedBehaviour`.
-/

namespace OPUX

/-! ## JSON documents and Qt variants -/

/-- A JSON value (`QJsonValue`, and the `QVariant` made from it). -/
inductive JsonValue where
  | null
  | bool (b : Bool)
  | num (n : Int)
  | str (s : String)
  | arr (xs : List JsonValue)
  | obj (kvs : List (String × JsonValue))

/-- A `QJsonObject` / `QVariantMap`: the keys with their values. -/
abbrev JsonObject := List (String × JsonValue)

/-- Qt function `QJsonObject::value(key)` and `QVariantMap::value(key)`: the value stored
under `key`, a null value when the key is absent. -/
def value (o : JsonObject) (key : String) : JsonValue :=
  (List.lookup key o).getD JsonValue.null

/-- Qt function `QJsonObject::contains(key)` and `QVariantMap::contains(key)`. -/
def contains (o : JsonObject) (key : String) : Bool :=
  (List.lookup key o).isSome

/-- Qt function `QJsonValue::toObject()`: the object, or an empty object for any other
kind of value. -/
def toObject : JsonValue → JsonObject
  | .obj kvs => kvs
  | _ => []

/-- Qt function `QJsonValue::toArray()`: the array, or an empty array for any other kind
of value. -/
def toArray : JsonValue → List JsonValue
  | .arr xs => xs
  | _ => []

/-- Qt function `QJsonValue::toString()`: the string, or the empty string for any other
kind of value (no conversion of numbers). -/
def jsonToString : JsonValue → String
  | .str s => s
  | _ => ""

/-- Qt function `QJsonArray::first()`, which is `at(0)`: an undefined value when the array
is empty. -/
def first (xs : List JsonValue) : JsonValue :=
  xs.head?.getD JsonValue.null

/-- Qt function `QVariant::toMap()`. -/
def toMap : JsonValue → JsonObject
  | .obj kvs => kvs
  | _ => []

/-- Qt function `QVariant::toList()`. -/
def toList : JsonValue → List JsonValue
  | .arr xs => xs
  | _ => []

/-- Qt function `QVariant::toString()`: strings as they are, numbers in decimal, booleans
as `true`/`false`, and the empty string for null, lists and maps. -/
def variantToString : JsonValue → String
  | .str s => s
  | .num n => toString n
  | .bool true => "true"
  | .bool false => "false"
  | _ => ""

/-- Qt function `QVariant::toStringList()`: a list is converted element by element, a
single string becomes a one-element list. -/
def toStringList : JsonValue → List String
  | .arr xs => xs.map variantToString
  | .str s => [s]
  | _ => []

/-- Qt function `QVariant::toULongLong()`: an unsigned 64-bit number; a number is reduced
modulo `2^64`, a string is read as a decimal numeral (0 when it is not one or
does not fit). -/
def toULongLong : JsonValue → Nat
  | .num n => (n % (2 ^ 64 : Int)).toNat
  | .bool true => 1
  | .str s => match s.toNat? with
    | some k => if k < 2 ^ 64 then k else 0
    | none => 0
  | _ => 0

/-- Lexicographic comparison of two sequences of character codes. -/
def lexLess : List Nat → List Nat → Bool
  | _, [] => false
  | [], _ :: _ => true
  | a :: as, b :: bs => a < b || (a == b && lexLess as bs)

/-- Qt function `QString::operator<`, the order of the keys of a `QMap<QString, T>`: the
texts are compared character code by character code. -/
def keyLess (a b : String) : Bool :=
  lexLess (a.data.map Char.toNat) (b.data.map Char.toNat)

/-- Qt function `QMap::firstKey()`: the smallest key of the map.  Qt requires the map to
be non-empty; on an empty map the call has no defined result (`none`). -/
def firstKey : JsonObject → Option String
  | [] => none
  | kv :: rest => some (rest.foldl (fun m p => if keyLess p.1 m then p.1 else m) kv.1)

/-- Qt function `QString::mid(position, n)`. -/
def mid (s : String) (position n : Nat) : String :=
  String.mk ((s.data.drop position).take n)

/-! ## The environment of the reader -/

/-- Functions the reader calls that belong to Qt, to minizip's callers or to
other parts of the application. -/
structure Env where
  /-- The text `QUuid::createUuid().toString()` of the `k`-th identifier
  generated. -/
  createUuid : Nat → String
  /-- The translation `QObject::tr`. -/
  tr : String → String
  /-- The text `QUrl(s).toEncoded()`. -/
  toEncoded : String → String
  /-- The test `a.compare(b, Qt::CaseInsensitive) == 0`. -/
  equalsIgnoreCase : String → String → Bool
  /-- The text `QDateTime::fromSecsSinceEpoch(secs, Qt::UTC).toString()`. -/
  dateToString : Int → String
  /-- The parser `QJsonDocument::fromJson`: `none` when the bytes are not a
  well-formed document (Qt then returns a null document). -/
  fromJson : List UInt8 → Option JsonValue

/-- How a computation of the reader can fail to return. -/
inductive Failure where
  /-- A call outside the contract of C++ or Qt. -/
  | undefinedBehaviour
  /-- A loop that does not end. -/
  | diverges
  deriving DecidableEq, Repr

/-! ## The destination store -/

/-- Modelled from the spec: the one-time-password configuration of an entry,
"a parsed otpauth:// URL" (`Totp::Settings`, not part of the reader); it is
recorded as the encoded URL it was parsed from. -/
structure TotpSettings where
  source : String
  deriving DecidableEq, Repr

/-- Modelled from the spec: `Totp::parseSettings`, which parses an encoded
otpauth URL into a configuration. -/
def parseSettings (url : String) : TotpSettings := ⟨url⟩

/-- Modelled from the spec: a custom attribute, "a (name, value, concealed)
triple". -/
structure Attribute where
  name : String
  value : String
  concealed : Bool
  deriving DecidableEq, Repr

/-- Modelled from the spec: `EntryAttributes::set(key, value, protect)` on the
"mapping of named custom attributes": names are unique, so an existing
attribute of that name is replaced and a new one is added otherwise. -/
def EntryAttributes.set : List Attribute → String → String → Bool → List Attribute
  | [], key, v, protect => [⟨key, v, protect⟩]
  | a :: rest, key, v, protect =>
    if a.name = key then ⟨key, v, protect⟩ :: rest
    else a :: EntryAttributes.set rest key v protect

/-- Modelled from the spec: `EntryAttributes::keys()`, the names of the
attributes. -/
def EntryAttributes.keys (attrs : List Attribute) : List String :=
  attrs.map Attribute.name

/-- Modelled from the spec: the attribute stored under a name, if any. -/
def EntryAttributes.find (attrs : List Attribute) (key : String) : Option Attribute :=
  attrs.find? (fun a => a.name = key)

/-- Modelled from the spec: an entry of the store (`Entry`, not part of the
reader): "title, primary URL, username, password, free-text notes, a set of
tags (comma-joined), a one-time-password configuration (optional, singular), a
mapping of named custom attributes, creation time, last-modification time,
last-access time, and an empty history list".  Times are seconds since the
epoch (UTC); `historyItems` is the number of history versions. -/
structure Entry where
  uuid : String
  title : String
  url : String
  username : String
  password : String
  notes : String
  tags : String
  totp : Option TotpSettings
  attributes : List Attribute
  historyItems : Nat
  creationTime : Int
  lastModificationTime : Int
  lastAccessTime : Int
  deriving DecidableEq, Repr

/-- Modelled from the spec: `new Entry()`, an entry with empty fields. -/
def Entry.new : Entry :=
  { uuid := "", title := "", url := "", username := "", password := "", notes := "",
    tags := "", totp := none, attributes := [], historyItems := 0,
    creationTime := 0, lastModificationTime := 0, lastAccessTime := 0 }

/-- Modelled from the spec: `Entry::addTag`, "Tags accumulate": the tag is
appended to the comma-joined tag list. -/
def Entry.addTag (entry : Entry) (tag : String) : Entry :=
  { entry with tags := if entry.tags = "" then tag else entry.tags ++ "," ++ tag }

/-- Modelled from the spec: `Entry::hasTotp`, whether the entry has a primary
one-time-password configuration. -/
def Entry.hasTotp (entry : Entry) : Bool := entry.totp.isSome

/-- Modelled from the spec: `Entry::setTotp`, which makes the configuration
the primary one of the entry. -/
def Entry.setTotp (entry : Entry) (settings : TotpSettings) : Entry :=
  { entry with totp := some settings }

/-- Modelled from the spec: a group of the store (`Group`, not part of the
reader) with its display name and the entries it owns, in the order in which
they were attached. -/
structure Group where
  uuid : String
  name : String
  entries : List Entry
  deriving DecidableEq, Repr

/-- Modelled from the spec: `Entry::setGroup(group, false)`: ownership of the
entry passes to the group, which holds it after the entries it already has. -/
def Entry.setGroup (entry : Entry) (group : Group) : Group :=
  { group with entries := group.entries ++ [entry] }

/-- Modelled from the spec: the store (`Database`, not part of the reader),
given by the groups under its root group, in the order in which they were
attached. -/
structure Database where
  groups : List Group
  deriving DecidableEq, Repr

/-- Modelled from the spec: `QSharedPointer<Database>::create()`, a fresh
store with no group under its root. -/
def Database.create : Database := ⟨[]⟩

/-- Modelled from the spec: `group->setParent(db->rootGroup())`: the group is
attached under the root after the groups already there. -/
def Group.setParent (group : Group) (db : Database) : Database :=
  { db with groups := db.groups ++ [group] }

/-- Modelled from the spec: the setters of `Entry` used by the reader; each
sets the field it names. -/
def Entry.setUuid (entry : Entry) (uuid : String) : Entry := { entry with uuid := uuid }

/-- Modelled from the spec: `Entry::setTitle`. -/
def Entry.setTitle (entry : Entry) (title : String) : Entry := { entry with title := title }

/-- Modelled from the spec: `Entry::setUrl`, the primary URL. -/
def Entry.setUrl (entry : Entry) (url : String) : Entry := { entry with url := url }

/-- Modelled from the spec: `Entry::setTags`, "set as a comma-joined tag
list". -/
def Entry.setTags (entry : Entry) (tags : String) : Entry := { entry with tags := tags }

/-- Modelled from the spec: `Entry::setUsername`. -/
def Entry.setUsername (entry : Entry) (username : String) : Entry :=
  { entry with username := username }

/-- Modelled from the spec: `Entry::setPassword`. -/
def Entry.setPassword (entry : Entry) (password : String) : Entry :=
  { entry with password := password }

/-- Modelled from the spec: `Entry::setNotes`. -/
def Entry.setNotes (entry : Entry) (notes : String) : Entry := { entry with notes := notes }

/-- Modelled from the spec: `entry->attributes()->set(key, value, protect)`. -/
def Entry.setAttribute (entry : Entry) (key v : String) (protect : Bool) : Entry :=
  { entry with attributes := EntryAttributes.set entry.attributes key v protect }

/-- Modelled from the spec: `entry->removeHistoryItems(entry->historyItems())`,
after which "every produced entry starts with zero history versions". -/
def Entry.removeHistoryItems (entry : Entry) : Entry := { entry with historyItems := 0 }

/-- Modelled from the spec: `entry->setTimeInfo(timeInfo)` for a `timeInfo`
with the three times set. -/
def Entry.setTimeInfo (entry : Entry) (created modified accessed : Int) : Entry :=
  { entry with creationTime := created, lastModificationTime := modified,
               lastAccessTime := accessed }

/-! ## `readItem` (lines 137-254) -/

/-- The argument of `QDateTime::fromSecsSinceEpoch`: the unsigned 64-bit value
of `toULongLong()` converted to the signed 64-bit parameter. -/
def fromSecsSinceEpoch (secs : Nat) : Int :=
  if secs < 2 ^ 63 then (secs : Int) else (secs : Int) - 2 ^ 64

/-- The loop over `overview.urls` (lines 149-157); `i` is its counter. -/
def readUrls : List JsonValue → Nat → Entry → Entry
  | [], _, entry => entry
  | urlRaw :: rest, i, entry =>
    let urlMap := toMap urlRaw
    let url := variantToString (value urlMap "url")
    if entry.url ≠ url then
      readUrls rest (i + 1) (entry.setAttribute ("KP2A_URL_" ++ toString i) url false)
    else
      readUrls rest i entry

/-- The loop over `details.loginFields` (lines 170-179). -/
def readLoginFields (env : Env) : List JsonValue → Entry → Entry
  | [], entry => entry
  | field :: rest, entry =>
    let fieldMap := toMap field
    let designation := variantToString (value fieldMap "designation")
    if env.equalsIgnoreCase designation "username" then
      readLoginFields env rest (entry.setUsername (variantToString (value fieldMap "value")))
    else if env.equalsIgnoreCase designation "password" then
      readLoginFields env rest (entry.setPassword (variantToString (value fieldMap "value")))
    else
      readLoginFields env rest entry

/-- The name probe `while (attributes.contains(name)) name = "otp_%1".arg(++i)`
(lines 208-213), run for at most `fuel` tests of the loop condition; `none`
when the loop has not ended by then. -/
def otpProbe (attributes : List String) : Nat → Nat → String → Option String
  | 0, _, _ => none
  | fuel + 1, i, name =>
    if name ∈ attributes then otpProbe attributes fuel (i + 1) ("otp_" ++ toString (i + 1))
    else some name

/-- The attribute name of a section field (lines 193-197): the title of the
field, or its id when the title is empty, after the prefix of the section and
an underscore. -/
def fieldName (pre : String) (fieldMap : JsonObject) : String :=
  let name := variantToString (value fieldMap "title")
  let name := if name = "" then variantToString (value fieldMap "id") else name
  pre ++ "_" ++ name

/-- The text `otpauth://totp/%1:%2?secret=%3` with its three arguments
(line 203), before `QUrl` encodes it. -/
def otpauthUrl (title username secret : String) : String :=
  "otpauth://totp/" ++ title ++ ":" ++ username ++ "?secret=" ++ secret

/-- The value decoded from a tagged value whose key is not `totp`
(lines 219-229). -/
def decodeValue (env : Env) (valueMap : JsonObject) (key : String) : String :=
  let v := variantToString (value valueMap key)
  if key = "date" then
    env.dateToString (fromSecsSinceEpoch (toULongLong (value valueMap key)))
  else if key = "email" then
    variantToString (value (toMap (value valueMap key)) "email_address")
  else if key = "address" then
    let address := toMap (value valueMap key)
    variantToString (value address "street") ++ "\n"
      ++ variantToString (value address "city") ++ ", "
      ++ variantToString (value address "state") ++ " "
      ++ variantToString (value address "zip") ++ "\n"
      ++ variantToString (value address "country")
  else v

/-- The body of the loop over the fields of a section (lines 192-234) for the
name prefix `pre` of the section. -/
def readField (env : Env) (pre : String) (field : JsonValue) (entry : Entry) :
    Except Failure Entry :=
  let fieldMap := toMap field
  let name := fieldName pre fieldMap
  let valueMap := toMap (value fieldMap "value")
  match firstKey valueMap with
  | none => .error .undefinedBehaviour
  | some key =>
    if key = "totp" then
      let otpurl := env.toEncoded
        (otpauthUrl entry.title entry.username (variantToString (value valueMap key)))
      if entry.hasTotp then
        let attributes := EntryAttributes.keys entry.attributes
        match otpProbe attributes (attributes.length + 1) 0 "otp" with
        | none => .error .diverges
        | some name => .ok (entry.setAttribute name otpurl true)
      else
        .ok (entry.setTotp (parseSettings otpurl))
    else
      let v := decodeValue env valueMap key
      if v ≠ "" then .ok (entry.setAttribute name v (key == "concealed"))
      else .ok entry

/-- The loop over the fields of one section (line 191). -/
def readFields (env : Env) (pre : String) : List JsonValue → Entry → Except Failure Entry
  | [], entry => .ok entry
  | field :: rest, entry =>
    match readField env pre field entry with
    | .error f => .error f
    | .ok entry1 => readFields env pre rest entry1

/-- The name prefix of a section (lines 185-189): its title, or, when the
title is empty, five characters of a fresh identifier; with the count of
identifiers generated afterwards. -/
def sectionPre (env : Env) (n : Nat) (sec : JsonValue) : String × Nat :=
  let sectionMap := toMap sec
  let title := variantToString (value sectionMap "title")
  if title = "" then (mid (env.createUuid n) 1 5, n + 1) else (title, n)

/-- The loop over `details.sections` (lines 184-236); `n` counts the
identifiers generated so far. -/
def readSections (env : Env) : Nat → List JsonValue → Entry → Except Failure (Entry × Nat)
  | n, [], entry => .ok (entry, n)
  | n, sec :: rest, entry =>
    let sectionMap := toMap sec
    match readFields env (sectionPre env n sec).1 (toList (value sectionMap "fields")) entry with
    | .error f => .error f
    | .ok entry1 => readSections env (sectionPre env n sec).2 rest entry1

/-- The function `readItem`; `n` counts the identifiers generated so far, and
the result carries the new count. -/
def readItem (env : Env) (n : Nat) (item : JsonObject) : Except Failure (Entry × Nat) :=
  let itemMap := item
  let overviewMap := toMap (value itemMap "overview")
  let detailsMap := toMap (value itemMap "details")
  let entry := Entry.new
  let entry := entry.setUuid (env.createUuid n)
  let entry := entry.setTitle (variantToString (value overviewMap "title"))
  let entry := entry.setUrl (variantToString (value overviewMap "url"))
  let entry :=
    if contains overviewMap "urls" then readUrls (toList (value overviewMap "urls")) 1 entry
    else entry
  let entry :=
    if contains overviewMap "tags" then
      entry.setTags (String.intercalate "," (toStringList (value overviewMap "tags")))
    else entry
  let entry :=
    if variantToString (value itemMap "favIndex") = "1" then entry.addTag (env.tr "Favorite")
    else entry
  let entry :=
    if variantToString (value itemMap "state") = "archived" then entry.addTag (env.tr "Archived")
    else entry
  let entry := readLoginFields env (toList (value detailsMap "loginFields")) entry
  let entry := entry.setNotes (variantToString (value detailsMap "notesPlain"))
  match readSections env (n + 1) (toList (value detailsMap "sections")) entry with
  | .error f => .error f
  | .ok (entry, n1) =>
    let entry := entry.removeHistoryItems
    let createdTime := fromSecsSinceEpoch (toULongLong (value itemMap "createdAt"))
    let modifiedTime := fromSecsSinceEpoch (toULongLong (value itemMap "updatedAt"))
    .ok (entry.setTimeInfo createdTime modifiedTime modifiedTime, n1)

/-! ## `readVault` (lines 256-278) -/

/-- The loop over the items of a vault (lines 268-273): each element, taken as
an object, is mapped by `readItem` and the entry is attached to the group.
(`readItem` never returns a null pointer, so the test `if (entry)` holds.) -/
def readVaultItems (env : Env) : Nat → List JsonValue → Group → Except Failure (Group × Nat)
  | n, [], group => .ok (group, n)
  | n, item :: rest, group =>
    match readItem env n (toObject item) with
    | .error f => .error f
    | .ok (entry, n1) => readVaultItems env n1 rest (entry.setGroup group)

/-- The function `readVault`: no group (`none`, the null pointer) when the
vault lacks `attrs` or `items`. -/
def readVault (env : Env) (n : Nat) (vault : JsonObject) :
    Except Failure (Option Group × Nat) :=
  if !contains vault "attrs" || !contains vault "items" then .ok (none, n)
  else
    let group : Group :=
      { uuid := env.createUuid n,
        name := jsonToString (value (toObject (value vault "attrs")) "name"),
        entries := [] }
    let items := toArray (value vault "items")
    match readVaultItems env (n + 1) items group with
    | .error f => .error f
    | .ok (group, n1) => .ok (some group, n1)

/-! ## `OPUXReader` (lines 281-344) -/

/-- One call of `unzReadCurrentFile(uf, buffer, 8192)`: a chunk of bytes
copied into the buffer (the call returns their number, 0 at the end of the
member) or a negative error code. -/
inductive ReadResult where
  | bytes (chunk : List UInt8)
  | error (code : Int)

/-- What the file system and minizip report for a path: whether the file
exists, whether `unzOpen64` opens it (`archive`), whether `unzLocateFile`
finds the member `export.data` in it, and the results of the successive calls
of `unzReadCurrentFile` on that member (after them the call returns 0). -/
structure PathState where
  fileExists : Bool
  archive : Bool
  exportData : Option (List ReadResult)

/-- The state of an `OPUXReader`: its member `m_error`. -/
structure OPUXReader where
  m_error : String
  deriving DecidableEq, Repr

/-- The method `OPUXReader::hasError`. -/
def OPUXReader.hasError (self : OPUXReader) : Bool := !(self.m_error = "")

/-- The method `OPUXReader::errorString`. -/
def OPUXReader.errorString (self : OPUXReader) : String := self.m_error

/-- The largest value of the C++ type `int`, which also bounds the size of a
`QByteArray`. -/
def INT_MAX : Nat := 2147483647

/-- Qt function `QByteArray::resize(size)`: the buffer cut or extended to `size` bytes
(the new bytes, which Qt leaves uninitialised, are taken to be 0). -/
def resize (data : List UInt8) (size : Nat) : List UInt8 :=
  data.take size ++ List.replicate (size - data.length) 0

/-- What `unzReadCurrentFile(uf, data.data() + offset, len)` does to the
buffer when it delivers `chunk`: the bytes are copied to `offset` onwards. -/
def writeAt (data : List UInt8) (offset : Nat) (chunk : List UInt8) : List UInt8 :=
  data.take offset ++ chunk ++ data.drop (offset + chunk.length)

/-- The loop that reads the member into `data` (lines 319-325): the buffer
grows by 8192 bytes, the chunk (at most 8192 bytes of it) is written at offset
`bytesRead`, and the loop ends at the first read that returns no bytes.  A
buffer size beyond `INT_MAX` is outside the contract of `QByteArray`. -/
def readCurrentFile : List ReadResult → List UInt8 → Nat → Except Failure (List UInt8 × Nat)
  | [], data, bytesRead =>
    if data.length + 8192 > INT_MAX then .error .undefinedBehaviour
    else .ok (resize data (data.length + 8192), bytesRead)
  | .error _ :: _, data, bytesRead =>
    if data.length + 8192 > INT_MAX then .error .undefinedBehaviour
    else .ok (resize data (data.length + 8192), bytesRead)
  | .bytes chunk :: rest, data, bytesRead =>
    if data.length + 8192 > INT_MAX then .error .undefinedBehaviour
    else
      let data := resize data (data.length + 8192)
      let chunk := chunk.take 8192
      let data := writeAt data bytesRead chunk
      if chunk.length > 0 then readCurrentFile rest data (bytesRead + chunk.length)
      else .ok (data, bytesRead)

/-- The member `export.data` read into memory (lines 316-327): the buffer
filled by the read loop and cut by `data.truncate(bytesRead)`. -/
def readMember (reads : List ReadResult) : Except Failure (List UInt8) :=
  match readCurrentFile reads [] 0 with
  | .error f => .error f
  | .ok (data, bytesRead) => .ok (data.take bytesRead)

/-- The loop over the vaults (lines 335-340). -/
def readVaults (env : Env) : Nat → List JsonValue → Database → Except Failure (Database × Nat)
  | n, [], db => .ok (db, n)
  | n, vault :: rest, db =>
    match readVault env n (toObject vault) with
    | .error f => .error f
    | .ok (none, n1) => readVaults env n1 rest db
    | .ok (some group, n1) => readVaults env n1 rest (group.setParent db)

/-- The vaults of a parsed document (lines 332-333):
`json.object().value("accounts").toArray().first().toObject()` is the account
and `account.value("vaults").toArray()` its vaults; `json` is `none` for the
null document that the parser returns on malformed input. -/
def documentVaults (json : Option JsonValue) : List JsonValue :=
  let jsonObject := match json with
    | some doc => toObject doc
    | none => []
  let account := toObject (first (toArray (value jsonObject "accounts")))
  toArray (value account "vaults")

/-- The method `OPUXReader::convert`.  The result is the returned store
(`none` for the null pointer) and the state of the reader after the call; `n`
counts the identifiers generated before the call.  The text
`tr("File does not exist.")` has no place marker, so `.arg(path)` leaves it
as it is. -/
def OPUXReader.convert (env : Env) (fs : String → PathState) (n : Nat) (self : OPUXReader)
    (path : String) : Except Failure (Option Database × OPUXReader) :=
  let self : OPUXReader := { self with m_error := "" }
  let fileinfo := fs path
  if !fileinfo.fileExists then
    .ok (none, { self with m_error := env.tr "File does not exist." })
  else if !fileinfo.archive then
    .ok (none, { self with m_error := env.tr "Invalid 1PUX file format: Not a valid ZIP file." })
  else
    match fileinfo.exportData with
    | none =>
      .ok (none, { self with m_error := env.tr "Invalid 1PUX file format: Missing export.data" })
    | some reads =>
      match readMember reads with
      | .error f => .error f
      | .ok data =>
        let db := Database.create
        let json := env.fromJson data
        let vaults := documentVaults json
        match readVaults env n vaults db with
        | .error f => .error f
        | .ok (db, _) => .ok (some db, self)

/-! ## Notions used to state the properties -/

/-- The `k`-th name tried by the name probe: `otp`, then `otp_1`, `otp_2`,
and so on. -/
def otpName (k : Nat) : String := if k = 0 then "otp" else "otp_" ++ toString k

/-- The section fields of an item in document order, each with the name
prefix of its section, as the loops of lines 184-191 visit them. -/
def sectionFields (env : Env) : Nat → List JsonValue → List (String × JsonValue)
  | _, [] => []
  | n, sec :: rest =>
    (toList (value (toMap sec) "fields")).map (fun field => ((sectionPre env n sec).1, field))
      ++ sectionFields env (sectionPre env n sec).2 rest

/-- The tagged value of a section field (line 199). -/
def fieldValueMap (field : JsonValue) : JsonObject :=
  toMap (value (toMap field) "value")

/-- Whether a section field has a tagged value, that is a `value` object with
at least one key. -/
def fieldTagged (field : JsonValue) : Bool := (firstKey (fieldValueMap field)).isSome

/-- Whether every section field of an item has a tagged value. -/
def fieldsTagged (item : JsonObject) : Bool :=
  (toList (value (toMap (value item "details")) "sections")).all
    (fun sec => (toList (value (toMap sec) "fields")).all fieldTagged)

/-! ## Sample inputs -/

/-- A sample environment: identifiers numbered in order, no translation, no
change by URL encoding, comparison of ASCII letters without case, dates shown
as their number of seconds, and a parser that knows the single document
`\x7b\x7d`. -/
def sampleEnv : Env :=
  { createUuid := fun k => "\x7b" ++ toString k ++ "a1b2c3-0000-4000-8000-000000000000\x7d",
    tr := fun s => s,
    toEncoded := fun s => s,
    equalsIgnoreCase := fun a b => a.data.map Char.toLower == b.data.map Char.toLower,
    dateToString := fun secs => toString secs,
    fromJson := fun bytes => if bytes = [123, 125] then some (JsonValue.obj []) else none }

/-- A sample environment whose parser yields the given document. -/
def sampleEnvWith (doc : JsonValue) : Env :=
  { sampleEnv with fromJson := fun _ => some doc }

/-- A file system in which every path is a valid archive whose member
`export.data` is read in the given chunks. -/
def sampleFiles (chunks : List (List UInt8)) : String → PathState :=
  fun _ => { fileExists := true, archive := true,
             exportData := some (chunks.map ReadResult.bytes) }

/-! ## Further notions and sample inputs -/

/-- The item of the example document in the comment at the head of
`OPUXReader.cpp` (lines 57-125), in the documented shape: the record is nested
under the key `item`.  Keys that the reader never looks at (`inputTraits`,
`passwordHistory`, `documentAttributes`, `pbe`) are left out. -/
def documentedItem : JsonValue :=
  .obj [("item", .obj [
    ("uuid", .str "fkruyzrldvizuqlnavfj3gltfe"),
    ("favIndex", .num 1),
    ("createdAt", .num 1614298956),
    ("updatedAt", .num 1635346445),
    ("trashed", .bool false),
    ("categoryUuid", .str "001"),
    ("details", .obj [
      ("loginFields", .arr [.obj [
        ("value", .str "most-secure-password-ever!"), ("id", .str ""), ("name", .str "password"),
        ("fieldType", .str "P"), ("designation", .str "password")]]),
      ("notesPlain", .str "This is a note. *bold*! _italic_!"),
      ("sections", .arr [.obj [
        ("title", .str "Security"),
        ("name", .str "Section_oazxddhvftfknycbbmh5ntwfa4"),
        ("fields", .arr [.obj [
          ("title", .str "PIN"),
          ("id", .str "CCEF647B399604E8F6Q6C8C3W31AFD407"),
          ("value", .obj [("concealed", .str "12345")]),
          ("indexAtSource", .num 0), ("guarded", .bool false), ("multiline", .bool false),
          ("dontGenerate", .bool false)]])]])]),
    ("overview", .obj [
      ("subtitle", .str ""),
      ("urls", .arr [.obj [("label", .str ""), ("url", .str "https://www.dropbox.com/")]]),
      ("title", .str "Dropbox"),
      ("url", .str "https://www.dropbox.com/"),
      ("ps", .num 100), ("pgrng", .bool true)])])]

/-- The vault of the example document in the comment at the head of
`OPUXReader.cpp` (lines 47-128). -/
def documentedVault : JsonObject :=
  [("attrs", .obj [("uuid", .str "rr3lr6c2opoggvrete23q72ahi"), ("desc", .str ""),
      ("avatar", .str "pic.png"), ("name", .str "Personal"), ("type", .str "P")]),
   ("items", .arr [documentedItem])]

/-- The example document in the comment at the head of `OPUXReader.cpp`. -/
def documentedExport : JsonValue :=
  .obj [("accounts", .arr [.obj [
    ("attrs", .obj [("accountName", .str "Wendy Appleseed"), ("name", .str "Wendy Appleseed"),
      ("avatar", .str "profile-pic.png"), ("email", .str "wendy.c.appleseed@gmail.com"),
      ("uuid", .str "D4RI47B7BJDT25C2LWA7LEJLHZ"), ("domain", .str "https://my.1password.com/")]),
    ("vaults", .arr [.obj documentedVault])]])]
/-- A sample item as `readItem` reads it (the record itself, not nested under
`item`): two URLs besides the primary one, a login, and a section with three
one-time-password fields and a concealed field. -/
def sampleItem : JsonValue :=
  .obj [
    ("overview", .obj [("title", .str "T"), ("url", .str "P"),
      ("urls", .arr [.obj [("url", .str "P")], .obj [("url", .str "P")],
                     .obj [("url", .str "X")]])]),
    ("details", .obj [
      ("loginFields", .arr [.obj [("designation", .str "username"), ("value", .str "U")]]),
      ("sections", .arr [.obj [("title", .str "S"), ("fields", .arr [
        .obj [("title", .str "a"), ("value", .obj [("totp", .str "AAA")])],
        .obj [("title", .str "b"), ("value", .obj [("totp", .str "BBB")])],
        .obj [("title", .str "c"), ("value", .obj [("totp", .str "CCC")])],
        .obj [("title", .str "PIN"), ("value", .obj [("concealed", .str "12345")])]])]])])]

/-- A sample vault with two items. -/
def sampleVault : JsonValue :=
  .obj [("attrs", .obj [("name", .str "Personal")]), ("items", .arr [sampleItem, documentedItem])]

/-- A sample document with one account and one vault. -/
def sampleExport : JsonValue :=
  .obj [("accounts", .arr [.obj [("vaults", .arr [sampleVault])]])]

/-- The name of the `i`-th additional URL attribute (line 154). -/
def urlAttributeName (i : Nat) : String := "KP2A_URL_" ++ toString i

/-- The list D of additional URLs of an overview: the `url` values of the
elements of `overview.urls`, in document order, that differ from
`overview.url`. -/
def additionalUrls (overviewMap : JsonObject) : List String :=
  ((toList (value overviewMap "urls")).map
    (fun urlRaw => variantToString (value (toMap urlRaw) "url"))).filter
    (fun url => decide (variantToString (value overviewMap "url") ≠ url))

/-- A vault without the key `items`. -/
def vaultWithoutItems : JsonObject := [("attrs", .obj [("name", .str "Broken")])]

/-- A vault with a name and no items. -/
def emptyVault : JsonObject := [("attrs", .obj [("name", .str "Empty")]), ("items", .arr [])]

/-- The entry as `readItem` has built it when it reaches the sections
(lines 139-180): identifier, title, URLs, tags, login fields and notes. -/
def itemBasics (env : Env) (n : Nat) (item : JsonObject) : Entry :=
  let itemMap := item
  let overviewMap := toMap (value itemMap "overview")
  let detailsMap := toMap (value itemMap "details")
  let entry := Entry.new
  let entry := entry.setUuid (env.createUuid n)
  let entry := entry.setTitle (variantToString (value overviewMap "title"))
  let entry := entry.setUrl (variantToString (value overviewMap "url"))
  let entry :=
    if contains overviewMap "urls" then readUrls (toList (value overviewMap "urls")) 1 entry
    else entry
  let entry :=
    if contains overviewMap "tags" then
      entry.setTags (String.intercalate "," (toStringList (value overviewMap "tags")))
    else entry
  let entry :=
    if variantToString (value itemMap "favIndex") = "1" then entry.addTag (env.tr "Favorite")
    else entry
  let entry :=
    if variantToString (value itemMap "state") = "archived" then entry.addTag (env.tr "Archived")
    else entry
  let entry := readLoginFields env (toList (value detailsMap "loginFields")) entry
  entry.setNotes (variantToString (value detailsMap "notesPlain"))

/-- The last steps of `readItem` (lines 242-251): the history is emptied and
the times are set from `createdAt` and `updatedAt`. -/
def itemFinish (item : JsonObject) (entry : Entry) : Entry :=
  entry.removeHistoryItems.setTimeInfo
    (fromSecsSinceEpoch (toULongLong (value item "createdAt")))
    (fromSecsSinceEpoch (toULongLong (value item "updatedAt")))
    (fromSecsSinceEpoch (toULongLong (value item "updatedAt")))

/-- The sections of an item (line 183). -/
def itemSections (item : JsonObject) : List JsonValue :=
  toList (value (toMap (value item "details")) "sections")

/-- An item with the primary URL `P` and `overview.urls = [P, P, X]`, with one
section that has no field. -/
def urlsItem : JsonObject :=
  [("overview", .obj [("title", .str "T"), ("url", .str "P"),
      ("urls", .arr [.obj [("url", .str "P")], .obj [("url", .str "P")],
                     .obj [("url", .str "X")]])]),
   ("details", .obj [("sections", .arr [.obj [("title", .str "S"), ("fields", .arr [])]])])]

/-- The name of a section field before the prefix is put in front of it
(lines 193-196): its title, or its id when the title is empty. -/
def fieldTitle (fieldMap : JsonObject) : String :=
  let name := variantToString (value fieldMap "title")
  if name = "" then variantToString (value fieldMap "id") else name

/-- The field `PIN` of the documented example, tagged `concealed`. -/
def pinField : JsonValue :=
  .obj [("title", .str "PIN"), ("id", .str "CCEF647B399604E8F6Q6C8C3W31AFD407"),
        ("value", .obj [("concealed", .str "12345")])]

/-- A field without title, tagged `string`, with an empty value. -/
def emptyStringField : JsonValue :=
  .obj [("title", .str ""), ("id", .str "F1"), ("value", .obj [("string", .str "")])]

/-- An item with a section field that has no `value` key. -/
def itemFieldWithoutValue : JsonObject :=
  [("overview", .obj [("title", .str "T")]),
   ("details", .obj [("sections", .arr [
     .obj [("title", .str "S"), ("fields", .arr [.obj [("title", .str "F")]])]])])]

/-- An item with a section field whose `value` is an empty object. -/
def itemFieldWithEmptyValue : JsonObject :=
  [("overview", .obj [("title", .str "T")]),
   ("details", .obj [("sections", .arr [
     .obj [("title", .str "S"),
           ("fields", .arr [.obj [("title", .str "F"), ("value", .obj [])]])]])])]

/-- An item with a section field whose `value` is a text, not an object. -/
def itemFieldWithTextValue : JsonObject :=
  [("overview", .obj [("title", .str "T")]),
   ("details", .obj [("sections", .arr [
     .obj [("title", .str "S"),
           ("fields", .arr [.obj [("title", .str "F"), ("value", .str "12345")]])]])])]

/-- The fields of a list of (prefix, field) pairs read one after the other,
as the loops over the sections and their fields do. -/
def readFlat (env : Env) : List (String × JsonValue) → Entry → Except Failure Entry
  | [], entry => .ok entry
  | pf :: rest, entry =>
    match readField env pf.1 pf.2 entry with
    | .error f => .error f
    | .ok entry1 => readFlat env rest entry1

/-- The secrets of the fields tagged `totp` among the given section fields, in
document order. -/
def otpSecrets (fields : List (String × JsonValue)) : List String :=
  fields.filterMap (fun pf =>
    if firstKey (fieldValueMap pf.2) = some "totp" then
      some (variantToString (value (fieldValueMap pf.2) "totp"))
    else none)

/-- The one-time-password state of an entry after the fields tagged `totp` with
the given secrets have been read, for the title `T` and the username `U`: the
first secret gives the primary configuration, and the `j`-th of the further
ones is the concealed attribute under the `j`-th name of the probe, which has
no other of its names in use. -/
def OtpState (env : Env) (T U : String) (entry : Entry) : List String → Prop
  | [] => entry.totp = none ∧ ∀ m, EntryAttributes.find entry.attributes (otpName m) = none
  | s :: more =>
    entry.totp = some (parseSettings (env.toEncoded (otpauthUrl T U s))) ∧
    (∀ j u, more[j]? = some u →
      EntryAttributes.find entry.attributes (otpName j)
        = some ⟨otpName j, env.toEncoded (otpauthUrl T U u), true⟩) ∧
    (∀ m, more.length ≤ m → EntryAttributes.find entry.attributes (otpName m) = none)

/-- The designation of a login field (line 173). -/
def loginDesignation (field : JsonValue) : String :=
  variantToString (value (toMap field) "designation")

/-- The value of a login field (lines 175 and 177). -/
def loginValue (field : JsonValue) : String :=
  variantToString (value (toMap field) "value")

/-- The login fields of an item (line 170). -/
def itemLoginFields (item : JsonObject) : List JsonValue :=
  toList (value (toMap (value item "details")) "loginFields")

/-- The explicit tags of an item, the texts of `overview.tags` (line 160). -/
def explicitTags (item : JsonObject) : List String :=
  toStringList (value (toMap (value item "overview")) "tags")

/-- An item with two explicit tags that is a favorite and archived, with
three login fields. -/
def taggedItem : JsonObject :=
  [("favIndex", .num 1), ("state", .str "archived"),
   ("createdAt", .num 1614298956), ("updatedAt", .num 1635346445),
   ("overview", .obj [("title", .str "T"), ("tags", .arr [.str "work", .str "bank"])]),
   ("details", .obj [("loginFields", .arr [
      .obj [("designation", .str "username"), ("value", .str "first")],
      .obj [("designation", .str "PassWord"), ("value", .str "secret")],
      .obj [("designation", .str "UserName"), ("value", .str "second")],
      .obj [("designation", .str "other"), ("value", .str "ignored")]])])]

/-- The address text built from an address payload (lines 225-228): street,
line break, city, comma and blank, state, blank, zip, line break, country. -/
def addressText (address : JsonObject) : String :=
  variantToString (value address "street") ++ "\n"
    ++ variantToString (value address "city") ++ ", "
    ++ variantToString (value address "state") ++ " "
    ++ variantToString (value address "zip") ++ "\n"
    ++ variantToString (value address "country")

/-- A section field tagged `address` with all five parts. -/
def addressField : JsonValue :=
  .obj [("title", .str "Home"), ("id", .str "A1"),
        ("value", .obj [("address", .obj [("street", .str "1 Main St"), ("city", .str "Springfield"),
          ("state", .str "IL"), ("zip", .num 62701), ("country", .str "US")])])]

/-- A section field tagged `address` whose payload has no part. -/
def emptyAddressField : JsonValue :=
  .obj [("title", .str "Home"), ("value", .obj [("address", .obj [])])]

/-- An entry that has a primary one-time-password configuration and the
attributes `otp`, `otp_2` and `note`. -/
def entryWithOtp : Entry :=
  { Entry.new with
    title := "T", username := "U",
    totp := some (parseSettings "otpauth://totp/T:U?secret=AAA"),
    attributes := [⟨"otp", "first", true⟩, ⟨"otp_2", "second", false⟩, ⟨"note", "third", false⟩] }

/-- A section field tagged `totp`. -/
def totpField : JsonValue :=
  .obj [("title", .str "one-time password"), ("value", .obj [("totp", .str "BBB")])]

/-- The state of an `ImportOpenWidget` that the import of a 1PUX file uses:
the members `m_filename` and `m_error`. -/
structure ImportOpenWidget where
  m_filename : String
  m_error : String
  deriving DecidableEq, Repr

/-- The method `ImportOpenWidget::importOPUX` (lines 99-109): it clears the
error of the widget, runs `convert` of a fresh reader on the file and takes
over the error of the reader when the reader has one. -/
def ImportOpenWidget.importOPUX (env : Env) (fs : String → PathState) (n : Nat)
    (self : ImportOpenWidget) : Except Failure (Option Database × ImportOpenWidget) :=
  let self : ImportOpenWidget := { self with m_error := "" }
  let reader : OPUXReader := { m_error := "" }
  match reader.convert env fs n self.m_filename with
  | .error f => .error f
  | .ok (db, reader) =>
    if reader.hasError then .ok (db, { self with m_error := reader.errorString })
    else .ok (db, self)

/-- What `ImportOpenWidget::openDatabase` ends with (lines 77-83): the signal
`dialogFinished(true)`, or the error message, given by the error text that is
put into it. -/
inductive OpenOutcome where
  | dialogFinished
  | errorMessage (error : String)
  deriving DecidableEq, Repr

/-- The method `ImportOpenWidget::openDatabase` (lines 55-84) for the import
type `IMPORT_OPUX`. -/
def ImportOpenWidget.openDatabase (env : Env) (fs : String → PathState) (n : Nat)
    (self : ImportOpenWidget) : Except Failure (OpenOutcome × ImportOpenWidget) :=
  match self.importOPUX env fs n with
  | .error f => .error f
  | .ok (m_db, self) =>
    match m_db with
    | some _ => .ok (OpenOutcome.dialogFinished, self)
    | none => .ok (OpenOutcome.errorMessage self.m_error, self)

/-- A file system with the missing path `missing.1pux`, the file `notes.txt`
that is not an archive, the archive `other.zip` without the member
`export.data`, and otherwise archives whose member is the text `\x7b\x7d`. -/
def sampleFileSystem : String → PathState :=
  fun path =>
    if path = "missing.1pux" then { fileExists := false, archive := false, exportData := none }
    else if path = "notes.txt" then { fileExists := true, archive := false, exportData := none }
    else if path = "other.zip" then { fileExists := true, archive := true, exportData := none }
    else { fileExists := true, archive := true, exportData := some [ReadResult.bytes [123, 125]] }

/-- The read loop of `readCurrentFile` (lines 319-325) with a record of every
iteration that it starts, in order: the size of the buffer after
`data.resize(data.size() + 8192)`, or `none` when that size is beyond
`INT_MAX` and no `QByteArray` has it, and the offset `bytesRead` at which
`unzReadCurrentFile` is then called to write up to 8192 bytes.  The second
component is the result of the loop. -/
def readCurrentFileTraced :
    List ReadResult → List UInt8 → Nat → List (Option Nat × Nat) × Except Failure (List UInt8 × Nat)
  | [], data, bytesRead =>
    if data.length + 8192 > INT_MAX then ([(none, bytesRead)], .error .undefinedBehaviour)
    else
      ([(some (resize data (data.length + 8192)).length, bytesRead)],
       .ok (resize data (data.length + 8192), bytesRead))
  | .error _ :: _, data, bytesRead =>
    if data.length + 8192 > INT_MAX then ([(none, bytesRead)], .error .undefinedBehaviour)
    else
      ([(some (resize data (data.length + 8192)).length, bytesRead)],
       .ok (resize data (data.length + 8192), bytesRead))
  | .bytes chunk :: rest, data, bytesRead =>
    if data.length + 8192 > INT_MAX then ([(none, bytesRead)], .error .undefinedBehaviour)
    else
      let data := resize data (data.length + 8192)
      let size := data.length
      let chunk := chunk.take 8192
      let data := writeAt data bytesRead chunk
      if chunk.length > 0 then
        ((some size, bytesRead) :: (readCurrentFileTraced rest data (bytesRead + chunk.length)).1,
         (readCurrentFileTraced rest data (bytesRead + chunk.length)).2)
      else ([(some size, bytesRead)], .ok (data, bytesRead))

/-- A member delivered in 262143 reads of 8192 bytes each, 2147475456 bytes in
all. -/
def largeMember : List (List UInt8) :=
  List.replicate 262143 (List.replicate 8192 0)

/-- The count of identifiers generated after the loop over the given sections
(lines 184-189), started at the count `n`. -/
def sectionsCount (env : Env) : Nat → List JsonValue → Nat
  | n, [] => n
  | n, sec :: rest => sectionsCount env (sectionPre env n sec).2 rest

/-- The name prefix that `readItem` uses for the section `sec` of an item
whose sections before it are `secsBefore` (lines 185-189); `n` counts the
identifiers generated before `readItem`. -/
def sectionPreIn (env : Env) (n : Nat) (secsBefore : List JsonValue) (sec : JsonValue) :
    String :=
  (sectionPre env (sectionsCount env (n + 1) secsBefore) sec).1

/-- The section fields that `readItem` reads before a field: those of the
sections before its section, then the fields before it in its section. -/
def fieldsBefore (env : Env) (n : Nat) (secsBefore : List JsonValue) (sec : JsonValue)
    (fBefore : List JsonValue) : List (String × JsonValue) :=
  sectionFields env (n + 1) secsBefore
    ++ fBefore.map (fun f => (sectionPreIn env n secsBefore sec, f))

/-- The section fields that `readItem` reads after a field: the fields after
it in its section, then those of the sections after its section. -/
def fieldsAfter (env : Env) (n : Nat) (secsBefore : List JsonValue) (sec : JsonValue)
    (fAfter secsAfter : List JsonValue) : List (String × JsonValue) :=
  fAfter.map (fun f => (sectionPreIn env n secsBefore sec, f))
    ++ sectionFields env (sectionPre env (sectionsCount env (n + 1) secsBefore) sec).2 secsAfter

/-- A section `Security` with a concealed field and a field whose text is
empty. -/
def securityFieldsSection : JsonValue :=
  .obj [("title", .str "Security"), ("fields", .arr [pinField, emptyStringField])]

/-- A section `Addresses` with an address and a one-time-password field. -/
def addressesSection : JsonValue :=
  .obj [("title", .str "Addresses"), ("fields", .arr [addressField, totpField])]

/-- A section without title with an address that has no part. -/
def untitledSection : JsonValue :=
  .obj [("title", .str ""), ("fields", .arr [emptyAddressField])]

/-- An item with the three sections `securityFieldsSection`,
`addressesSection` and `untitledSection`. -/
def sectionsItem : JsonObject :=
  [("overview", .obj [("title", .str "T")]),
   ("details", .obj [("sections",
      .arr [securityFieldsSection, addressesSection, untitledSection])])]

/-! ## Properties -/

theorem digitChar_toNat (k : Nat) (h : k < 10) : (Nat.digitChar k).toNat - 48 = k := by
  interval_cases k <;> rfl

theorem toDigitsCore_foldl (fuel : Nat) : ∀ (n : Nat) (ds : List Char), n < fuel →
    List.foldl (fun a c => 10 * a + (c.toNat - 48)) 0 (Nat.toDigitsCore 10 fuel n ds)
      = List.foldl (fun a c => 10 * a + (c.toNat - 48)) n ds := by
  induction fuel with
  | zero => intro n ds h; omega
  | succ fuel ih =>
    intro n ds h
    simp only [Nat.toDigitsCore]
    split
    · rename_i h0
      have hn : n < 10 := by omega
      simp only [List.foldl_cons, Nat.mul_zero, Nat.zero_add]
      rw [Nat.mod_eq_of_lt hn, digitChar_toNat n hn]
    · rename_i h0
      rw [ih (n / 10) _ (by omega)]
      simp only [List.foldl_cons]
      rw [digitChar_toNat (n % 10) (Nat.mod_lt _ (by decide))]
      congr 1
      omega

theorem natToString_injective : Function.Injective (fun n : Nat => toString n) := by
  intro a b h
  have h1 : Nat.toDigits 10 a = Nat.toDigits 10 b := by
    have : (Nat.repr a) = (Nat.repr b) := h
    unfold Nat.repr at this
    exact congrArg String.data this
  have ha := toDigitsCore_foldl (a + 1) a [] (by omega)
  have hb := toDigitsCore_foldl (b + 1) b [] (by omega)
  unfold Nat.toDigits at h1
  rw [h1, hb] at ha
  simpa using ha.symm

theorem otpName_injective : Function.Injective otpName := by
  intro a b h
  unfold otpName at h
  by_cases ha : a = 0 <;> by_cases hb : b = 0
  · omega
  · simp only [ha, hb, if_true, if_false] at h
    have := congrArg String.data h
    simp [String.data_append] at this
  · simp only [ha, hb, if_true, if_false] at h
    have := congrArg String.data h
    simp [String.data_append] at this
  · simp only [ha, hb, if_false] at h
    have := congrArg String.data h
    simp only [String.data_append, List.append_cancel_left_eq] at this
    exact natToString_injective (String.ext this)

theorem otpName_zero : otpName 0 = "otp" := rfl

theorem otpName_succ (i : Nat) : otpName (i + 1) = "otp_" ++ toString (i + 1) := by
  simp [otpName]

/-- The probe started at the `i`-th name stops at the first unused name. -/
theorem otpProbe_eq (keys : List String) (m : Nat) (hm : otpName m ∉ keys) :
    ∀ (fuel i : Nat), i ≤ m → m - i < fuel → (∀ j, i ≤ j → j < m → otpName j ∈ keys) →
      otpProbe keys fuel i (otpName i) = some (otpName m) := by
  intro fuel
  induction fuel with
  | zero => intro i _ h; omega
  | succ fuel ih =>
    intro i hi hf hall
    unfold otpProbe
    by_cases him : i = m
    · subst him
      simp [hm]
    · have hin : otpName i ∈ keys := hall i (le_refl _) (by omega)
      simp only [hin, if_true]
      rw [← otpName_succ]
      exact ih (i + 1) (by omega) (by omega) (fun j h1 h2 => hall j (by omega) h2)

theorem otpName_count_le (keys : List String) (m : Nat)
    (hall : ∀ j, j < m → otpName j ∈ keys) : m ≤ keys.length := by
  have hnd : ((List.range m).map otpName).Nodup :=
    (List.nodup_range m).map otpName_injective
  have hsub : (List.range m).map otpName ⊆ keys := by
    intro x hx
    rcases List.mem_map.1 hx with ⟨j, hj, rfl⟩
    exact hall j (List.mem_range.1 hj)
  have := (hnd.subperm hsub).length_le
  simpa using this

theorem otpName_first_unused (keys : List String) :
    ∃ m, otpName m ∉ keys ∧ ∀ j, j < m → otpName j ∈ keys := by
  have hex : ∃ m, otpName m ∉ keys := by
    by_contra hno
    push_neg at hno
    have := otpName_count_le keys (keys.length + 1) (fun j _ => hno j)
    omega
  classical
  refine ⟨Nat.find hex, Nat.find_spec hex, fun j hj => ?_⟩
  by_contra hjn
  exact Nat.find_min hex hj hjn

/-- The name probe ends: with one more test than there are attribute names it
returns the first unused name. -/
theorem otpProbe_first_unused (keys : List String) (m : Nat) (hm : otpName m ∉ keys)
    (hall : ∀ j, j < m → otpName j ∈ keys) :
    otpProbe keys (keys.length + 1) 0 "otp" = some (otpName m) := by
  have hle := otpName_count_le keys m hall
  have := otpProbe_eq keys m hm (keys.length + 1) 0 (Nat.zero_le _) (by omega)
    (fun j _ h => hall j h)
  simpa [otpName_zero] using this

theorem otpProbe_terminates (keys : List String) :
    ∃ name, otpProbe keys (keys.length + 1) 0 "otp" = some name := by
  rcases otpName_first_unused keys with ⟨m, hm, hall⟩
  exact ⟨otpName m, otpProbe_first_unused keys m hm hall⟩

/-! attribute lemmas -/

theorem find_set_same (attrs : List Attribute) (key v : String) (p : Bool) :
    EntryAttributes.find (EntryAttributes.set attrs key v p) key = some ⟨key, v, p⟩ := by
  induction attrs with
  | nil => simp [EntryAttributes.set, EntryAttributes.find]
  | cons a rest ih =>
    unfold EntryAttributes.set
    by_cases h : a.name = key
    · simp [h, EntryAttributes.find]
    · simp only [h, if_false]
      unfold EntryAttributes.find at ih ⊢
      rw [List.find?_cons]
      simp [h, ih]

theorem find_set_other (attrs : List Attribute) (key v : String) (p : Bool) (k : String)
    (hk : k ≠ key) :
    EntryAttributes.find (EntryAttributes.set attrs key v p) k = EntryAttributes.find attrs k := by
  induction attrs with
  | nil => simp [EntryAttributes.set, EntryAttributes.find, Ne.symm hk]
  | cons a rest ih =>
    unfold EntryAttributes.set
    by_cases h : a.name = key
    · have : a.name ≠ k := by rw [h]; exact Ne.symm hk
      simp [h, EntryAttributes.find, List.find?_cons, this, Ne.symm hk]
    · simp only [h, if_false]
      unfold EntryAttributes.find at ih ⊢
      rw [List.find?_cons, List.find?_cons, ih]

theorem mem_keys_set (attrs : List Attribute) (key v : String) (p : Bool) (k : String) :
    k ∈ EntryAttributes.keys (EntryAttributes.set attrs key v p) ↔
      k = key ∨ k ∈ EntryAttributes.keys attrs := by
  induction attrs with
  | nil => simp [EntryAttributes.set, EntryAttributes.keys]
  | cons a rest ih =>
    unfold EntryAttributes.set
    by_cases h : a.name = key
    · simp only [h, if_true, EntryAttributes.keys, List.map_cons, List.mem_cons]
      tauto
    · simp only [h, if_false]
      unfold EntryAttributes.keys at ih ⊢
      simp only [List.map_cons, List.mem_cons, ih]
      tauto

theorem mem_keys_iff_find (attrs : List Attribute) (k : String) :
    k ∈ EntryAttributes.keys attrs ↔ (EntryAttributes.find attrs k).isSome := by
  unfold EntryAttributes.keys EntryAttributes.find
  simp [List.find?_isSome]

/-! ### `readItem` returns an entry when every section field has a tagged value -/

theorem readField_ok (env : Env) (pre : String) (field : JsonValue) (entry : Entry)
    (h : fieldTagged field = true) : ∃ e, readField env pre field entry = .ok e := by
  unfold fieldTagged fieldValueMap at h
  unfold readField
  rcases hk : firstKey (toMap (value (toMap field) "value")) with _ | key
  · rw [hk] at h; simp at h
  · simp only [hk]
    by_cases htotp : key = "totp"
    · simp only [htotp, if_true]
      by_cases hhas : entry.hasTotp = true
      · simp only [hhas, if_true]
        rcases otpProbe_terminates (EntryAttributes.keys entry.attributes) with ⟨name, hname⟩
        rw [hname]
        exact ⟨_, rfl⟩
      · simp only [hhas]
        exact ⟨_, rfl⟩
    · simp only [htotp, if_false]
      split
      · exact ⟨_, rfl⟩
      · exact ⟨_, rfl⟩

theorem readFields_ok (env : Env) (pre : String) (fields : List JsonValue) :
    ∀ (entry : Entry), (∀ f ∈ fields, fieldTagged f = true) →
      ∃ e, readFields env pre fields entry = .ok e := by
  induction fields with
  | nil => intro entry _; exact ⟨entry, rfl⟩
  | cons f rest ih =>
    intro entry h
    rcases readField_ok env pre f entry (h f (List.mem_cons_self _ _)) with ⟨e1, he1⟩
    rcases ih e1 (fun g hg => h g (List.mem_cons_of_mem _ hg)) with ⟨e2, he2⟩
    refine ⟨e2, ?_⟩
    simp only [readFields, he1, he2]

theorem readSections_ok (env : Env) (sections : List JsonValue) :
    ∀ (n : Nat) (entry : Entry),
      (∀ sec ∈ sections, ∀ f ∈ toList (value (toMap sec) "fields"), fieldTagged f = true) →
      ∃ e k, readSections env n sections entry = .ok (e, k) := by
  induction sections with
  | nil => intro n entry _; exact ⟨entry, n, rfl⟩
  | cons sec rest ih =>
    intro n entry h
    rcases readFields_ok env (sectionPre env n sec).1 (toList (value (toMap sec) "fields")) entry
      (h sec (List.mem_cons_self _ _)) with ⟨e1, he1⟩
    rcases ih (sectionPre env n sec).2 e1 (fun s hs => h s (List.mem_cons_of_mem _ hs))
      with ⟨e2, k, he2⟩
    refine ⟨e2, k, ?_⟩
    simp only [readSections, he1, he2]

theorem readItem_ok (env : Env) (n : Nat) (item : JsonObject) (h : fieldsTagged item = true) :
    ∃ e k, readItem env n item = .ok (e, k) := by
  unfold fieldsTagged at h
  simp only [List.all_eq_true] at h
  unfold readItem
  simp only []
  rcases readSections_ok env (toList (value (toMap (value item "details")) "sections")) (n + 1)
    _ h with ⟨e, k, he⟩
  rw [he]
  exact ⟨_, _, rfl⟩

theorem length_resize (data : List UInt8) (size : Nat) : (resize data size).length = size := by
  unfold resize
  simp only [List.length_append, List.length_take, List.length_replicate]
  omega

theorem length_writeAt (data : List UInt8) (offset : Nat) (chunk : List UInt8)
    (h : offset + chunk.length ≤ data.length) : (writeAt data offset chunk).length = data.length := by
  unfold writeAt
  simp only [List.length_append, List.length_take, List.length_drop]
  omega

theorem take_resize (data : List UInt8) (size k : Nat) (h1 : k ≤ size) (h2 : k ≤ data.length) :
    List.take k (resize data size) = List.take k data := by
  unfold resize
  rw [List.take_append_of_le_length (by rw [List.length_take]; omega), List.take_take]
  congr 1
  omega

theorem take_writeAt_zero (data chunk : List UInt8) :
    List.take chunk.length (writeAt data 0 chunk) = chunk := by
  unfold writeAt
  rw [List.take_zero, List.nil_append, List.take_append_of_le_length (le_refl _), List.take_length]

/-- A member that is delivered by a single read of at most 8192 bytes is
read as it is. -/
theorem readMember_single (chunk : List UInt8) (h0 : 0 < chunk.length)
    (h1 : chunk.length ≤ 8192) : readMember [ReadResult.bytes chunk] = .ok chunk := by
  have htake : List.take 8192 chunk = chunk := List.take_of_length_le h1
  have hlen : (writeAt (resize [] 8192) 0 chunk).length = 8192 := by
    rw [length_writeAt _ _ _ (by rw [length_resize]; omega), length_resize]
  have hdata : List.take chunk.length
      (resize (writeAt (resize [] 8192) 0 chunk) (8192 + 8192)) = chunk := by
    rw [take_resize _ _ _ (by omega) (by omega), take_writeAt_zero]
  unfold readMember
  simp only [readCurrentFile, List.length_nil, INT_MAX, htake, Nat.zero_add, h0,
    gt_iff_lt, if_true, show ¬ (2147483647 < 8192) by decide, if_false, hlen,
    show ¬ (2147483647 < 8192 + 8192) by decide, hdata]

/-- The form of `convert` once the member has been read. -/
theorem convert_of_member (env : Env) (fs : String → PathState) (n : Nat) (self : OPUXReader)
    (path : String) (reads : List ReadResult) (data : List UInt8)
    (hfile : (fs path).fileExists = true) (harchive : (fs path).archive = true)
    (hmember : (fs path).exportData = some reads) (hread : readMember reads = .ok data) :
    (∀ db k, readVaults env n (documentVaults (env.fromJson data)) Database.create = .ok (db, k) →
      OPUXReader.convert env fs n self path = .ok (some db, ⟨""⟩)) ∧
    (∀ f, readVaults env n (documentVaults (env.fromJson data)) Database.create = .error f →
      OPUXReader.convert env fs n self path = .error f) := by
  unfold OPUXReader.convert
  simp only [hfile, harchive, hmember, hread, Bool.not_true, Bool.false_eq_true, if_false]
  constructor
  · intro db k h; rw [h]
  · intro f h; rw [h]

theorem value_of_not_contains (o : JsonObject) (key : String) (h : contains o key = false) :
    value o key = JsonValue.null := by
  unfold contains at h
  unfold value
  cases hl : List.lookup key o with
  | none => rfl
  | some v => rw [hl] at h; simp at h

/-- The loop over the items attaches one entry per element, in order. -/
theorem readVaultItems_spec (env : Env) (items : List JsonValue) :
    ∀ (n : Nat) (group : Group), (∀ it ∈ items, fieldsTagged (toObject it) = true) →
      ∃ es k, readVaultItems env n items group
          = .ok ({ group with entries := group.entries ++ es }, k) ∧
        List.Forall₂ (fun it e => ∃ a b, readItem env a (toObject it) = .ok (e, b)) items es := by
  induction items with
  | nil =>
    intro n group _
    exact ⟨[], n, by simp [readVaultItems], List.Forall₂.nil⟩
  | cons it rest ih =>
    intro n group h
    rcases readItem_ok env n (toObject it) (h it (List.mem_cons_self _ _)) with ⟨e, k, he⟩
    rcases ih k (e.setGroup group) (fun x hx => h x (List.mem_cons_of_mem _ hx))
      with ⟨es, k2, hes, hall⟩
    refine ⟨e :: es, k2, ?_, List.Forall₂.cons ⟨n, k, he⟩ hall⟩
    simp only [readVaultItems, he]
    rw [hes]
    simp only [Entry.setGroup, List.append_assoc, List.singleton_append]

/-- When the loop over the items returns, it has attached one entry per
element, in order. -/
theorem readVaultItems_inv (env : Env) (items : List JsonValue) :
    ∀ (n : Nat) (group g : Group) (k : Nat), readVaultItems env n items group = .ok (g, k) →
      ∃ es, g = { group with entries := group.entries ++ es } ∧
        List.Forall₂ (fun it e => ∃ a b, readItem env a (toObject it) = .ok (e, b)) items es := by
  induction items with
  | nil =>
    intro n group g k h
    simp only [readVaultItems, Except.ok.injEq, Prod.mk.injEq] at h
    exact ⟨[], by simp [← h.1], List.Forall₂.nil⟩
  | cons it rest ih =>
    intro n group g k h
    unfold readVaultItems at h
    cases hr : readItem env n (toObject it) with
    | error f => rw [hr] at h; simp at h
    | ok r =>
      rcases r with ⟨e, k1⟩
      rw [hr] at h
      rcases ih k1 (e.setGroup group) g k h with ⟨es, hg, hall⟩
      refine ⟨e :: es, ?_, List.Forall₂.cons ⟨n, k1, hr⟩ hall⟩
      rw [hg]
      simp only [Entry.setGroup, List.append_assoc, List.singleton_append]

theorem readVault_lacking (env : Env) (n : Nat) (vault : JsonObject)
    (h : contains vault "attrs" = false ∨ contains vault "items" = false) :
    readVault env n vault = .ok (none, n) := by
  unfold readVault
  rcases h with h | h <;> simp [h]

theorem readVault_present (env : Env) (n : Nat) (vault : JsonObject)
    (ha : contains vault "attrs" = true) (hi : contains vault "items" = true) :
    (∀ g k, readVaultItems env (n + 1) (toArray (value vault "items"))
        { uuid := env.createUuid n,
          name := jsonToString (value (toObject (value vault "attrs")) "name"),
          entries := [] } = .ok (g, k) → readVault env n vault = .ok (some g, k)) ∧
    (∀ f, readVaultItems env (n + 1) (toArray (value vault "items"))
        { uuid := env.createUuid n,
          name := jsonToString (value (toObject (value vault "attrs")) "name"),
          entries := [] } = .error f → readVault env n vault = .error f) := by
  unfold readVault
  simp only [ha, hi, Bool.not_true, Bool.or_self, Bool.false_eq_true, if_false]
  constructor
  · intro g k h; rw [h]
  · intro f h; rw [h]

theorem readVaultItems_name (env : Env) (items : List JsonValue) :
    ∀ (n : Nat) (group g : Group) (k : Nat), readVaultItems env n items group = .ok (g, k) →
      g.name = group.name := by
  induction items with
  | nil =>
    intro n group g k h
    simp only [readVaultItems, Except.ok.injEq, Prod.mk.injEq] at h
    rw [← h.1]
  | cons it rest ih =>
    intro n group g k h
    unfold readVaultItems at h
    cases hr : readItem env n (toObject it) with
    | error f => rw [hr] at h; simp at h
    | ok r =>
      rcases r with ⟨e, k1⟩
      rw [hr] at h
      exact ih k1 (e.setGroup group) g k h

/-- The loop over the vaults passes over a vault that lacks `attrs` or `items`. -/
theorem readVaults_skip (env : Env) (vault : JsonObject) (after : List JsonValue)
    (h : contains vault "attrs" = false ∨ contains vault "items" = false) :
    ∀ (before : List JsonValue) (n : Nat) (db : Database),
      readVaults env n (before ++ JsonValue.obj vault :: after) db
        = readVaults env n (before ++ after) db := by
  intro before
  induction before with
  | nil =>
    intro n db
    simp only [List.nil_append, readVaults, toObject, readVault_lacking env n vault h]
  | cons v rest ih =>
    intro n db
    simp only [List.cons_append, readVaults]
    cases hr : readVault env n (toObject v) with
    | error f => rfl
    | ok r =>
      rcases r with ⟨_ | g, k⟩
      · exact ih k db
      · exact ih k _

/-- C1: for a parsed document with exactly one account and exactly one vault
that has `attrs` and an `items` array of N elements: whenever `convert` returns,
it returns a store with exactly one group under its root and no error; that
group holds exactly N entries, and the i-th entry is `readItem` of the i-th
element of the array.  And `convert` does return when `readItem` is defined on
the elements, that is when each of their section fields has a tagged value. -/
theorem convert_single_vault (env : Env) (fs : String → PathState) (n : Nat) (self : OPUXReader)
    (path : String) (reads : List ReadResult) (data : List UInt8)
    (doc account vault : JsonValue)
    (hfile : (fs path).fileExists = true) (harchive : (fs path).archive = true)
    (hmember : (fs path).exportData = some reads) (hread : readMember reads = .ok data)
    (hparse : env.fromJson data = some doc)
    (haccounts : toArray (value (toObject doc) "accounts") = [account])
    (hvaults : toArray (value (toObject account) "vaults") = [vault])
    (hattrs : contains (toObject vault) "attrs" = true)
    (hitems : contains (toObject vault) "items" = true) :
    (∀ db self1, OPUXReader.convert env fs n self path = .ok (db, self1) →
      self1.hasError = false ∧
      ∃ g, db = some ⟨[g]⟩ ∧
        g.entries.length = (toArray (value (toObject vault) "items")).length ∧
        List.Forall₂ (fun it e => ∃ a b, readItem env a (toObject it) = .ok (e, b))
          (toArray (value (toObject vault) "items")) g.entries) ∧
    ((∀ it ∈ toArray (value (toObject vault) "items"), fieldsTagged (toObject it) = true) →
      ∃ db self1, OPUXReader.convert env fs n self path = .ok (some db, self1)) := by
  have hdoc : documentVaults (env.fromJson data) = [vault] := by
    unfold documentVaults
    simp only [hparse, haccounts, first, List.head?_cons, Option.getD_some, hvaults]
  have hconv := convert_of_member env fs n self path reads data hfile harchive hmember hread
  have hpres := readVault_present env n (toObject vault) hattrs hitems
  rw [hdoc] at hconv
  constructor
  · intro db self1 hret
    cases hitems1 : readVaultItems env (n + 1) (toArray (value (toObject vault) "items"))
        { uuid := env.createUuid n,
          name := jsonToString (value (toObject (value (toObject vault) "attrs")) "name"),
          entries := [] } with
    | error f =>
      have hv := hpres.2 f hitems1
      have hloop : readVaults env n [vault] Database.create = .error f := by
        simp only [readVaults, hv]
      rw [hconv.2 f hloop] at hret
      simp at hret
    | ok r =>
      rcases r with ⟨g, k⟩
      have hv := hpres.1 g k hitems1
      have hloop : readVaults env n [vault] Database.create = .ok (⟨[g]⟩, k) := by
        simp only [readVaults, hv, Group.setParent, Database.create, List.nil_append]
      rw [hconv.1 _ _ hloop] at hret
      simp only [Except.ok.injEq, Prod.mk.injEq] at hret
      rcases readVaultItems_inv env _ _ _ _ _ hitems1 with ⟨es, hg, hall⟩
      refine ⟨by rw [← hret.2]; rfl, g, hret.1.symm, ?_, ?_⟩
      · rw [hg]; simpa using hall.length_eq.symm
      · rw [hg]; simpa using hall
  · intro htagged
    rcases readVaultItems_spec env (toArray (value (toObject vault) "items")) (n + 1)
      { uuid := env.createUuid n,
        name := jsonToString (value (toObject (value (toObject vault) "attrs")) "name"),
        entries := [] } htagged with ⟨es, k, hes, _⟩
    have hv := hpres.1 _ _ hes
    have hloop : readVaults env n [vault] Database.create
        = .ok (⟨[{ uuid := env.createUuid n,
                   name := jsonToString (value (toObject (value (toObject vault) "attrs")) "name"),
                   entries := [] ++ es }]⟩, k) := by
      simp only [readVaults, hv, Group.setParent, Database.create, List.nil_append]
    exact ⟨_, _, hconv.1 _ k hloop⟩

/-- C1 (witness): the sample document with one account and one vault of two
items, read from a sample archive. -/
theorem convert_single_vault_witness :
    (∀ db self1, OPUXReader.convert (sampleEnvWith sampleExport) (sampleFiles [[123, 125]]) 0
        ⟨"old"⟩ "sample.1pux" = .ok (db, self1) →
      self1.hasError = false ∧
      ∃ g, db = some ⟨[g]⟩ ∧
        g.entries.length = (toArray (value (toObject sampleVault) "items")).length ∧
        List.Forall₂ (fun it e => ∃ a b,
            readItem (sampleEnvWith sampleExport) a (toObject it) = .ok (e, b))
          (toArray (value (toObject sampleVault) "items")) g.entries) ∧
    (∃ db self1, OPUXReader.convert (sampleEnvWith sampleExport) (sampleFiles [[123, 125]]) 0
        ⟨"old"⟩ "sample.1pux" = .ok (some db, self1)) :=
  have h := convert_single_vault (sampleEnvWith sampleExport) (sampleFiles [[123, 125]]) 0 ⟨"old"⟩
    "sample.1pux" [ReadResult.bytes [123, 125]] [123, 125] sampleExport
    (.obj [("vaults", .arr [sampleVault])]) sampleVault rfl rfl rfl
    (readMember_single _ (by decide) (by decide)) rfl rfl rfl rfl rfl
  ⟨h.1, h.2 (by decide)⟩

/-- C2: on the vault of the documented example, whose item has the documented
shape (the record nested under the key `item`, with overview.title "Dropbox"
and overview.url "https://www.dropbox.com/"), `readVault` produces one entry
whose title and primary URL are empty, like every other field of it: `readItem`
is handed the element itself and looks for `overview` and `details` beside
`item`, not inside it. -/
theorem readVault_documented_item_empty :
    readVault sampleEnv 0 documentedVault
      = .ok (some { uuid := sampleEnv.createUuid 0, name := "Personal",
                    entries := [Entry.new.setUuid (sampleEnv.createUuid 1)] }, 2) := by
  rfl

/-- C3 (counterexample): the bytes `oops` are not a well-formed document for
the sample parser, yet `convert` returns a store (with no group) and leaves the
error empty, so that `hasError()` is false. -/
theorem convert_malformed_counterexample :
    sampleEnv.fromJson [111, 111, 112, 115] = none ∧
    OPUXReader.convert sampleEnv (sampleFiles [[111, 111, 112, 115]]) 0 ⟨"old"⟩ "sample.1pux"
      = .ok (some ⟨[]⟩, ⟨""⟩) ∧
    OPUXReader.hasError ⟨""⟩ = false :=
  ⟨rfl,
   (convert_of_member sampleEnv (sampleFiles [[111, 111, 112, 115]]) 0 ⟨"old"⟩ "sample.1pux"
      [ReadResult.bytes [111, 111, 112, 115]] [111, 111, 112, 115] rfl rfl rfl
      (readMember_single _ (by decide) (by decide))).1 ⟨[]⟩ 0 rfl,
   by decide⟩

/-- C3 (amended): if the bytes of the archive member `export.data` are not a
well-formed document (the parser fails on them), `convert` returns a store
whose root has no group, and `hasError()` is false afterwards. -/
theorem convert_malformed_empty_store (env : Env) (fs : String → PathState) (n : Nat)
    (self : OPUXReader) (path : String) (reads : List ReadResult) (data : List UInt8)
    (hfile : (fs path).fileExists = true) (harchive : (fs path).archive = true)
    (hmember : (fs path).exportData = some reads) (hread : readMember reads = .ok data)
    (hparse : env.fromJson data = none) :
    ∃ self1, OPUXReader.convert env fs n self path = .ok (some ⟨[]⟩, self1) ∧
      self1.hasError = false := by
  refine ⟨⟨""⟩, ?_, by decide⟩
  refine (convert_of_member env fs n self path reads data hfile harchive hmember hread).1
    ⟨[]⟩ n ?_
  rw [hparse]
  rfl

/-- C3 (witness): the bytes `\x7b\x7d\x7d`, which the sample parser rejects. -/
theorem convert_malformed_empty_store_witness :
    ∃ self1, OPUXReader.convert sampleEnv (sampleFiles [[123, 125, 125]]) 7 ⟨"old"⟩ "sample.1pux"
        = .ok (some ⟨[]⟩, self1) ∧ self1.hasError = false :=
  convert_malformed_empty_store sampleEnv (sampleFiles [[123, 125, 125]]) 7 ⟨"old"⟩ "sample.1pux"
    [ReadResult.bytes [123, 125, 125]] [123, 125, 125] rfl rfl rfl
    (readMember_single _ (by decide) (by decide)) rfl

/-- C5: for a well-formed document in which the key `accounts` is absent, or
the accounts array is empty, or the first account has no `vaults` key,
`convert` returns a store whose root has no group, and `hasError()` is false
afterwards. -/
theorem convert_no_vaults (env : Env) (fs : String → PathState) (n : Nat)
    (self : OPUXReader) (path : String) (reads : List ReadResult) (data : List UInt8)
    (doc : JsonValue)
    (hfile : (fs path).fileExists = true) (harchive : (fs path).archive = true)
    (hmember : (fs path).exportData = some reads) (hread : readMember reads = .ok data)
    (hparse : env.fromJson data = some doc)
    (h : contains (toObject doc) "accounts" = false ∨
      toArray (value (toObject doc) "accounts") = [] ∨
      contains (toObject (first (toArray (value (toObject doc) "accounts")))) "vaults" = false) :
    ∃ self1, OPUXReader.convert env fs n self path = .ok (some ⟨[]⟩, self1) ∧
      self1.hasError = false := by
  refine ⟨⟨""⟩, ?_, by decide⟩
  refine (convert_of_member env fs n self path reads data hfile harchive hmember hread).1
    ⟨[]⟩ n ?_
  have hv : documentVaults (env.fromJson data) = [] := by
    unfold documentVaults
    simp only [hparse]
    rcases h with h | h | h
    · rw [value_of_not_contains _ _ h]
      rfl
    · rw [h]
      rfl
    · rw [value_of_not_contains _ _ h]
      rfl
  rw [hv]
  rfl

/-- C5 (witness): a document without `accounts`, one with an empty accounts
array, and one whose first account has no `vaults`. -/
theorem convert_no_vaults_witness :
    (∃ self1, OPUXReader.convert sampleEnv (sampleFiles [[123, 125]]) 0 ⟨"old"⟩ "sample.1pux"
        = .ok (some ⟨[]⟩, self1) ∧ self1.hasError = false) ∧
    (∃ self1, OPUXReader.convert (sampleEnvWith (.obj [("accounts", .arr [])]))
        (sampleFiles [[123, 125]]) 0 ⟨"old"⟩ "sample.1pux"
        = .ok (some ⟨[]⟩, self1) ∧ self1.hasError = false) ∧
    (∃ self1, OPUXReader.convert (sampleEnvWith (.obj [("accounts", .arr [.obj []])]))
        (sampleFiles [[123, 125]]) 0 ⟨"old"⟩ "sample.1pux"
        = .ok (some ⟨[]⟩, self1) ∧ self1.hasError = false) :=
  ⟨convert_no_vaults sampleEnv (sampleFiles [[123, 125]]) 0 ⟨"old"⟩ "sample.1pux"
      [ReadResult.bytes [123, 125]] [123, 125] (.obj []) rfl rfl rfl
      (readMember_single _ (by decide) (by decide)) rfl (Or.inl rfl),
   convert_no_vaults (sampleEnvWith (.obj [("accounts", .arr [])])) (sampleFiles [[123, 125]]) 0
      ⟨"old"⟩ "sample.1pux" [ReadResult.bytes [123, 125]] [123, 125] _ rfl rfl rfl
      (readMember_single _ (by decide) (by decide)) rfl (Or.inr (Or.inl rfl)),
   convert_no_vaults (sampleEnvWith (.obj [("accounts", .arr [.obj []])]))
      (sampleFiles [[123, 125]]) 0
      ⟨"old"⟩ "sample.1pux" [ReadResult.bytes [123, 125]] [123, 125] _ rfl rfl rfl
      (readMember_single _ (by decide) (by decide)) rfl (Or.inr (Or.inr rfl))⟩

/-- C4: `readVault` returns no group if and only if the vault lacks the key
`attrs` or lacks the key `items`; a group it returns has the name `attrs.name`
(empty when absent), and it returns one when both keys are present and
`readItem` is defined on the items; when `convert` meets a vault without
`attrs` or `items` among the vaults of the document, the store it returns is
the one built from the other vaults, and `hasError()` is false. -/
theorem readVault_none_iff (env : Env) (n : Nat) (vault : JsonObject) :
    ((∃ k, readVault env n vault = .ok (none, k)) ↔
      (contains vault "attrs" = false ∨ contains vault "items" = false)) ∧
    (∀ g k, readVault env n vault = .ok (some g, k) →
      g.name = jsonToString (value (toObject (value vault "attrs")) "name")) ∧
    (contains vault "attrs" = true → contains vault "items" = true →
      (∀ it ∈ toArray (value vault "items"), fieldsTagged (toObject it) = true) →
      ∃ g k, readVault env n vault = .ok (some g, k)) ∧
    (∀ (fs : String → PathState) (m : Nat) (self : OPUXReader) (path : String)
        (reads : List ReadResult) (data : List UInt8) (before after : List JsonValue)
        (db : Database) (k : Nat),
      (fs path).fileExists = true → (fs path).archive = true →
      (fs path).exportData = some reads → readMember reads = .ok data →
      documentVaults (env.fromJson data) = before ++ JsonValue.obj vault :: after →
      (contains vault "attrs" = false ∨ contains vault "items" = false) →
      readVaults env m (before ++ after) Database.create = .ok (db, k) →
      ∃ self1, OPUXReader.convert env fs m self path = .ok (some db, self1) ∧
        self1.hasError = false) := by
  refine ⟨⟨?_, fun h => ⟨n, readVault_lacking env n vault h⟩⟩, ?_, ?_, ?_⟩
  · rintro ⟨k, hk⟩
    by_contra hno
    have ha : contains vault "attrs" = true := by
      cases hc : contains vault "attrs" with
      | true => rfl
      | false => exact absurd (Or.inl hc) hno
    have hi : contains vault "items" = true := by
      cases hc : contains vault "items" with
      | true => rfl
      | false => exact absurd (Or.inr hc) hno
    have hp := readVault_present env n vault ha hi
    cases hr : readVaultItems env (n + 1) (toArray (value vault "items"))
        { uuid := env.createUuid n,
          name := jsonToString (value (toObject (value vault "attrs")) "name"),
          entries := [] } with
    | error f => rw [hp.2 f hr] at hk; simp at hk
    | ok r => rw [hp.1 r.1 r.2 hr] at hk; simp at hk
  · intro g k hg
    have ha : contains vault "attrs" = true := by
      cases hc : contains vault "attrs" with
      | true => rfl
      | false => rw [readVault_lacking env n vault (Or.inl hc)] at hg; simp at hg
    have hi : contains vault "items" = true := by
      cases hc : contains vault "items" with
      | true => rfl
      | false => rw [readVault_lacking env n vault (Or.inr hc)] at hg; simp at hg
    have hp := readVault_present env n vault ha hi
    cases hr : readVaultItems env (n + 1) (toArray (value vault "items"))
        { uuid := env.createUuid n,
          name := jsonToString (value (toObject (value vault "attrs")) "name"),
          entries := [] } with
    | error f => rw [hp.2 f hr] at hg; simp at hg
    | ok r =>
      rw [hp.1 r.1 r.2 hr] at hg
      simp only [Except.ok.injEq, Prod.mk.injEq, Option.some.injEq] at hg
      rw [← hg.1]
      exact readVaultItems_name env _ _ _ _ _ hr
  · intro ha hi htagged
    rcases readVaultItems_spec env (toArray (value vault "items")) (n + 1)
      { uuid := env.createUuid n,
        name := jsonToString (value (toObject (value vault "attrs")) "name"),
        entries := [] } htagged with ⟨es, k, hes, _⟩
    exact ⟨_, _, (readVault_present env n vault ha hi).1 _ _ hes⟩
  · intro fs m self path reads data before after db k hfile harchive hmember hread hdoc hlack hrest
    refine ⟨⟨""⟩, ?_, by decide⟩
    refine (convert_of_member env fs m self path reads data hfile harchive hmember hread).1
      db k ?_
    rw [hdoc, readVaults_skip env vault after hlack before m Database.create]
    exact hrest

/-- C4 (witness): a vault without `items`, the documented vault, and a
document whose vaults are a vault without `items` followed by an empty vault. -/
theorem readVault_none_iff_witness :
    (∃ k, readVault sampleEnv 0 vaultWithoutItems = .ok (none, k)) ∧
    (∃ g k, readVault sampleEnv 0 documentedVault = .ok (some g, k)) ∧
    (∃ self1, OPUXReader.convert
        (sampleEnvWith (.obj [("accounts", .arr [.obj [("vaults",
          .arr [.obj vaultWithoutItems, .obj emptyVault])]])]))
        (sampleFiles [[123, 125]]) 0 ⟨"old"⟩ "sample.1pux"
        = .ok (some ⟨[{ uuid := sampleEnv.createUuid 0, name := "Empty", entries := [] }]⟩, self1) ∧
      self1.hasError = false) :=
  ⟨(readVault_none_iff sampleEnv 0 vaultWithoutItems).1.2 (Or.inr rfl),
   (readVault_none_iff sampleEnv 0 documentedVault).2.2.1 rfl rfl (by decide),
   (readVault_none_iff
      (sampleEnvWith (.obj [("accounts", .arr [.obj [("vaults",
          .arr [.obj vaultWithoutItems, .obj emptyVault])]])])) 0 vaultWithoutItems).2.2.2
      (sampleFiles [[123, 125]]) 0 ⟨"old"⟩ "sample.1pux" [ReadResult.bytes [123, 125]] [123, 125]
      [] [.obj emptyVault] _ 1 rfl rfl rfl (readMember_single _ (by decide) (by decide))
      rfl (Or.inr rfl) rfl⟩

theorem urlAttributeName_injective : Function.Injective urlAttributeName := by
  intro a b h
  unfold urlAttributeName at h
  have := congrArg String.data h
  simp only [String.data_append, List.append_cancel_left_eq] at this
  exact natToString_injective (String.ext this)

theorem length_set_of_find_none (attrs : List Attribute) (key v : String) (p : Bool)
    (h : EntryAttributes.find attrs key = none) :
    (EntryAttributes.set attrs key v p).length = attrs.length + 1 := by
  induction attrs with
  | nil => rfl
  | cons a rest ih =>
    unfold EntryAttributes.find at h ih
    rw [List.find?_cons] at h
    by_cases hk : a.name = key
    · simp [hk] at h
    · simp only [hk, decide_False] at h
      simp only [EntryAttributes.set, hk, if_false, List.length_cons, ih h]

/-- What the loop over `overview.urls` does: it changes the attributes only,
leaves every attribute alone whose name is not one of its own names from the
counter onwards, and stores the additional URLs under consecutive names. -/
theorem readUrls_spec (urls : List JsonValue) :
    ∀ (i : Nat) (entry : Entry),
      (∀ k, i ≤ k → EntryAttributes.find entry.attributes (urlAttributeName k) = none) →
      readUrls urls i entry = { entry with attributes := (readUrls urls i entry).attributes } ∧
      (∀ key, (∀ k, i ≤ k → key ≠ urlAttributeName k) →
        EntryAttributes.find (readUrls urls i entry).attributes key
          = EntryAttributes.find entry.attributes key) ∧
      (readUrls urls i entry).attributes.length = entry.attributes.length +
        ((urls.map (fun urlRaw => variantToString (value (toMap urlRaw) "url"))).filter
          (fun url => decide (entry.url ≠ url))).length ∧
      (∀ j u, ((urls.map (fun urlRaw => variantToString (value (toMap urlRaw) "url"))).filter
          (fun url => decide (entry.url ≠ url)))[j]? = some u →
        EntryAttributes.find (readUrls urls i entry).attributes (urlAttributeName (i + j))
          = some ⟨urlAttributeName (i + j), u, false⟩) ∧
      (∀ k, i + ((urls.map (fun urlRaw => variantToString (value (toMap urlRaw) "url"))).filter
          (fun url => decide (entry.url ≠ url))).length ≤ k →
        EntryAttributes.find (readUrls urls i entry).attributes (urlAttributeName k) = none) := by
  induction urls with
  | nil =>
    intro i entry h
    refine ⟨rfl, fun _ _ => rfl, rfl, ?_, fun k hk => h k (by simpa using hk)⟩
    intro j u hj
    simp at hj
  | cons urlRaw rest ih =>
    intro i entry h
    by_cases hne : entry.url ≠ variantToString (value (toMap urlRaw) "url")
    · have hstep : readUrls (urlRaw :: rest) i entry = readUrls rest (i + 1)
          (entry.setAttribute (urlAttributeName i)
            (variantToString (value (toMap urlRaw) "url")) false) := by
        simp only [readUrls, hne, if_true, not_false_eq_true, ne_eq, urlAttributeName]
      have hinv : ∀ k, i + 1 ≤ k → EntryAttributes.find
          (entry.setAttribute (urlAttributeName i)
            (variantToString (value (toMap urlRaw) "url")) false).attributes
          (urlAttributeName k) = none := by
        intro k hk
        have hki : urlAttributeName k ≠ urlAttributeName i :=
          fun hc => by have := urlAttributeName_injective hc; omega
        simp only [Entry.setAttribute]
        rw [find_set_other _ _ _ _ _ hki]
        exact h k (by omega)
      rcases ih (i + 1) _ hinv with ⟨h1, h2, h3, h4, h5⟩
      have hfilter : ((urlRaw :: rest).map
          (fun urlRaw => variantToString (value (toMap urlRaw) "url"))).filter
          (fun url => decide (entry.url ≠ url))
          = variantToString (value (toMap urlRaw) "url") ::
            (rest.map (fun urlRaw => variantToString (value (toMap urlRaw) "url"))).filter
              (fun url => decide (entry.url ≠ url)) := by
        simp only [List.map_cons, List.filter_cons, hne, decide_True, if_true, not_false_eq_true,
          ne_eq]
      rw [hstep, hfilter]
      simp only [Entry.setAttribute] at h1 h2 h3 h4 h5 ⊢
      refine ⟨?_, ?_, ?_, ?_, ?_⟩
      · rw [h1]
      · intro key hkey
        rw [h2 key (fun k hk => hkey k (by omega)), find_set_other _ _ _ _ _ (hkey i (le_refl _))]
      · rw [h3, length_set_of_find_none _ _ _ _ (h i (le_refl _))]
        simp only [List.length_cons]
        omega
      · intro j u hj
        cases j with
        | zero =>
          simp only [List.getElem?_cons_zero, Option.some.injEq] at hj
          subst hj
          rw [Nat.add_zero]
          exact (h2 _ (fun k hk hc => by
            have := urlAttributeName_injective hc; omega)).trans (find_set_same _ _ _ _)
        | succ j =>
          simp only [List.getElem?_cons_succ] at hj
          have := h4 j u hj
          rw [show i + (j + 1) = i + 1 + j by omega]
          exact this
      · intro k hk
        simp only [List.length_cons] at hk
        exact h5 k (by omega)
    · have hstep : readUrls (urlRaw :: rest) i entry = readUrls rest i entry := by
        simp only [readUrls, hne, if_false]
      have hfilter : ((urlRaw :: rest).map
          (fun urlRaw => variantToString (value (toMap urlRaw) "url"))).filter
          (fun url => decide (entry.url ≠ url))
          = (rest.map (fun urlRaw => variantToString (value (toMap urlRaw) "url"))).filter
              (fun url => decide (entry.url ≠ url)) := by
        simp only [List.map_cons, List.filter_cons, hne, decide_False, if_false,
          Bool.false_eq_true]
      rw [hstep, hfilter]
      exact ih i entry h

/-- The function `readItem` is the loop over the sections run on the basic entry, followed
by the last steps. -/
theorem readItem_eq (env : Env) (n : Nat) (item : JsonObject) :
    (∀ e k, readSections env (n + 1) (itemSections item) (itemBasics env n item) = .ok (e, k) →
      readItem env n item = .ok (itemFinish item e, k)) ∧
    (∀ f, readSections env (n + 1) (itemSections item) (itemBasics env n item) = .error f →
      readItem env n item = .error f) := by
  unfold readItem itemSections itemBasics itemFinish
  constructor
  · intro e k h
    simp only [h]
  · intro f h
    simp only [h]

theorem readLoginFields_fields (env : Env) (fields : List JsonValue) :
    ∀ (entry : Entry),
      (readLoginFields env fields entry).attributes = entry.attributes ∧
      (readLoginFields env fields entry).title = entry.title ∧
      (readLoginFields env fields entry).url = entry.url ∧
      (readLoginFields env fields entry).totp = entry.totp := by
  induction fields with
  | nil => intro entry; exact ⟨rfl, rfl, rfl, rfl⟩
  | cons field rest ih =>
    intro entry
    unfold readLoginFields
    simp only []
    split
    · exact ih _
    · split
      · exact ih _
      · exact ih _

theorem readUrls_fields (urls : List JsonValue) :
    ∀ (i : Nat) (entry : Entry),
      (readUrls urls i entry).title = entry.title ∧
      (readUrls urls i entry).url = entry.url ∧
      (readUrls urls i entry).totp = entry.totp := by
  induction urls with
  | nil => intro i entry; exact ⟨rfl, rfl, rfl⟩
  | cons u rest ih =>
    intro i entry
    unfold readUrls
    simp only []
    split
    · exact ih _ _
    · exact ih _ _

theorem itemBasics_attributes (env : Env) (n : Nat) (item : JsonObject) :
    (itemBasics env n item).attributes =
      (readUrls (toList (value (toMap (value item "overview")) "urls")) 1
        ((Entry.new.setUuid (env.createUuid n)).setTitle
          (variantToString (value (toMap (value item "overview")) "title"))
          |>.setUrl (variantToString (value (toMap (value item "overview")) "url")))).attributes := by
  unfold itemBasics
  simp only [Entry.setNotes, (readLoginFields_fields env _ _).1]
  have hnull : contains (toMap (value item "overview")) "urls" = false →
      toList (value (toMap (value item "overview")) "urls") = [] := by
    intro h
    rw [value_of_not_contains _ _ h]
    rfl
  cases hc : contains (toMap (value item "overview")) "urls" with
  | true =>
    simp only [if_true]
    split <;> split <;> split <;> rfl
  | false =>
    rw [hnull hc]
    simp only [Bool.false_eq_true, if_false, readUrls]
    split <;> split <;> split <;> rfl

theorem itemBasics_fields (env : Env) (n : Nat) (item : JsonObject) :
    (itemBasics env n item).title = variantToString (value (toMap (value item "overview")) "title") ∧
    (itemBasics env n item).url = variantToString (value (toMap (value item "overview")) "url") ∧
    (itemBasics env n item).totp = none := by
  unfold itemBasics
  simp only [Entry.setNotes, (readLoginFields_fields env _ _).2]
  refine ⟨?_, ?_, ?_⟩ <;>
  · split <;> split <;> split <;> split <;>
      simp [Entry.addTag, Entry.setTags, (readUrls_fields _ _ _).1, (readUrls_fields _ _ _).2,
        Entry.setUrl, Entry.setTitle, Entry.setUuid, Entry.new]

/-- The loop over the sections leaves the entry as it is when no section has a
field. -/
theorem readSections_no_fields (env : Env) (sections : List JsonValue) :
    ∀ (n : Nat) (entry : Entry),
      (∀ sec ∈ sections, toList (value (toMap sec) "fields") = []) →
      ∃ k, readSections env n sections entry = .ok (entry, k) := by
  induction sections with
  | nil => intro n entry _; exact ⟨n, rfl⟩
  | cons sec rest ih =>
    intro n entry h
    rcases ih (sectionPre env n sec).2 entry (fun s hs => h s (List.mem_cons_of_mem _ hs))
      with ⟨k, hk⟩
    refine ⟨k, ?_⟩
    simp only [readSections, h sec (List.mem_cons_self _ _), readFields, hk]

/-- C7: for an item without section fields, with D the list, in document
order, of the `url` values of the elements of overview.urls that differ from
overview.url: `readItem` returns an entry that has exactly |D| attributes; for
every n with 1 <= n <= |D| the attribute `KP2A_URL_<n>` holds the n-th element
of D (not concealed), and there is no attribute `KP2A_URL_<n>` for n > |D|.
An element equal to the primary URL is skipped and takes no counter value. -/
theorem readItem_additional_urls (env : Env) (n : Nat) (item : JsonObject)
    (hnofields : ∀ sec ∈ itemSections item, toList (value (toMap sec) "fields") = []) :
    ∃ e k, readItem env n item = .ok (e, k) ∧
      e.attributes.length = (additionalUrls (toMap (value item "overview"))).length ∧
      (∀ j u, (additionalUrls (toMap (value item "overview")))[j]? = some u →
        EntryAttributes.find e.attributes ("KP2A_URL_" ++ toString (j + 1))
          = some ⟨"KP2A_URL_" ++ toString (j + 1), u, false⟩) ∧
      (∀ m, (additionalUrls (toMap (value item "overview"))).length < m →
        EntryAttributes.find e.attributes ("KP2A_URL_" ++ toString m) = none) := by
  rcases readSections_no_fields env (itemSections item) (n + 1) (itemBasics env n item) hnofields
    with ⟨k, hk⟩
  refine ⟨_, k, (readItem_eq env n item).1 _ _ hk, ?_⟩
  have hattr : (itemFinish item (itemBasics env n item)).attributes
      = (itemBasics env n item).attributes := rfl
  rw [hattr, itemBasics_attributes]
  have hspec := readUrls_spec (toList (value (toMap (value item "overview")) "urls")) 1
    ((Entry.new.setUuid (env.createUuid n)).setTitle
      (variantToString (value (toMap (value item "overview")) "title"))
      |>.setUrl (variantToString (value (toMap (value item "overview")) "url")))
    (fun _ _ => rfl)
  rcases hspec with ⟨_, _, h3, h4, h5⟩
  refine ⟨?_, ?_, ?_⟩
  · rw [h3]
    simp [additionalUrls, Entry.setUrl, Entry.setTitle, Entry.setUuid, Entry.new]
  · intro j u hj
    have := h4 j u hj
    rw [show 1 + j = j + 1 by omega] at this
    exact this
  · intro m hm
    exact h5 m (by
      have : (additionalUrls (toMap (value item "overview"))).length + 1 ≤ m := hm
      simpa [additionalUrls, Entry.setUrl, Nat.add_comm] using this)

/-- C7 (witness): the item with the primary URL `P` and `overview.urls` =
[P, P, X] gets exactly one attribute, `KP2A_URL_1` = `X`. -/
theorem readItem_additional_urls_witness :
    additionalUrls (toMap (value urlsItem "overview")) = ["X"] ∧
    (∃ e k, readItem sampleEnv 0 urlsItem = .ok (e, k) ∧
      e.attributes.length = (additionalUrls (toMap (value urlsItem "overview"))).length ∧
      (∀ j u, (additionalUrls (toMap (value urlsItem "overview")))[j]? = some u →
        EntryAttributes.find e.attributes ("KP2A_URL_" ++ toString (j + 1))
          = some ⟨"KP2A_URL_" ++ toString (j + 1), u, false⟩) ∧
      (∀ m, (additionalUrls (toMap (value urlsItem "overview"))).length < m →
        EntryAttributes.find e.attributes ("KP2A_URL_" ++ toString m) = none)) ∧
    (readItem sampleEnv 0 urlsItem).toOption.map (fun r => r.1.attributes)
      = some [⟨"KP2A_URL_1", "X", false⟩] :=
  ⟨by decide,
   readItem_additional_urls sampleEnv 0 urlsItem (fun sec h => by
     have h0 : itemSections urlsItem
         = [.obj [("title", .str "S"), ("fields", .arr [])]] := rfl
     rw [h0, List.mem_singleton] at h
     subst h
     rfl),
   by decide⟩

theorem fieldName_eq (pre : String) (fieldMap : JsonObject) :
    fieldName pre fieldMap = pre ++ "_" ++ fieldTitle fieldMap := rfl

/-- A field whose tag is not `totp` stores its decoded value, when that is not
empty, under the name of the field, and does nothing else. -/
theorem readField_non_totp (env : Env) (pre : String) (field : JsonValue) (entry : Entry)
    (key : String) (hkey : firstKey (fieldValueMap field) = some key) (htotp : key ≠ "totp") :
    readField env pre field entry =
      .ok (if decodeValue env (fieldValueMap field) key = "" then entry
           else entry.setAttribute (fieldName pre (toMap field))
             (decodeValue env (fieldValueMap field) key) (key == "concealed")) := by
  unfold fieldValueMap at hkey ⊢
  unfold readField
  simp only [hkey, htotp, if_false, ne_eq, ite_not]
  split <;> rfl

/-- C10: `readItem` does not return an entry for an item in which a section
field has no `value` key, or has a `value` that is an empty object, or a
`value` that is not an object: the map of the tagged value is empty, and
`firstKey()` on an empty map is outside the contract of `QMap`. -/
theorem readItem_untagged_field_undefined :
    readItem sampleEnv 0 itemFieldWithoutValue = .error .undefinedBehaviour ∧
    readItem sampleEnv 0 itemFieldWithEmptyValue = .error .undefinedBehaviour ∧
    readItem sampleEnv 0 itemFieldWithTextValue = .error .undefinedBehaviour :=
  ⟨rfl, rfl, rfl⟩

theorem readFlat_append_ok (env : Env) (xs ys : List (String × JsonValue)) :
    ∀ (entry e1 e2 : Entry), readFlat env xs entry = .ok e1 → readFlat env ys e1 = .ok e2 →
      readFlat env (xs ++ ys) entry = .ok e2 := by
  induction xs with
  | nil =>
    intro entry e1 e2 h1 h2
    simp only [readFlat, Except.ok.injEq] at h1
    subst h1
    exact h2
  | cons pf rest ih =>
    intro entry e1 e2 h1 h2
    simp only [List.cons_append, readFlat] at h1 ⊢
    cases hr : readField env pf.1 pf.2 entry with
    | error f => rw [hr] at h1; simp at h1
    | ok e0 =>
      rw [hr] at h1
      exact ih e0 e1 e2 h1 h2

theorem readFlat_append_inv (env : Env) (xs ys : List (String × JsonValue)) :
    ∀ (entry e2 : Entry), readFlat env (xs ++ ys) entry = .ok e2 →
      ∃ e1, readFlat env xs entry = .ok e1 ∧ readFlat env ys e1 = .ok e2 := by
  induction xs with
  | nil => intro entry e2 h; exact ⟨entry, rfl, h⟩
  | cons pf rest ih =>
    intro entry e2 h
    simp only [List.cons_append, readFlat] at h ⊢
    cases hr : readField env pf.1 pf.2 entry with
    | error f => rw [hr] at h; simp at h
    | ok e0 =>
      rw [hr] at h
      exact ih e0 e2 h

theorem readFields_eq_readFlat (env : Env) (pre : String) (fields : List JsonValue) :
    ∀ (entry : Entry),
      readFields env pre fields entry = readFlat env (fields.map (fun f => (pre, f))) entry := by
  induction fields with
  | nil => intro entry; rfl
  | cons f rest ih =>
    intro entry
    simp only [readFields, List.map_cons, readFlat]
    cases readField env pre f entry with
    | error e => rfl
    | ok e0 => exact ih e0

/-- The loop over the sections reads the section fields in document order. -/
theorem readSections_of_readFlat (env : Env) (sections : List JsonValue) :
    ∀ (n : Nat) (entry e2 : Entry),
      readFlat env (sectionFields env n sections) entry = .ok e2 →
      ∃ k, readSections env n sections entry = .ok (e2, k) := by
  induction sections with
  | nil =>
    intro n entry e2 h
    simp only [sectionFields, readFlat, Except.ok.injEq] at h
    subst h
    exact ⟨n, rfl⟩
  | cons sec rest ih =>
    intro n entry e2 h
    unfold sectionFields at h
    rcases readFlat_append_inv env _ _ entry e2 h with ⟨e1, h1, h2⟩
    rcases ih _ e1 e2 h2 with ⟨k, hk⟩
    refine ⟨k, ?_⟩
    rw [← readFields_eq_readFlat] at h1
    simp only [readSections, h1, hk]

theorem readField_untagged (env : Env) (pre : String) (field : JsonValue) (entry : Entry)
    (h : fieldTagged field = false) :
    readField env pre field entry = .error .undefinedBehaviour := by
  unfold fieldTagged fieldValueMap at h
  unfold readField
  cases hk : firstKey (toMap (value (toMap field) "value")) with
  | none => simp only [hk]
  | some key => rw [hk] at h; simp at h

theorem readFlat_ok_tagged (env : Env) (fields : List (String × JsonValue)) :
    ∀ (entry e : Entry), readFlat env fields entry = .ok e →
      ∀ pf ∈ fields, fieldTagged pf.2 = true := by
  induction fields with
  | nil => intro entry e _ pf hpf; simp at hpf
  | cons p rest ih =>
    intro entry e h pf hpf
    unfold readFlat at h
    cases ht : fieldTagged p.2 with
    | false =>
      rw [readField_untagged env p.1 p.2 entry ht] at h
      simp at h
    | true =>
      cases hr : readField env p.1 p.2 entry with
      | error f => rw [hr] at h; simp at h
      | ok e0 =>
        rw [hr] at h
        rcases List.mem_cons.1 hpf with rfl | hmem
        · exact ht
        · exact ih e0 e h pf hmem

theorem readFlat_of_readSections (env : Env) (sections : List JsonValue) :
    ∀ (n : Nat) (entry e2 : Entry) (k : Nat),
      readSections env n sections entry = .ok (e2, k) →
      readFlat env (sectionFields env n sections) entry = .ok e2 := by
  induction sections with
  | nil =>
    intro n entry e2 k h
    simp only [readSections, Except.ok.injEq, Prod.mk.injEq] at h
    rw [← h.1]
    rfl
  | cons sec rest ih =>
    intro n entry e2 k h
    unfold readSections at h
    simp only [] at h
    cases hr : readFields env (sectionPre env n sec).1 (toList (value (toMap sec) "fields")) entry with
    | error f => rw [hr] at h; simp at h
    | ok e1 =>
      rw [hr] at h
      unfold sectionFields
      rw [readFields_eq_readFlat] at hr
      exact readFlat_append_ok env _ _ entry e1 e2 hr (ih _ e1 e2 k h)

theorem sectionFields_tagged (env : Env) (sections : List JsonValue) :
    ∀ (n : Nat), (∀ pf ∈ sectionFields env n sections, fieldTagged pf.2 = true) ↔
      (∀ sec ∈ sections, ∀ f ∈ toList (value (toMap sec) "fields"), fieldTagged f = true) := by
  induction sections with
  | nil => intro n; simp [sectionFields]
  | cons sec rest ih =>
    intro n
    unfold sectionFields
    constructor
    · intro h s hs f hf
      rcases List.mem_cons.1 hs with rfl | hmem
      · exact h (_, f) (List.mem_append_left _ (List.mem_map.2 ⟨f, hf, rfl⟩))
      · exact (ih _).1 (fun pf hpf => h pf (List.mem_append_right _ hpf)) s hmem f hf
    · intro h pf hpf
      rcases List.mem_append.1 hpf with hp | hp
      · rcases List.mem_map.1 hp with ⟨f, hf, rfl⟩
        exact h sec (List.mem_cons_self _ _) f hf
      · exact (ih _).2 (fun s hs => h s (List.mem_cons_of_mem _ hs)) pf hp

/-- What `readItem` returns, when it returns, is the last steps applied to the
result of the loop over the sections. -/
theorem readItem_inv (env : Env) (n : Nat) (item : JsonObject) (e : Entry) (k : Nat)
    (h : readItem env n item = .ok (e, k)) :
    ∃ e0, readSections env (n + 1) (itemSections item) (itemBasics env n item) = .ok (e0, k) ∧
      e = itemFinish item e0 := by
  cases hr : readSections env (n + 1) (itemSections item) (itemBasics env n item) with
  | error f =>
    rw [(readItem_eq env n item).2 f hr] at h
    simp at h
  | ok r =>
    rcases r with ⟨e0, k0⟩
    rw [(readItem_eq env n item).1 e0 k0 hr] at h
    simp only [Except.ok.injEq, Prod.mk.injEq] at h
    exact ⟨e0, by rw [h.2], h.1.symm⟩

/-- The function `readItem` returns an entry exactly for the items in which
every section field has a tagged value. -/
theorem readItem_ok_iff (env : Env) (n : Nat) (item : JsonObject) :
    (∃ e k, readItem env n item = .ok (e, k)) ↔ fieldsTagged item = true := by
  constructor
  · rintro ⟨e, k, h⟩
    rcases readItem_inv env n item e k h with ⟨e0, h0, _⟩
    have hflat := readFlat_of_readSections env _ _ _ _ _ h0
    have htag := readFlat_ok_tagged env _ _ _ hflat
    unfold fieldsTagged
    simp only [List.all_eq_true]
    exact (sectionFields_tagged env (itemSections item) (n + 1)).1 htag
  · exact readItem_ok env n item

theorem otpName_head (m : Nat) : (otpName m).data.head? = some 'o' := by
  unfold otpName
  split
  · rfl
  · simp only [String.data_append]
    rfl

theorem urlAttributeName_head (k : Nat) : (urlAttributeName k).data.head? = some 'K' := by
  unfold urlAttributeName
  simp only [String.data_append]
  rfl

theorem find_none_of_not_mem_keys (attrs : List Attribute) (key : String) :
    EntryAttributes.find attrs key = none ↔ key ∉ EntryAttributes.keys attrs := by
  rw [mem_keys_iff_find]
  cases EntryAttributes.find attrs key <;> simp

theorem readLoginFields_username (env : Env) (fields : List JsonValue) :
    ∀ (e1 e2 : Entry), e1.username = e2.username →
      (readLoginFields env fields e1).username = (readLoginFields env fields e2).username := by
  induction fields with
  | nil => intro e1 e2 h; exact h
  | cons field rest ih =>
    intro e1 e2 h
    unfold readLoginFields
    simp only []
    split
    · exact ih _ _ rfl
    · split
      · exact ih _ _ h
      · exact ih _ _ h

theorem readUrls_username (urls : List JsonValue) :
    ∀ (i : Nat) (entry : Entry), (readUrls urls i entry).username = entry.username := by
  induction urls with
  | nil => intro i entry; rfl
  | cons u rest ih =>
    intro i entry
    unfold readUrls
    simp only []
    split
    · exact ih _ _
    · exact ih _ _

theorem itemBasics_username (env : Env) (n : Nat) (item : JsonObject) :
    (itemBasics env n item).username =
      (readLoginFields env (toList (value (toMap (value item "details")) "loginFields"))
        Entry.new).username := by
  unfold itemBasics
  simp only [Entry.setNotes]
  apply readLoginFields_username
  split <;> split <;> split <;> split <;>
    simp [Entry.addTag, Entry.setTags, readUrls_username,
      Entry.setUrl, Entry.setTitle, Entry.setUuid, Entry.new]

theorem itemBasics_no_otp_name (env : Env) (n : Nat) (item : JsonObject) (m : Nat) :
    EntryAttributes.find (itemBasics env n item).attributes (otpName m) = none := by
  rw [itemBasics_attributes]
  have hspec := readUrls_spec (toList (value (toMap (value item "overview")) "urls")) 1
    ((Entry.new.setUuid (env.createUuid n)).setTitle
      (variantToString (value (toMap (value item "overview")) "title"))
      |>.setUrl (variantToString (value (toMap (value item "overview")) "url")))
    (fun _ _ => rfl)
  rw [hspec.2.1 (otpName m) (fun k _ hc => by
    have := congrArg (fun s : String => s.data.head?) hc
    simp only [otpName_head, urlAttributeName_head] at this
    cases this)]
  rfl

theorem readField_totp_first (env : Env) (pre : String) (field : JsonValue) (entry : Entry)
    (hkey : firstKey (fieldValueMap field) = some "totp") (hnone : entry.totp = none) :
    readField env pre field entry = .ok (entry.setTotp (parseSettings (env.toEncoded
      (otpauthUrl entry.title entry.username
        (variantToString (value (fieldValueMap field) "totp")))))) := by
  unfold fieldValueMap at hkey ⊢
  unfold readField
  simp only [hkey, if_true, Entry.hasTotp, hnone, Option.isSome_none, Bool.false_eq_true,
    if_false]

theorem readField_totp_next (env : Env) (pre : String) (field : JsonValue) (entry : Entry)
    (m : Nat)
    (hkey : firstKey (fieldValueMap field) = some "totp") (hsome : entry.totp.isSome = true)
    (hm : EntryAttributes.find entry.attributes (otpName m) = none)
    (hall : ∀ j, j < m → (EntryAttributes.find entry.attributes (otpName j)).isSome = true) :
    readField env pre field entry = .ok (entry.setAttribute (otpName m) (env.toEncoded
      (otpauthUrl entry.title entry.username
        (variantToString (value (fieldValueMap field) "totp")))) true) := by
  have hprobe := otpProbe_first_unused (EntryAttributes.keys entry.attributes) m
    ((find_none_of_not_mem_keys _ _).1 hm)
    (fun j hj => (mem_keys_iff_find _ _).2 (hall j hj))
  unfold fieldValueMap at hkey ⊢
  unfold readField
  simp only [hkey, if_true, Entry.hasTotp, hsome, hprobe]

/-- The one-time-password state is kept by the loop over the section fields:
each field tagged `totp` adds its secret to the state, and the other fields,
whose names are none of the names of the probe, leave it alone. -/
theorem readFlat_otpState (env : Env) (T U : String) (fields : List (String × JsonValue)) :
    ∀ (entry : Entry) (done : List String),
      entry.title = T → entry.username = U → OtpState env T U entry done →
      (∀ pf ∈ fields, fieldTagged pf.2 = true) →
      (∀ pf ∈ fields, ∀ key, firstKey (fieldValueMap pf.2) = some key → key ≠ "totp" →
        decodeValue env (fieldValueMap pf.2) key ≠ "" →
        ∀ m, fieldName pf.1 (toMap pf.2) ≠ otpName m) →
      ∃ e, readFlat env fields entry = .ok e ∧ OtpState env T U e (done ++ otpSecrets fields) := by
  induction fields with
  | nil =>
    intro entry done _ _ hst _ _
    refine ⟨entry, rfl, ?_⟩
    simpa [otpSecrets] using hst
  | cons pf rest ih =>
    intro entry done hT hU hst htag hother
    have htag1 := htag pf (List.mem_cons_self _ _)
    unfold fieldTagged at htag1
    rcases hk : firstKey (fieldValueMap pf.2) with _ | key
    · rw [hk] at htag1; simp at htag1
    · by_cases htotp : key = "totp"
      · subst htotp
        have hsec : otpSecrets (pf :: rest)
            = variantToString (value (fieldValueMap pf.2) "totp") :: otpSecrets rest := by
          simp only [otpSecrets, List.filterMap_cons, hk, if_true]
        cases done with
        | nil =>
          rcases hst with ⟨hnone, hfree⟩
          have hstep := readField_totp_first env pf.1 pf.2 entry hk hnone
          rw [hT, hU] at hstep
          have hst1 : OtpState env T U (entry.setTotp (parseSettings (env.toEncoded
              (otpauthUrl T U (variantToString (value (fieldValueMap pf.2) "totp"))))))
              [variantToString (value (fieldValueMap pf.2) "totp")] := by
            refine ⟨rfl, ?_, ?_⟩
            · intro j u hj; simp at hj
            · intro m _; exact hfree m
          rcases ih (entry.setTotp (parseSettings (env.toEncoded
              (otpauthUrl T U (variantToString (value (fieldValueMap pf.2) "totp"))))))
            [variantToString (value (fieldValueMap pf.2) "totp")] hT hU hst1
            (fun p hp => htag p (List.mem_cons_of_mem _ hp))
            (fun p hp => hother p (List.mem_cons_of_mem _ hp)) with ⟨e, he, hste⟩
          refine ⟨e, ?_, ?_⟩
          · simp only [readFlat, hstep, he]
          · rw [hsec]
            simpa using hste
        | cons s1 more =>
          rcases hst with ⟨hprim, hattrs, hfree⟩
          have hsome : entry.totp.isSome = true := by rw [hprim]; rfl
          have hstep := readField_totp_next env pf.1 pf.2 entry more.length hk hsome
            (hfree _ (le_refl _))
            (fun j hj => by
              have hlt : j < more.length := hj
              have hget : more[j]? = some (more[j]) := List.getElem?_eq_getElem hlt
              rw [hattrs j _ hget]; rfl)
          rw [hT, hU] at hstep
          have hst1 : OtpState env T U (entry.setAttribute (otpName more.length) (env.toEncoded
              (otpauthUrl T U (variantToString (value (fieldValueMap pf.2) "totp")))) true)
              (s1 :: (more ++ [variantToString (value (fieldValueMap pf.2) "totp")])) := by
            refine ⟨hprim, ?_, ?_⟩
            · intro j u hj
              simp only [Entry.setAttribute]
              by_cases hjlt : j < more.length
              · rw [List.getElem?_append_left hjlt] at hj
                have hne : otpName j ≠ otpName more.length :=
                  fun hc => by have := otpName_injective hc; omega
                rw [find_set_other _ _ _ _ _ hne]
                exact hattrs j u hj
              · have hjeq : j = more.length := by
                  by_contra hc
                  have hgt : more.length + 1 ≤ j := by omega
                  have : (more ++ [variantToString (value (fieldValueMap pf.2) "totp")])[j]?
                      = none := by
                    apply List.getElem?_eq_none
                    simp only [List.length_append, List.length_singleton]
                    omega
                  rw [this] at hj
                  cases hj
                subst hjeq
                simp only [List.getElem?_concat_length, Option.some.injEq] at hj
                subst hj
                exact find_set_same _ _ _ _
            · intro m hm
              simp only [List.length_append, List.length_singleton] at hm
              simp only [Entry.setAttribute]
              have hne : otpName m ≠ otpName more.length :=
                fun hc => by have := otpName_injective hc; omega
              rw [find_set_other _ _ _ _ _ hne]
              exact hfree m (by omega)
          rcases ih (entry.setAttribute (otpName more.length) (env.toEncoded
              (otpauthUrl T U (variantToString (value (fieldValueMap pf.2) "totp")))) true)
            (s1 :: (more ++ [variantToString (value (fieldValueMap pf.2) "totp")])) hT hU hst1
            (fun p hp => htag p (List.mem_cons_of_mem _ hp))
            (fun p hp => hother p (List.mem_cons_of_mem _ hp)) with ⟨e, he, hste⟩
          refine ⟨e, ?_, ?_⟩
          · simp only [readFlat, hstep, he]
          · rw [hsec]
            simpa using hste
      · have hsec : otpSecrets (pf :: rest) = otpSecrets rest := by
          have : firstKey (fieldValueMap pf.2) ≠ some "totp" := by
            rw [hk]; intro hc; exact htotp (Option.some.inj hc)
          simp only [otpSecrets, List.filterMap_cons, this, if_false]
        have hstep := readField_non_totp env pf.1 pf.2 entry key hk htotp
        have hst1 : OtpState env T U
            (if decodeValue env (fieldValueMap pf.2) key = "" then entry
             else entry.setAttribute (fieldName pf.1 (toMap pf.2))
               (decodeValue env (fieldValueMap pf.2) key) (key == "concealed")) done := by
          by_cases hv : decodeValue env (fieldValueMap pf.2) key = ""
          · simp only [hv, if_true]; exact hst
          · simp only [hv, if_false]
            have hname := hother pf (List.mem_cons_self _ _) key hk htotp hv
            cases done with
            | nil =>
              refine ⟨hst.1, fun m => ?_⟩
              simp only [Entry.setAttribute]
              rw [find_set_other _ _ _ _ _ (Ne.symm (hname m))]
              exact hst.2 m
            | cons s1 more =>
              refine ⟨hst.1, fun j u hj => ?_, fun m hm => ?_⟩
              · simp only [Entry.setAttribute]
                rw [find_set_other _ _ _ _ _ (Ne.symm (hname j))]
                exact hst.2.1 j u hj
              · simp only [Entry.setAttribute]
                rw [find_set_other _ _ _ _ _ (Ne.symm (hname m))]
                exact hst.2.2 m hm
        have hT1 : (if decodeValue env (fieldValueMap pf.2) key = "" then entry
             else entry.setAttribute (fieldName pf.1 (toMap pf.2))
               (decodeValue env (fieldValueMap pf.2) key) (key == "concealed")).title = T := by
          split
          · exact hT
          · exact hT
        have hU1 : (if decodeValue env (fieldValueMap pf.2) key = "" then entry
             else entry.setAttribute (fieldName pf.1 (toMap pf.2))
               (decodeValue env (fieldValueMap pf.2) key) (key == "concealed")).username = U := by
          split
          · exact hU
          · exact hU
        rcases ih _ _ hT1 hU1 hst1 (fun p hp => htag p (List.mem_cons_of_mem _ hp))
          (fun p hp => hother p (List.mem_cons_of_mem _ hp)) with ⟨e, he, hste⟩
        refine ⟨e, ?_, ?_⟩
        · simp only [readFlat, hstep, he]
        · rw [hsec]
          exact hste

/-- C6: for an item with title T and username U (taken from its login fields)
whose section fields tagged `totp` have, in document order, the secrets
s1, more[0], more[1], ..., and in which no other section field is stored under
a name `otp` or `otp_<n>`: the entry that `readItem` returns has as its primary
one-time-password configuration the one parsed from the URL
otpauth://totp/T:U?secret=s1 (no later field replaces it); the second field
tagged `totp` is the concealed attribute `otp` holding the URL built from its
secret, and the (j+2)-th, for j >= 1, is the concealed attribute `otp_<j>`.
And `readItem` does return an entry when every section field has a tagged
value. -/
theorem readItem_totp_fields (env : Env) (n : Nat) (item : JsonObject) (s1 : String)
    (more : List String)
    (hsecrets : otpSecrets (sectionFields env (n + 1) (itemSections item)) = s1 :: more)
    (hother : ∀ pf ∈ sectionFields env (n + 1) (itemSections item), ∀ key,
      firstKey (fieldValueMap pf.2) = some key → key ≠ "totp" →
      decodeValue env (fieldValueMap pf.2) key ≠ "" →
      ∀ m, fieldName pf.1 (toMap pf.2) ≠ otpName m) :
    (∀ e k, readItem env n item = .ok (e, k) →
      e.totp = some (parseSettings (env.toEncoded (otpauthUrl
        (variantToString (value (toMap (value item "overview")) "title"))
        (readLoginFields env (toList (value (toMap (value item "details")) "loginFields"))
          Entry.new).username s1))) ∧
      (∀ u, more[0]? = some u →
        EntryAttributes.find e.attributes "otp" = some ⟨"otp", env.toEncoded (otpauthUrl
          (variantToString (value (toMap (value item "overview")) "title"))
          (readLoginFields env (toList (value (toMap (value item "details")) "loginFields"))
            Entry.new).username u), true⟩) ∧
      (∀ j u, 1 ≤ j → more[j]? = some u →
        EntryAttributes.find e.attributes ("otp_" ++ toString j)
          = some ⟨"otp_" ++ toString j, env.toEncoded (otpauthUrl
          (variantToString (value (toMap (value item "overview")) "title"))
          (readLoginFields env (toList (value (toMap (value item "details")) "loginFields"))
            Entry.new).username u), true⟩)) ∧
    (fieldsTagged item = true → ∃ e k, readItem env n item = .ok (e, k)) := by
  refine ⟨?_, readItem_ok env n item⟩
  intro e1 k1 hret
  rcases readItem_inv env n item e1 k1 hret with ⟨e0, h0, hfin⟩
  have hflat := readFlat_of_readSections env _ _ _ _ _ h0
  have htag := readFlat_ok_tagged env _ _ _ hflat
  have hst0 : OtpState env (itemBasics env n item).title (itemBasics env n item).username
      (itemBasics env n item) [] :=
    ⟨(itemBasics_fields env n item).2.2, itemBasics_no_otp_name env n item⟩
  rcases readFlat_otpState env _ _ (sectionFields env (n + 1) (itemSections item))
    (itemBasics env n item) [] rfl rfl hst0 htag hother with ⟨e, he, hste⟩
  have hee : e0 = e := by
    rw [hflat] at he
    exact Except.ok.inj he
  subst hee
  rw [List.nil_append, hsecrets, (itemBasics_fields env n item).1,
    itemBasics_username] at hste
  rcases hste with ⟨hprim, hattrs, _⟩
  subst hfin
  refine ⟨hprim, ?_, ?_⟩
  · intro u hu
    exact hattrs 0 u hu
  · intro j u hj hu
    have := hattrs j u hu
    have hname : otpName j = "otp_" ++ toString j := by
      unfold otpName
      simp only [show j ≠ 0 by omega, if_false]
    rw [hname] at this
    exact this

/-- C6 (witness): the sample item, with title `T`, username `U`, three fields
tagged `totp` and one concealed field `S_PIN`. -/
theorem readItem_totp_fields_witness :
    otpSecrets (sectionFields sampleEnv 1 (itemSections (toObject sampleItem)))
      = ["AAA", "BBB", "CCC"] ∧
    (∃ e k, readItem sampleEnv 0 (toObject sampleItem) = .ok (e, k) ∧
      e.totp = some (parseSettings (sampleEnv.toEncoded (otpauthUrl
        (variantToString (value (toMap (value (toObject sampleItem) "overview")) "title"))
        (readLoginFields sampleEnv
          (toList (value (toMap (value (toObject sampleItem) "details")) "loginFields"))
          Entry.new).username "AAA"))) ∧
      (∀ u, ["BBB", "CCC"][0]? = some u →
        EntryAttributes.find e.attributes "otp" = some ⟨"otp", sampleEnv.toEncoded (otpauthUrl
          (variantToString (value (toMap (value (toObject sampleItem) "overview")) "title"))
          (readLoginFields sampleEnv
            (toList (value (toMap (value (toObject sampleItem) "details")) "loginFields"))
            Entry.new).username u), true⟩) ∧
      (∀ j u, 1 ≤ j → ["BBB", "CCC"][j]? = some u →
        EntryAttributes.find e.attributes ("otp_" ++ toString j)
          = some ⟨"otp_" ++ toString j, sampleEnv.toEncoded (otpauthUrl
          (variantToString (value (toMap (value (toObject sampleItem) "overview")) "title"))
          (readLoginFields sampleEnv
            (toList (value (toMap (value (toObject sampleItem) "details")) "loginFields"))
            Entry.new).username u), true⟩)) ∧
    (readItem sampleEnv 0 (toObject sampleItem)).toOption.map (fun r => (r.1.totp, r.1.attributes))
      = some (some ⟨"otpauth://totp/T:U?secret=AAA"⟩,
          [⟨"KP2A_URL_1", "X", false⟩, ⟨"otp", "otpauth://totp/T:U?secret=BBB", true⟩,
           ⟨"otp_1", "otpauth://totp/T:U?secret=CCC", true⟩, ⟨"S_PIN", "12345", true⟩]) :=
  have h := readItem_totp_fields sampleEnv 0 (toObject sampleItem) "AAA" ["BBB", "CCC"]
     (by decide)
     (fun pf hpf key hkey hne _ m hname => by
       have hfields : sectionFields sampleEnv 1 (itemSections (toObject sampleItem)) =
           [("S", .obj [("title", .str "a"), ("value", .obj [("totp", .str "AAA")])]),
            ("S", .obj [("title", .str "b"), ("value", .obj [("totp", .str "BBB")])]),
            ("S", .obj [("title", .str "c"), ("value", .obj [("totp", .str "CCC")])]),
            ("S", .obj [("title", .str "PIN"), ("value", .obj [("concealed", .str "12345")])])] :=
         rfl
       rw [hfields] at hpf
       simp only [List.mem_cons, List.mem_singleton, List.not_mem_nil, or_false] at hpf
       rcases hpf with rfl | rfl | rfl | rfl
       · exact hne (Option.some.inj hkey).symm
       · exact hne (Option.some.inj hkey).symm
       · exact hne (Option.some.inj hkey).symm
       · have hhead : some 'S' = (otpName m).data.head? :=
           congrArg (fun s : String => s.data.head?) hname
         rw [otpName_head] at hhead
         cases hhead)
  ⟨by decide,
   (h.2 (by decide)).elim (fun e he => he.elim (fun k hk => ⟨e, k, hk, h.1 e k hk⟩)),
   by decide⟩

/-- A section field changes neither the username, nor the password, nor the
tags of the entry. -/
theorem readField_keeps (env : Env) (pre : String) (field : JsonValue) (entry e : Entry)
    (h : readField env pre field entry = .ok e) :
    e.username = entry.username ∧ e.password = entry.password ∧ e.tags = entry.tags := by
  unfold readField at h
  simp only [] at h
  split at h
  · cases h
  · split at h
    · split at h
      · split at h
        · cases h
        · simp only [Except.ok.injEq] at h
          subst h
          exact ⟨rfl, rfl, rfl⟩
      · simp only [Except.ok.injEq] at h
        subst h
        exact ⟨rfl, rfl, rfl⟩
    · split at h
      · simp only [Except.ok.injEq] at h
        subst h
        exact ⟨rfl, rfl, rfl⟩
      · simp only [Except.ok.injEq] at h
        subst h
        exact ⟨rfl, rfl, rfl⟩

theorem readFlat_keeps (env : Env) (fields : List (String × JsonValue)) :
    ∀ (entry e : Entry), readFlat env fields entry = .ok e →
      e.username = entry.username ∧ e.password = entry.password ∧ e.tags = entry.tags := by
  induction fields with
  | nil =>
    intro entry e h
    simp only [readFlat, Except.ok.injEq] at h
    subst h
    exact ⟨rfl, rfl, rfl⟩
  | cons pf rest ih =>
    intro entry e h
    unfold readFlat at h
    cases hr : readField env pf.1 pf.2 entry with
    | error f => rw [hr] at h; simp at h
    | ok e0 =>
      rw [hr] at h
      rcases readField_keeps env pf.1 pf.2 entry e0 hr with ⟨h1, h2, h3⟩
      rcases ih e0 e h with ⟨g1, g2, g3⟩
      exact ⟨g1.trans h1, g2.trans h2, g3.trans h3⟩

/-- The entry that `readItem` returns has the username, the password and the
tags of the basic entry. -/
theorem readItem_keeps (env : Env) (n : Nat) (item : JsonObject) (e : Entry) (k : Nat)
    (h : readItem env n item = .ok (e, k)) :
    e.username = (itemBasics env n item).username ∧
    e.password = (itemBasics env n item).password ∧
    e.tags = (itemBasics env n item).tags := by
  rcases readItem_inv env n item e k h with ⟨e0, h0, hfin⟩
  have hflat := readFlat_of_readSections env _ _ _ _ _ h0
  rcases readFlat_keeps env _ _ _ hflat with ⟨h1, h2, h3⟩
  subst hfin
  exact ⟨h1, h2, h3⟩

theorem readLoginFields_cons (env : Env) (f : JsonValue) (rest : List JsonValue)
    (entry : Entry) :
    readLoginFields env (f :: rest) entry =
      if env.equalsIgnoreCase (loginDesignation f) "username" = true then
        readLoginFields env rest (entry.setUsername (loginValue f))
      else if env.equalsIgnoreCase (loginDesignation f) "password" = true then
        readLoginFields env rest (entry.setPassword (loginValue f))
      else readLoginFields env rest entry := rfl

/-- The username after the loop over the login fields is the value of the last
field designated `username`, and the one before the loop when there is none. -/
theorem readLoginFields_username_last (env : Env) (fields : List JsonValue) :
    ∀ (entry : Entry),
      (readLoginFields env fields entry).username =
        (((fields.filter (fun f => env.equalsIgnoreCase (loginDesignation f) "username")).getLast?).map
          loginValue).getD entry.username := by
  induction fields with
  | nil => intro entry; rfl
  | cons f rest ih =>
    intro entry
    rw [readLoginFields_cons]
    cases hu : env.equalsIgnoreCase (loginDesignation f) "username" with
    | true =>
      simp only [if_true, List.filter_cons, hu]
      rw [ih, List.getLast?_cons]
      cases (List.filter (fun f => env.equalsIgnoreCase (loginDesignation f) "username")
        rest).getLast? <;> rfl
    | false =>
      simp only [Bool.false_eq_true, if_false, List.filter_cons, hu]
      cases hp : env.equalsIgnoreCase (loginDesignation f) "password" with
      | true => simp only [if_true]; rw [ih]; rfl
      | false => simp only [Bool.false_eq_true, if_false]; rw [ih]

/-- The password after the loop over the login fields is the value of the last
field designated `password` and not `username`, and the one before the loop
when there is none. -/
theorem readLoginFields_password_last (env : Env) (fields : List JsonValue) :
    ∀ (entry : Entry),
      (readLoginFields env fields entry).password =
        (((fields.filter (fun f => !env.equalsIgnoreCase (loginDesignation f) "username" &&
            env.equalsIgnoreCase (loginDesignation f) "password")).getLast?).map
          loginValue).getD entry.password := by
  induction fields with
  | nil => intro entry; rfl
  | cons f rest ih =>
    intro entry
    rw [readLoginFields_cons]
    cases hu : env.equalsIgnoreCase (loginDesignation f) "username" with
    | true =>
      simp only [if_true, List.filter_cons, hu, Bool.not_true, Bool.false_and,
        Bool.false_eq_true, if_false]
      rw [ih]; rfl
    | false =>
      cases hp : env.equalsIgnoreCase (loginDesignation f) "password" with
      | true =>
        simp only [Bool.false_eq_true, if_false, if_true, List.filter_cons, hu, hp,
          Bool.not_false, Bool.and_self]
        rw [ih, List.getLast?_cons]
        cases (List.filter (fun f => !env.equalsIgnoreCase (loginDesignation f) "username" &&
            env.equalsIgnoreCase (loginDesignation f) "password") rest).getLast? <;> rfl
      | false =>
        simp only [Bool.false_eq_true, if_false, List.filter_cons, hu, hp, Bool.not_false,
          Bool.and_false]
        rw [ih]

theorem readLoginFields_password (env : Env) (fields : List JsonValue) :
    ∀ (e1 e2 : Entry), e1.password = e2.password →
      (readLoginFields env fields e1).password = (readLoginFields env fields e2).password := by
  intro e1 e2 h
  rw [readLoginFields_password_last, readLoginFields_password_last, h]

theorem readUrls_password_tags (urls : List JsonValue) :
    ∀ (i : Nat) (entry : Entry), (readUrls urls i entry).password = entry.password ∧
      (readUrls urls i entry).tags = entry.tags := by
  induction urls with
  | nil => intro i entry; exact ⟨rfl, rfl⟩
  | cons u rest ih =>
    intro i entry
    unfold readUrls
    simp only []
    split
    · exact ih _ _
    · exact ih _ _

theorem itemBasics_password (env : Env) (n : Nat) (item : JsonObject) :
    (itemBasics env n item).password =
      (readLoginFields env (itemLoginFields item) Entry.new).password := by
  unfold itemBasics itemLoginFields
  simp only [Entry.setNotes]
  apply readLoginFields_password
  split <;> split <;> split <;> split <;>
    simp [Entry.addTag, Entry.setTags, (readUrls_password_tags _ _ _).1,
      Entry.setUrl, Entry.setTitle, Entry.setUuid, Entry.new]

/-- C12: the username of the entry that `readItem` returns is the value of the
last login field, in document order, whose designation equals `username`
ignoring case (empty when there is none), and its password is the value of the
last login field whose designation equals `password` ignoring case (empty when
there is none); a field with any other designation changes neither.  No
designation equals both words.  And `readItem` returns an entry when every
section field has a tagged value. -/
theorem readItem_login_fields (env : Env) (n : Nat) (item : JsonObject)
    (hci : ∀ d, env.equalsIgnoreCase d "username" = true →
      env.equalsIgnoreCase d "password" = false) :
    (∀ e k, readItem env n item = .ok (e, k) →
      e.username = ((((itemLoginFields item).filter
          (fun f => env.equalsIgnoreCase (loginDesignation f) "username")).getLast?).map
          loginValue).getD "" ∧
      e.password = ((((itemLoginFields item).filter
          (fun f => env.equalsIgnoreCase (loginDesignation f) "password")).getLast?).map
          loginValue).getD "") ∧
    (∀ field rest entry, env.equalsIgnoreCase (loginDesignation field) "username" = false →
      env.equalsIgnoreCase (loginDesignation field) "password" = false →
      readLoginFields env (field :: rest) entry = readLoginFields env rest entry) ∧
    (fieldsTagged item = true → ∃ e k, readItem env n item = .ok (e, k)) := by
  refine ⟨?_, ?_, readItem_ok env n item⟩
  · intro e k hret
    rcases readItem_keeps env n item e k hret with ⟨h1, h2, _⟩
    have hfilter : (itemLoginFields item).filter
        (fun f => !env.equalsIgnoreCase (loginDesignation f) "username" &&
          env.equalsIgnoreCase (loginDesignation f) "password")
        = (itemLoginFields item).filter
          (fun f => env.equalsIgnoreCase (loginDesignation f) "password") := by
      apply List.filter_congr
      intro f _
      cases hu : env.equalsIgnoreCase (loginDesignation f) "username" with
      | false => simp
      | true => simp [hci _ hu]
    constructor
    · rw [h1, itemBasics_username]
      exact readLoginFields_username_last env (itemLoginFields item) Entry.new
    · rw [h2, itemBasics_password, readLoginFields_password_last, hfilter]
      rfl
  · intro field rest entry hu hp
    rw [readLoginFields_cons]
    simp only [hu, hp, Bool.false_eq_true, if_false]

/-- C12 (witness): the sample item has the login fields `username` = first,
`PassWord` = secret, `UserName` = second and `other` = ignored. -/
theorem readItem_login_fields_witness :
    (∀ d, sampleEnv.equalsIgnoreCase d "username" = true →
      sampleEnv.equalsIgnoreCase d "password" = false) ∧
    (∃ e k, readItem sampleEnv 0 taggedItem = .ok (e, k) ∧
      e.username = ((((itemLoginFields taggedItem).filter
          (fun f => sampleEnv.equalsIgnoreCase (loginDesignation f) "username")).getLast?).map
          loginValue).getD "" ∧
      e.password = ((((itemLoginFields taggedItem).filter
          (fun f => sampleEnv.equalsIgnoreCase (loginDesignation f) "password")).getLast?).map
          loginValue).getD "") ∧
    (readItem sampleEnv 0 taggedItem).toOption.map (fun r => (r.1.username, r.1.password))
      = some ("second", "secret") :=
  have hci : ∀ d, sampleEnv.equalsIgnoreCase d "username" = true →
      sampleEnv.equalsIgnoreCase d "password" = false := by
    intro d hd
    have h1 : (d.data.map Char.toLower == ("username" : String).data.map Char.toLower) = true := hd
    have h2 : d.data.map Char.toLower = ("username" : String).data.map Char.toLower := by
      simpa using h1
    show (d.data.map Char.toLower == ("password" : String).data.map Char.toLower) = false
    rw [h2]
    decide
  have h := readItem_login_fields sampleEnv 0 taggedItem hci
  ⟨hci, (h.2.2 (by decide)).elim (fun e he => he.elim (fun k hk => ⟨e, k, hk, h.1 e k hk⟩)),
   by decide⟩

theorem intercalate_go_append (s t : String) (l : List String) :
    ∀ (acc : String), String.intercalate.go acc s (l ++ [t]) = String.intercalate.go acc s l ++ s ++ t := by
  induction l with
  | nil => intro acc; rfl
  | cons a rest ih =>
    intro acc
    simp only [List.cons_append, String.intercalate.go]
    exact ih _

theorem intercalate_go_ne_empty (a : String) (l : List String) :
    ∀ (acc : String), String.intercalate.go acc "," (a :: l) ≠ "" := by
  induction l generalizing a with
  | nil =>
    intro acc h
    simp only [String.intercalate.go] at h
    have := congrArg String.length h
    simp [String.length_append] at this
    exact absurd this.1.2 (by decide)
  | cons b rest ih =>
    intro acc
    simp only [String.intercalate.go]
    exact ih b _

/-- The comma-joined text of a list of non-empty tags is empty only for the
empty list. -/
theorem intercalate_eq_empty (l : List String) (hne : ∀ t ∈ l, t ≠ "") :
    String.intercalate "," l = "" ↔ l = [] := by
  constructor
  · intro h
    cases l with
    | nil => rfl
    | cons a rest =>
      cases rest with
      | nil =>
        simp only [String.intercalate, String.intercalate.go] at h
        exact absurd h (hne a (List.mem_cons_self _ _))
      | cons b rest =>
        simp only [String.intercalate] at h
        exact absurd h (intercalate_go_ne_empty b rest a)
  · intro h; subst h; rfl

/-- Appending a tag to a comma-joined text of non-empty tags gives the
comma-joined text of the longer list. -/
theorem addTag_intercalate (l : List String) (t : String) (hne : ∀ x ∈ l, x ≠ "") :
    (if String.intercalate "," l = "" then t else String.intercalate "," l ++ "," ++ t)
      = String.intercalate "," (l ++ [t]) := by
  cases l with
  | nil => rfl
  | cons a rest =>
    have hn : String.intercalate "," (a :: rest) ≠ "" := fun h => by
      have := (intercalate_eq_empty (a :: rest) hne).1 h
      cases this
    simp only [hn, if_false]
    simp only [List.cons_append, String.intercalate]
    exact (intercalate_go_append "," t rest a).symm

theorem readLoginFields_tags (env : Env) (fields : List JsonValue) :
    ∀ (entry : Entry), (readLoginFields env fields entry).tags = entry.tags := by
  induction fields with
  | nil => intro entry; rfl
  | cons f rest ih =>
    intro entry
    rw [readLoginFields_cons]
    split
    · exact ih _
    · split
      · exact ih _
      · exact ih _

/-- The tags of the basic entry: the explicit tags, comma-joined, to which the
tags for favorite and for archived entries are added. -/
theorem itemBasics_tags (env : Env) (n : Nat) (item : JsonObject) :
    (itemBasics env n item).tags =
      ((if variantToString (value item "state") = "archived" then
          fun (e : Entry) => e.addTag (env.tr "Archived") else fun e => e)
        ((if variantToString (value item "favIndex") = "1" then
          fun (e : Entry) => e.addTag (env.tr "Favorite") else fun e => e)
          (Entry.new.setTags (String.intercalate "," (explicitTags item))))).tags := by
  unfold itemBasics explicitTags
  simp only [Entry.setNotes, readLoginFields_tags]
  have hnull : contains (toMap (value item "overview")) "tags" = false →
      toStringList (value (toMap (value item "overview")) "tags") = [] := by
    intro h
    rw [value_of_not_contains _ _ h]
    rfl
  cases hc : contains (toMap (value item "overview")) "tags" with
  | true =>
    simp only [if_true]
    split <;> split <;> split <;>
      simp [Entry.addTag, Entry.setTags, (readUrls_password_tags _ _ _).2]
  | false =>
    rw [hnull hc]
    simp only [Bool.false_eq_true, if_false]
    split <;> split <;> split <;>
      simp [Entry.addTag, Entry.setTags, (readUrls_password_tags _ _ _).2, String.intercalate,
        Entry.setUrl, Entry.setTitle, Entry.setUuid, Entry.new]

/-- C11: for an item whose explicit tags overview.tags = [t1, ..., tk] (k >= 0)
are non-empty texts, the tags of the entry that `readItem` returns are, comma-
joined, t1, ..., tk in that order, followed by the tag for favorites (the
translation of `Favorite`, not empty) if and only if item.favIndex rendered as
a string equals `1`, followed by the tag for archived entries (the translation
of `Archived`) if and only if item.state equals `archived`.  And `readItem`
returns an entry when every section field has a tagged value. -/
theorem readItem_tags (env : Env) (n : Nat) (item : JsonObject)
    (htags : ∀ t ∈ explicitTags item, t ≠ "") (hfav : env.tr "Favorite" ≠ "") :
    (∀ e k, readItem env n item = .ok (e, k) →
      e.tags = String.intercalate "," (explicitTags item
        ++ (if variantToString (value item "favIndex") = "1" then [env.tr "Favorite"] else [])
        ++ (if variantToString (value item "state") = "archived" then [env.tr "Archived"]
            else []))) ∧
    (fieldsTagged item = true → ∃ e k, readItem env n item = .ok (e, k)) := by
  refine ⟨?_, readItem_ok env n item⟩
  intro e k hret
  rw [(readItem_keeps env n item e k hret).2.2, itemBasics_tags]
  by_cases hf : variantToString (value item "favIndex") = "1"
  · have hne2 : ∀ x ∈ explicitTags item ++ [env.tr "Favorite"], x ≠ "" := by
      intro x hx
      rcases List.mem_append.1 hx with h | h
      · exact htags x h
      · rw [List.mem_singleton] at h; rw [h]; exact hfav
    by_cases ha : variantToString (value item "state") = "archived"
    · simp only [hf, ha, if_true, Entry.addTag, Entry.setTags]
      rw [addTag_intercalate _ _ htags, addTag_intercalate _ _ hne2]
    · simp only [hf, ha, if_true, if_false, Entry.addTag, Entry.setTags, List.append_nil]
      rw [addTag_intercalate _ _ htags]
  · by_cases ha : variantToString (value item "state") = "archived"
    · simp only [hf, ha, if_true, if_false, Entry.addTag, Entry.setTags, List.append_nil]
      rw [addTag_intercalate _ _ htags]
    · simp only [hf, ha, if_false, Entry.setTags, List.append_nil]

/-- C11 (witness): the sample item has the explicit tags `work` and `bank`,
favIndex 1 and the state `archived`. -/
theorem readItem_tags_witness :
    (∃ e k, readItem sampleEnv 0 taggedItem = .ok (e, k) ∧
      e.tags = String.intercalate "," (explicitTags taggedItem
        ++ (if variantToString (value taggedItem "favIndex") = "1" then
              [sampleEnv.tr "Favorite"] else [])
        ++ (if variantToString (value taggedItem "state") = "archived" then
              [sampleEnv.tr "Archived"] else []))) ∧
    (readItem sampleEnv 0 taggedItem).toOption.map (fun r => r.1.tags)
      = some "work,bank,Favorite,Archived" :=
  have h := readItem_tags sampleEnv 0 taggedItem (by decide) (by decide)
  ⟨(h.2 (by decide)).elim (fun e he => he.elim (fun k hk => ⟨e, k, hk, h.1 e k hk⟩)),
   by decide⟩

theorem decodeValue_address (env : Env) (valueMap : JsonObject) :
    decodeValue env valueMap "address" = addressText (toMap (value valueMap "address")) := by
  unfold decodeValue addressText
  simp only [show ("address" : String) ≠ "date" by decide, show ("address" : String) ≠ "email" by decide,
    if_false, if_true]

theorem addressText_ne_empty (address : JsonObject) : addressText address ≠ "" := by
  intro h
  have := congrArg String.length h
  unfold addressText at this
  simp only [String.length_append] at this
  have h1 : ("\n" : String).length = 1 := by decide
  have h2 : ("" : String).length = 0 := by decide
  rw [h1, h2] at this
  omega

theorem set_eq_append_of_find_none (attrs : List Attribute) (key v : String) (p : Bool)
    (h : EntryAttributes.find attrs key = none) :
    EntryAttributes.set attrs key v p = attrs ++ [⟨key, v, p⟩] := by
  induction attrs with
  | nil => rfl
  | cons a rest ih =>
    unfold EntryAttributes.find at h ih
    rw [List.find?_cons] at h
    by_cases hk : a.name = key
    · simp [hk] at h
    · simp only [hk, decide_False] at h
      simp only [EntryAttributes.set, hk, if_false, List.cons_append, ih h]

/-- C17: for an entry that has a primary one-time-password configuration,
whatever attributes it has, a field tagged `totp` makes the name probe end at
the first name of the sequence otp, otp_1, otp_2, ... that is not the name of
an attribute of the entry; the URL is stored under that name as a new,
concealed attribute after the existing ones, which are left as they were
(name, value and concealed flag). -/
theorem readField_totp_probe (env : Env) (pre : String) (field : JsonValue) (entry : Entry)
    (hkey : firstKey (fieldValueMap field) = some "totp") (hhas : entry.hasTotp = true) :
    ∃ m, otpName m ∉ EntryAttributes.keys entry.attributes ∧
      (∀ j, j < m → otpName j ∈ EntryAttributes.keys entry.attributes) ∧
      otpProbe (EntryAttributes.keys entry.attributes)
        ((EntryAttributes.keys entry.attributes).length + 1) 0 "otp" = some (otpName m) ∧
      ∃ e, readField env pre field entry = .ok e ∧
        e.attributes = entry.attributes ++ [⟨otpName m, env.toEncoded (otpauthUrl entry.title
          entry.username (variantToString (value (fieldValueMap field) "totp"))), true⟩] ∧
        (∀ a ∈ entry.attributes, EntryAttributes.find e.attributes a.name
          = EntryAttributes.find entry.attributes a.name) := by
  rcases otpName_first_unused (EntryAttributes.keys entry.attributes) with ⟨m, hm, hall⟩
  have hfind : EntryAttributes.find entry.attributes (otpName m) = none :=
    (find_none_of_not_mem_keys _ _).2 hm
  have hstep := readField_totp_next env pre field entry m hkey hhas hfind
    (fun j hj => (mem_keys_iff_find _ _).1 (hall j hj))
  refine ⟨m, hm, hall, otpProbe_first_unused _ m hm hall, _, hstep, ?_, ?_⟩
  · exact set_eq_append_of_find_none _ _ _ _ hfind
  · intro a ha
    have hne : a.name ≠ otpName m := by
      intro hc
      apply hm
      rw [← hc]
      exact List.mem_map.2 ⟨a, ha, rfl⟩
    exact find_set_other _ _ _ _ _ hne

/-- C17 (witness): an entry with the attributes `otp`, `otp_2` and `note` gets
the new attribute `otp_1`. -/
theorem readField_totp_probe_witness :
    (∃ m, otpName m ∉ EntryAttributes.keys entryWithOtp.attributes ∧
      (∀ j, j < m → otpName j ∈ EntryAttributes.keys entryWithOtp.attributes) ∧
      otpProbe (EntryAttributes.keys entryWithOtp.attributes)
        ((EntryAttributes.keys entryWithOtp.attributes).length + 1) 0 "otp" = some (otpName m) ∧
      ∃ e, readField sampleEnv "S" totpField entryWithOtp = .ok e ∧
        e.attributes = entryWithOtp.attributes ++ [⟨otpName m, sampleEnv.toEncoded (otpauthUrl
          entryWithOtp.title entryWithOtp.username
          (variantToString (value (fieldValueMap totpField) "totp"))), true⟩] ∧
        (∀ a ∈ entryWithOtp.attributes, EntryAttributes.find e.attributes a.name
          = EntryAttributes.find entryWithOtp.attributes a.name)) ∧
    (readField sampleEnv "S" totpField entryWithOtp).toOption.map (fun e => e.attributes)
      = some [⟨"otp", "first", true⟩, ⟨"otp_2", "second", false⟩, ⟨"note", "third", false⟩,
              ⟨"otp_1", "otpauth://totp/T:U?secret=BBB", true⟩] :=
  ⟨readField_totp_probe sampleEnv "S" totpField entryWithOtp (by decide) (by decide), by decide⟩

theorem convert_missing_file (env : Env) (fs : String → PathState) (n : Nat) (self : OPUXReader)
    (path : String) (h : (fs path).fileExists = false) :
    OPUXReader.convert env fs n self path = .ok (none, ⟨env.tr "File does not exist."⟩) := by
  unfold OPUXReader.convert
  simp only [h, Bool.not_false, if_true]

theorem convert_not_archive (env : Env) (fs : String → PathState) (n : Nat) (self : OPUXReader)
    (path : String) (h : (fs path).fileExists = true) (ha : (fs path).archive = false) :
    OPUXReader.convert env fs n self path
      = .ok (none, ⟨env.tr "Invalid 1PUX file format: Not a valid ZIP file."⟩) := by
  unfold OPUXReader.convert
  simp only [h, ha, Bool.not_true, Bool.not_false, Bool.false_eq_true, if_false, if_true]

theorem convert_missing_member (env : Env) (fs : String → PathState) (n : Nat)
    (self : OPUXReader) (path : String) (h : (fs path).fileExists = true)
    (ha : (fs path).archive = true) (hm : (fs path).exportData = none) :
    OPUXReader.convert env fs n self path
      = .ok (none, ⟨env.tr "Invalid 1PUX file format: Missing export.data"⟩) := by
  unfold OPUXReader.convert
  simp only [h, ha, hm, Bool.not_true, Bool.false_eq_true, if_false]

theorem convert_member_error (env : Env) (fs : String → PathState) (n : Nat)
    (self : OPUXReader) (path : String) (reads : List ReadResult) (f : Failure)
    (h : (fs path).fileExists = true) (ha : (fs path).archive = true)
    (hm : (fs path).exportData = some reads) (hread : readMember reads = .error f) :
    OPUXReader.convert env fs n self path = .error f := by
  unfold OPUXReader.convert
  simp only [h, ha, hm, hread, Bool.not_true, Bool.false_eq_true, if_false]

/-- C15: `convert` on an existing file that cannot be opened as an archive
returns no store and sets the error `Invalid 1PUX file format: Not a valid ZIP
file.`; on a valid archive without the member `export.data` it returns no
store and sets the error `Invalid 1PUX file format: Missing export.data`; on
a path that does not exist it sets `File does not exist.`; the three errors,
translated by a translation that keeps different texts different, are
different from one another. -/
theorem convert_archive_errors (env : Env) (fs : String → PathState) (n : Nat)
    (self : OPUXReader) (path : String) (htr : Function.Injective env.tr) :
    ((fs path).fileExists = true → (fs path).archive = false →
      OPUXReader.convert env fs n self path
        = .ok (none, ⟨env.tr "Invalid 1PUX file format: Not a valid ZIP file."⟩)) ∧
    ((fs path).fileExists = true → (fs path).archive = true → (fs path).exportData = none →
      OPUXReader.convert env fs n self path
        = .ok (none, ⟨env.tr "Invalid 1PUX file format: Missing export.data"⟩)) ∧
    ((fs path).fileExists = false →
      OPUXReader.convert env fs n self path = .ok (none, ⟨env.tr "File does not exist."⟩)) ∧
    env.tr "Invalid 1PUX file format: Not a valid ZIP file."
      ≠ env.tr "Invalid 1PUX file format: Missing export.data" ∧
    env.tr "Invalid 1PUX file format: Not a valid ZIP file." ≠ env.tr "File does not exist." ∧
    env.tr "Invalid 1PUX file format: Missing export.data" ≠ env.tr "File does not exist." := by
  refine ⟨convert_not_archive env fs n self path, convert_missing_member env fs n self path,
    convert_missing_file env fs n self path, ?_, ?_, ?_⟩
  · intro h; exact absurd (htr h) (by decide)
  · intro h; exact absurd (htr h) (by decide)
  · intro h; exact absurd (htr h) (by decide)

/-- C15 (witness): the file `notes.txt`, the archive `other.zip` and the
missing path `missing.1pux` of the sample file system. -/
theorem convert_archive_errors_witness :
    OPUXReader.convert sampleEnv sampleFileSystem 0 ⟨"old"⟩ "notes.txt"
      = .ok (none, ⟨"Invalid 1PUX file format: Not a valid ZIP file."⟩) ∧
    OPUXReader.convert sampleEnv sampleFileSystem 0 ⟨"old"⟩ "other.zip"
      = .ok (none, ⟨"Invalid 1PUX file format: Missing export.data"⟩) ∧
    OPUXReader.convert sampleEnv sampleFileSystem 0 ⟨"old"⟩ "missing.1pux"
      = .ok (none, ⟨"File does not exist."⟩) :=
  ⟨(convert_archive_errors sampleEnv sampleFileSystem 0 ⟨"old"⟩ "notes.txt"
      (fun _ _ h => h)).1 rfl rfl,
   (convert_archive_errors sampleEnv sampleFileSystem 0 ⟨"old"⟩ "other.zip"
      (fun _ _ h => h)).2.1 rfl rfl rfl,
   (convert_archive_errors sampleEnv sampleFileSystem 0 ⟨"old"⟩ "missing.1pux"
      (fun _ _ h => h)).2.2.1 rfl⟩

/-- After a call of `convert` that returns, the reader has an error exactly
when no store was returned. -/
theorem convert_error_cases (env : Env) (fs : String → PathState) (n : Nat) (self : OPUXReader)
    (path : String) (db : Option Database) (self1 : OPUXReader)
    (h : OPUXReader.convert env fs n self path = .ok (db, self1)) :
    (db = none ∧ (self1.m_error = env.tr "File does not exist." ∨
        self1.m_error = env.tr "Invalid 1PUX file format: Not a valid ZIP file." ∨
        self1.m_error = env.tr "Invalid 1PUX file format: Missing export.data")) ∨
    (db.isSome = true ∧ self1.m_error = "") := by
  cases hf : (fs path).fileExists with
  | false =>
    rw [convert_missing_file env fs n self path hf] at h
    simp only [Except.ok.injEq, Prod.mk.injEq] at h
    exact Or.inl ⟨h.1.symm, Or.inl (by rw [← h.2])⟩
  | true =>
    cases ha : (fs path).archive with
    | false =>
      rw [convert_not_archive env fs n self path hf ha] at h
      simp only [Except.ok.injEq, Prod.mk.injEq] at h
      exact Or.inl ⟨h.1.symm, Or.inr (Or.inl (by rw [← h.2]))⟩
    | true =>
      cases hm : (fs path).exportData with
      | none =>
        rw [convert_missing_member env fs n self path hf ha hm] at h
        simp only [Except.ok.injEq, Prod.mk.injEq] at h
        exact Or.inl ⟨h.1.symm, Or.inr (Or.inr (by rw [← h.2]))⟩
      | some reads =>
        cases hr : readMember reads with
        | error f =>
          rw [convert_member_error env fs n self path reads f hf ha hm hr] at h
          simp at h
        | ok data =>
          have hc := convert_of_member env fs n self path reads data hf ha hm hr
          cases hv : readVaults env n (documentVaults (env.fromJson data)) Database.create with
          | error f =>
            rw [hc.2 f hv] at h
            simp at h
          | ok r =>
            rw [hc.1 r.1 r.2 hv] at h
            simp only [Except.ok.injEq, Prod.mk.injEq] at h
            exact Or.inr ⟨by rw [← h.1]; rfl, by rw [← h.2]⟩

/-- C18: whatever error an earlier call left in the reader and whatever the
input, after a call of `convert` that returns, with a translation that leaves
no message empty, `hasError()` is true if and only if the call returned no
store, and `errorString()` is empty exactly when a store was returned; hence
`importOPUX` of the import widget leaves a non-empty error in the widget when
it returns no store and an empty one when it returns a store, and
`openDatabase` never shows an empty error. -/
theorem convert_hasError_iff (env : Env) (fs : String → PathState) (n : Nat)
    (htr : ∀ s, s ≠ "" → env.tr s ≠ "") :
    (∀ (self : OPUXReader) (path : String) (db : Option Database) (self1 : OPUXReader),
      OPUXReader.convert env fs n self path = .ok (db, self1) →
      (self1.hasError = true ↔ db = none) ∧ (self1.errorString = "" ↔ db.isSome = true)) ∧
    (∀ (w : ImportOpenWidget) (db : Option Database) (w1 : ImportOpenWidget),
      w.importOPUX env fs n = .ok (db, w1) →
      (db = none → w1.m_error ≠ "") ∧ (db.isSome = true → w1.m_error = "")) ∧
    (∀ (w : ImportOpenWidget) (w1 : ImportOpenWidget),
      w.openDatabase env fs n ≠ .ok (OpenOutcome.errorMessage "", w1)) := by
  have hconv : ∀ (self : OPUXReader) (path : String) (db : Option Database)
      (self1 : OPUXReader), OPUXReader.convert env fs n self path = .ok (db, self1) →
      (db = none ∧ self1.m_error ≠ "") ∨ (db.isSome = true ∧ self1.m_error = "") := by
    intro self path db self1 h
    rcases convert_error_cases env fs n self path db self1 h with ⟨hd, he⟩ | ⟨hd, he⟩
    · refine Or.inl ⟨hd, ?_⟩
      rcases he with he | he | he <;> rw [he] <;> exact htr _ (by decide)
    · exact Or.inr ⟨hd, he⟩
  have hwidget : ∀ (w : ImportOpenWidget) (db : Option Database) (w1 : ImportOpenWidget),
      w.importOPUX env fs n = .ok (db, w1) →
      (db = none ∧ w1.m_error ≠ "") ∨ (db.isSome = true ∧ w1.m_error = "") := by
    intro w db w1 h
    unfold ImportOpenWidget.importOPUX at h
    simp only [] at h
    cases hc : OPUXReader.convert env fs n { m_error := "" } w.m_filename with
    | error f => rw [hc] at h; simp at h
    | ok r =>
      rcases r with ⟨db0, reader⟩
      rw [hc] at h
      rcases hconv _ _ _ _ hc with ⟨hd, he⟩ | ⟨hd, he⟩
      · have hhas : reader.hasError = true := by
          unfold OPUXReader.hasError
          simp [he]
        simp only [hhas, if_true, Except.ok.injEq, Prod.mk.injEq] at h
        refine Or.inl ⟨by rw [← h.1]; exact hd, ?_⟩
        rw [← h.2]
        exact he
      · have hhas : reader.hasError = false := by
          unfold OPUXReader.hasError
          simp [he]
        simp only [hhas, Bool.false_eq_true, if_false, Except.ok.injEq, Prod.mk.injEq] at h
        refine Or.inr ⟨by rw [← h.1]; exact hd, ?_⟩
        rw [← h.2]
  refine ⟨?_, ?_, ?_⟩
  · intro self path db self1 h
    unfold OPUXReader.hasError OPUXReader.errorString
    rcases hconv self path db self1 h with ⟨hd, he⟩ | ⟨hd, he⟩
    · subst hd
      simp [he]
    · cases db with
      | none => simp at hd
      | some d => simp [he]
  · intro w db w1 h
    rcases hwidget w db w1 h with ⟨hd, he⟩ | ⟨hd, he⟩
    · exact ⟨fun _ => he, fun hs => by rw [hd] at hs; simp at hs⟩
    · exact ⟨fun hn => by rw [hn] at hd; simp at hd, fun _ => he⟩
  · intro w w1 h
    unfold ImportOpenWidget.openDatabase at h
    cases hi : w.importOPUX env fs n with
    | error f => rw [hi] at h; simp at h
    | ok r =>
      rcases r with ⟨db, w2⟩
      rw [hi] at h
      rcases hwidget w db w2 hi with ⟨hd, he⟩ | ⟨hd, he⟩
      · subst hd
        simp only [Except.ok.injEq, Prod.mk.injEq, OpenOutcome.errorMessage.injEq] at h
        exact he h.1
      · cases db with
        | none => simp at hd
        | some d => simp at h

/-- C18 (witness): a reader that holds an old error, on a file that is not an
archive and on a valid archive. -/
theorem convert_hasError_iff_witness :
    (∀ s, s ≠ "" → sampleEnv.tr s ≠ "") ∧
    OPUXReader.convert sampleEnv sampleFileSystem 0 ⟨"old"⟩ "notes.txt"
      = .ok (none, ⟨"Invalid 1PUX file format: Not a valid ZIP file."⟩) ∧
    ((⟨"Invalid 1PUX file format: Not a valid ZIP file."⟩ : OPUXReader).hasError = true ↔
      (none : Option Database) = none) ∧
    OPUXReader.convert sampleEnv sampleFileSystem 0 ⟨"old"⟩ "sample.1pux"
      = .ok (some ⟨[]⟩, ⟨""⟩) ∧
    ((⟨""⟩ : OPUXReader).hasError = true ↔ (some ⟨[]⟩ : Option Database) = none) :=
  have hconv1 : OPUXReader.convert sampleEnv sampleFileSystem 0 ⟨"old"⟩ "notes.txt"
      = .ok (none, ⟨"Invalid 1PUX file format: Not a valid ZIP file."⟩) := rfl
  have hconv2 : OPUXReader.convert sampleEnv sampleFileSystem 0 ⟨"old"⟩ "sample.1pux"
      = .ok (some ⟨[]⟩, ⟨""⟩) :=
    (convert_of_member sampleEnv sampleFileSystem 0 ⟨"old"⟩ "sample.1pux"
      [ReadResult.bytes [123, 125]] [123, 125] rfl rfl rfl
      (readMember_single _ (by decide) (by decide))).1 ⟨[]⟩ 0 rfl
  have h := (convert_hasError_iff sampleEnv sampleFileSystem 0 (fun _ hs => hs)).1
  ⟨fun _ hs => hs, hconv1, (h ⟨"old"⟩ "notes.txt" _ _ hconv1).1, hconv2,
   (h ⟨"old"⟩ "sample.1pux" _ _ hconv2).1⟩

theorem take_writeAt (data chunk : List UInt8) (offset : Nat) (h : offset ≤ data.length) :
    List.take (offset + chunk.length) (writeAt data offset chunk)
      = List.take offset data ++ chunk := by
  unfold writeAt
  have hlen : (List.take offset data ++ chunk).length = offset + chunk.length := by
    simp only [List.length_append, List.length_take]
    omega
  rw [← hlen, List.take_left']
  rfl

/-- The read loop on chunks of 1 to 8192 bytes, started with a buffer of `k`
blocks of 8192 bytes of which `bytesRead` are read: it fills the buffer with
the chunks in order when the buffer of all the iterations fits `INT_MAX`, and
leaves the contract of `QByteArray` otherwise. -/
theorem readCurrentFile_chunks (chunks : List (List UInt8)) :
    ∀ (data : List UInt8) (bytesRead k : Nat),
      data.length = 8192 * k → bytesRead ≤ data.length →
      (∀ c ∈ chunks, 1 ≤ c.length ∧ c.length ≤ 8192) →
      (8192 * (k + chunks.length + 1) ≤ INT_MAX →
        ∃ data1, readCurrentFile (chunks.map ReadResult.bytes) data bytesRead
            = .ok (data1, bytesRead + chunks.flatten.length) ∧
          List.take (bytesRead + chunks.flatten.length) data1
            = List.take bytesRead data ++ chunks.flatten) ∧
      (INT_MAX < 8192 * (k + chunks.length + 1) →
        readCurrentFile (chunks.map ReadResult.bytes) data bytesRead
          = .error .undefinedBehaviour) := by
  induction chunks with
  | nil =>
    intro data bytesRead k hk hb _
    simp only [List.map_nil, List.length_nil, List.flatten_nil, Nat.add_zero, readCurrentFile,
      List.append_nil, gt_iff_lt]
    constructor
    · intro hfit
      have hno : ¬ (INT_MAX < data.length + 8192) := by omega
      simp only [hno, if_false]
      exact ⟨_, rfl, take_resize _ _ _ (by omega) hb⟩
    · intro hbig
      have hyes : INT_MAX < data.length + 8192 := by omega
      simp only [hyes, if_true]
  | cons c rest ih =>
    intro data bytesRead k hk hb hall
    have hc := hall c (List.mem_cons_self _ _)
    have hrest : ∀ x ∈ rest, 1 ≤ x.length ∧ x.length ≤ 8192 :=
      fun x hx => hall x (List.mem_cons_of_mem _ hx)
    have htake : List.take 8192 c = c := List.take_of_length_le hc.2
    have hlen1 : (resize data (data.length + 8192)).length = 8192 * (k + 1) := by
      rw [length_resize]; omega
    have hlen2 : (writeAt (resize data (data.length + 8192)) bytesRead c).length
        = 8192 * (k + 1) := by
      rw [length_writeAt _ _ _ (by rw [hlen1]; omega), hlen1]
    have hpos : c.length > 0 := by omega
    have hih := ih (writeAt (resize data (data.length + 8192)) bytesRead c)
      (bytesRead + c.length) (k + 1) hlen2 (by rw [hlen2]; omega) hrest
    simp only [List.map_cons, List.length_cons, List.flatten_cons, List.length_append,
      readCurrentFile, htake, hpos, if_true, gt_iff_lt]
    constructor
    · intro hfit
      have hno : ¬ (INT_MAX < data.length + 8192) := by omega
      simp only [hno, if_false]
      rcases hih.1 (by omega) with ⟨data1, hd1, hd2⟩
      refine ⟨data1, ?_, ?_⟩
      · rw [hd1, Nat.add_assoc]
      · rw [← Nat.add_assoc, hd2, take_writeAt _ _ _ (by rw [length_resize]; omega),
          take_resize _ _ _ (by omega) hb, List.append_assoc]
    · intro hbig
      by_cases hfirst : INT_MAX < data.length + 8192
      · simp only [hfirst, if_true]
      · simp only [hfirst, if_false]
        exact hih.2 (by omega)

theorem readMember_chunks (chunks : List (List UInt8))
    (hall : ∀ c ∈ chunks, 1 ≤ c.length ∧ c.length ≤ 8192) :
    (8192 * (chunks.length + 1) ≤ INT_MAX →
      readMember (chunks.map ReadResult.bytes) = .ok chunks.flatten) ∧
    (INT_MAX < 8192 * (chunks.length + 1) →
      readMember (chunks.map ReadResult.bytes) = .error .undefinedBehaviour) := by
  have h := readCurrentFile_chunks chunks [] 0 0 rfl (Nat.le_refl _) hall
  simp only [Nat.zero_add, List.take_zero, List.nil_append] at h
  unfold readMember
  constructor
  · intro hfit
    rcases h.1 hfit with ⟨data1, h1, h2⟩
    simp only [h1, h2]
  · intro hbig
    simp only [h.2 hbig]

theorem length_flatten_le (chunks : List (List UInt8))
    (hall : ∀ c ∈ chunks, 1 ≤ c.length ∧ c.length ≤ 8192) :
    chunks.flatten.length = (chunks.map List.length).sum ∧
    chunks.flatten.length ≤ 8192 * chunks.length := by
  induction chunks with
  | nil => exact ⟨rfl, Nat.le_refl _⟩
  | cons c rest ih =>
    have hc := hall c (List.mem_cons_self _ _)
    rcases ih (fun x hx => hall x (List.mem_cons_of_mem _ hx)) with ⟨h1, h2⟩
    simp only [List.flatten_cons, List.length_append, List.map_cons, List.sum_cons,
      List.length_cons]
    constructor
    · rw [h1]
    · omega

/-- C16 (counterexample): a member delivered in 262143 reads of 8192 bytes each
(2147475456 bytes, a count that fits `int`) is not read: the iteration that
would see the end of the member needs a buffer of 2^31 bytes, beyond `INT_MAX`,
and `convert` hands no buffer to the document parser. -/
theorem readMember_large_member_undefined :
    (∀ c ∈ largeMember, 1 ≤ c.length ∧ c.length ≤ 8192) ∧
    (largeMember.map List.length).sum = 2147475456 ∧
    (2147475456 : Nat) ≤ INT_MAX ∧
    readMember (largeMember.map ReadResult.bytes) = .error .undefinedBehaviour ∧
    OPUXReader.convert sampleEnv (sampleFiles largeMember) 0 ⟨""⟩ "large.1pux"
      = .error .undefinedBehaviour := by
  have hall : ∀ c ∈ largeMember, 1 ≤ c.length ∧ c.length ≤ 8192 := by
    intro c hc
    unfold largeMember at hc
    rw [List.eq_of_mem_replicate hc, List.length_replicate]
    exact ⟨by decide, by decide⟩
  have hlen : largeMember.length = 262143 := by
    unfold largeMember
    rw [List.length_replicate]
  have hsum : (largeMember.map List.length).sum = 2147475456 := by
    unfold largeMember
    rw [List.map_replicate, List.length_replicate, List.sum_replicate]
    rfl
  have hread : readMember (largeMember.map ReadResult.bytes) = .error .undefinedBehaviour := by
    apply (readMember_chunks largeMember hall).2
    rw [hlen]
    decide
  refine ⟨hall, hsum, by decide, hread, ?_⟩
  exact convert_member_error sampleEnv (sampleFiles largeMember) 0 ⟨""⟩ "large.1pux"
    (largeMember.map ReadResult.bytes) _ rfl rfl rfl hread

/-- C16 (amended): for every sequence of m chunk reads that return c1, ..., cm
bytes (each 1 <= ci <= 8192) followed by a read returning 0, with
8192 * (m + 1) <= INT_MAX (the buffer of the m + 1 iterations fits a
`QByteArray`): the buffer handed to the document parser is the concatenation
of the chunks in order, of length c1 + ... + cm, a count that fits the `int`
counter. -/
theorem readMember_reads_fully (env : Env) (fs : String → PathState) (n : Nat)
    (self : OPUXReader) (path : String) (chunks : List (List UInt8))
    (hall : ∀ c ∈ chunks, 1 ≤ c.length ∧ c.length ≤ 8192)
    (hfit : 8192 * (chunks.length + 1) ≤ INT_MAX)
    (hfile : (fs path).fileExists = true) (harchive : (fs path).archive = true)
    (hmember : (fs path).exportData = some (chunks.map ReadResult.bytes)) :
    readMember (chunks.map ReadResult.bytes) = .ok chunks.flatten ∧
    chunks.flatten.length = (chunks.map List.length).sum ∧
    (chunks.map List.length).sum ≤ INT_MAX ∧
    (∀ db k, readVaults env n (documentVaults (env.fromJson chunks.flatten)) Database.create
        = .ok (db, k) →
      OPUXReader.convert env fs n self path = .ok (some db, ⟨""⟩)) := by
  have hread := (readMember_chunks chunks hall).1 hfit
  have hlen := length_flatten_le chunks hall
  refine ⟨hread, hlen.1, ?_, ?_⟩
  · rw [← hlen.1]
    have := hlen.2
    omega
  · exact (convert_of_member env fs n self path (chunks.map ReadResult.bytes) chunks.flatten
      hfile harchive hmember hread).1

/-- C16 (witness): a member delivered in the two chunks `\x7b` and `\x7d`. -/
theorem readMember_reads_fully_witness :
    readMember ([[123], [125]].map ReadResult.bytes) = .ok [123, 125] ∧
    OPUXReader.convert sampleEnv (sampleFiles [[123], [125]]) 0 ⟨"old"⟩ "sample.1pux"
      = .ok (some ⟨[]⟩, ⟨""⟩) :=
  have h := readMember_reads_fully sampleEnv (sampleFiles [[123], [125]]) 0 ⟨"old"⟩
    "sample.1pux" [[123], [125]] (by decide) (by decide) rfl rfl rfl
  ⟨h.1, h.2.2.2 ⟨[]⟩ 0 rfl⟩

/-- The traced loop is the read loop: its result is that of
`readCurrentFile`. -/
theorem readCurrentFileTraced_result (reads : List ReadResult) :
    ∀ (data : List UInt8) (bytesRead : Nat),
      (readCurrentFileTraced reads data bytesRead).2 = readCurrentFile reads data bytesRead := by
  induction reads with
  | nil =>
    intro data bytesRead
    simp only [readCurrentFileTraced, readCurrentFile]
    split <;> rfl
  | cons r rest ih =>
    intro data bytesRead
    cases r with
    | error code =>
      simp only [readCurrentFileTraced, readCurrentFile]
      split <;> rfl
    | bytes chunk =>
      simp only [readCurrentFileTraced, readCurrentFile]
      split
      · rfl
      · split
        · exact ih _ _
        · rfl

/-- The invariant of the read loop, started with a buffer of `k` blocks of
8192 bytes of which `bytesRead` are read: the `i`-th iteration from there
writes at an offset of at most `bytesRead + 8192 * i`; when `k + i + 1` blocks
fit `INT_MAX` its buffer has that size after the resize and the write window
of 8192 bytes is inside it, and otherwise it has no buffer and the loop gives
no result; and the loop ends with a count that is at most the size of the
buffer. -/
theorem readCurrentFileTraced_spec (reads : List ReadResult) :
    ∀ (data : List UInt8) (bytesRead k : Nat),
      data.length = 8192 * k → bytesRead ≤ data.length →
      (∀ i w, (readCurrentFileTraced reads data bytesRead).1[i]? = some w →
        w.2 ≤ bytesRead + 8192 * i ∧
        (8192 * (k + i + 1) ≤ INT_MAX →
          w.1 = some (8192 * (k + i + 1)) ∧ w.2 + 8192 ≤ 8192 * (k + i + 1)) ∧
        (INT_MAX < 8192 * (k + i + 1) →
          w.1 = none ∧ readCurrentFile reads data bytesRead = .error .undefinedBehaviour)) ∧
      (∀ d b, readCurrentFile reads data bytesRead = .ok (d, b) →
        b ≤ d.length ∧
        d.length = 8192 * (k + (readCurrentFileTraced reads data bytesRead).1.length)) := by
  have hend : ∀ (data : List UInt8) (bytesRead k : Nat) (r : Except Failure (List UInt8 × Nat)),
      data.length = 8192 * k → bytesRead ≤ data.length →
      (∀ i w,
        (if data.length + 8192 > INT_MAX then
            ([((none : Option Nat), bytesRead)], (Except.error Failure.undefinedBehaviour :
              Except Failure (List UInt8 × Nat)))
          else ([(some (resize data (data.length + 8192)).length, bytesRead)],
            Except.ok (resize data (data.length + 8192), bytesRead))).1[i]? = some w →
        w.2 ≤ bytesRead + 8192 * i ∧
        (8192 * (k + i + 1) ≤ INT_MAX →
          w.1 = some (8192 * (k + i + 1)) ∧ w.2 + 8192 ≤ 8192 * (k + i + 1)) ∧
        (INT_MAX < 8192 * (k + i + 1) →
          w.1 = none ∧
          (if data.length + 8192 > INT_MAX then
              (Except.error Failure.undefinedBehaviour : Except Failure (List UInt8 × Nat))
            else Except.ok (resize data (data.length + 8192), bytesRead))
            = .error .undefinedBehaviour)) ∧
      (∀ d b,
        (if data.length + 8192 > INT_MAX then
            (Except.error Failure.undefinedBehaviour : Except Failure (List UInt8 × Nat))
          else Except.ok (resize data (data.length + 8192), bytesRead)) = .ok (d, b) →
        b ≤ d.length ∧
        d.length = 8192 * (k +
          (if data.length + 8192 > INT_MAX then
            ([((none : Option Nat), bytesRead)], (Except.error Failure.undefinedBehaviour :
              Except Failure (List UInt8 × Nat)))
          else ([(some (resize data (data.length + 8192)).length, bytesRead)],
            Except.ok (resize data (data.length + 8192), bytesRead))).1.length)) := by
    intro data bytesRead k r hk hb
    by_cases hbig : data.length + 8192 > INT_MAX
    · simp only [hbig, if_true]
      constructor
      · intro i w h
        cases i with
        | zero =>
          simp only [List.getElem?_cons_zero, Option.some.injEq] at h
          subst h
          refine ⟨by simp only []; omega, fun hfit => ?_, fun _ => ⟨rfl, trivial⟩⟩
          exfalso; omega
        | succ i => simp at h
      · intro d b h
        simp at h
    · simp only [hbig, if_false, length_resize]
      constructor
      · intro i w h
        cases i with
        | zero =>
          simp only [List.getElem?_cons_zero, Option.some.injEq] at h
          subst h
          refine ⟨by simp only []; omega, fun _ => ⟨?_, ?_⟩, fun hno => ?_⟩
          · simp only [Option.some.injEq]; omega
          · simp only []; omega
          · exfalso; omega
        | succ i => simp at h
      · intro d b h
        simp only [Except.ok.injEq, Prod.mk.injEq] at h
        rw [← h.1, ← h.2, length_resize]
        simp only [List.length_singleton]
        omega
  induction reads with
  | nil =>
    intro data bytesRead k hk hb
    simp only [readCurrentFileTraced, readCurrentFile]
    exact hend data bytesRead k (.error .undefinedBehaviour) hk hb
  | cons r rest ih =>
    intro data bytesRead k hk hb
    cases r with
    | error code =>
      simp only [readCurrentFileTraced, readCurrentFile]
      exact hend data bytesRead k (.error .undefinedBehaviour) hk hb
    | bytes chunk =>
      by_cases hbig : data.length + 8192 > INT_MAX
      · simp only [readCurrentFileTraced, readCurrentFile, hbig, if_true]
        constructor
        · intro i w h
          cases i with
          | zero =>
            simp only [List.getElem?_cons_zero, Option.some.injEq] at h
            subst h
            refine ⟨by simp only []; omega, fun hfit => ?_, fun _ => ⟨rfl, trivial⟩⟩
            exfalso; omega
          | succ i => simp at h
        · intro d b h
          simp at h
      · have hclen : (List.take 8192 chunk).length ≤ 8192 := by
          rw [List.length_take]; omega
        have hlen1 : (resize data (data.length + 8192)).length = 8192 * (k + 1) := by
          rw [length_resize]; omega
        have hlen2 : (writeAt (resize data (data.length + 8192)) bytesRead
            (List.take 8192 chunk)).length = 8192 * (k + 1) := by
          rw [length_writeAt _ _ _ (by rw [hlen1]; omega), hlen1]
        have hih := ih (writeAt (resize data (data.length + 8192)) bytesRead
          (List.take 8192 chunk)) (bytesRead + (List.take 8192 chunk).length) (k + 1) hlen2
          (by rw [hlen2]; omega)
        simp only [readCurrentFileTraced, readCurrentFile, hbig, if_false]
        by_cases hpos : (List.take 8192 chunk).length > 0
        · simp only [hpos, if_true]
          constructor
          · intro i w h
            cases i with
            | zero =>
              simp only [List.getElem?_cons_zero, Option.some.injEq] at h
              subst h
              refine ⟨by simp only []; omega, fun _ => ⟨?_, ?_⟩, fun hno => ?_⟩
              · simp only [Option.some.injEq]; omega
              · simp only []; omega
              · exfalso; omega
            | succ i =>
              simp only [List.getElem?_cons_succ] at h
              rcases hih.1 i w h with ⟨h1, h2, h3⟩
              refine ⟨by omega, fun hfit => ?_, fun hno => ?_⟩
              · rcases h2 (by omega) with ⟨h21, h22⟩
                exact ⟨by rw [h21]; simp only [Option.some.injEq]; omega, by omega⟩
              · exact h3 (by omega)
          · intro d b h
            rcases hih.2 d b h with ⟨h1, h2⟩
            refine ⟨h1, ?_⟩
            rw [h2, List.length_cons]
            omega
        · simp only [hpos, if_false]
          constructor
          · intro i w h
            cases i with
            | zero =>
              simp only [List.getElem?_cons_zero, Option.some.injEq] at h
              subst h
              refine ⟨by simp only []; omega, fun _ => ⟨?_, ?_⟩, fun hno => ?_⟩
              · simp only [Option.some.injEq]; omega
              · simp only []; omega
              · exfalso; omega
            | succ i => simp at h
          · intro d b h
            simp only [Except.ok.injEq, Prod.mk.injEq] at h
            rcases h with ⟨hd, hbb⟩
            subst hd
            subst hbb
            rw [hlen2]
            simp only [List.length_singleton]
            exact ⟨by omega, trivial⟩

/-- Every record of the traced loop is a state of `readCurrentFile`: the
record of the iteration of index `i` holds the size of the buffer and the
count that `readCurrentFile` returns when the member ends after the first `i`
reads, and it has no size when `readCurrentFile` then gives no result. -/
theorem readCurrentFileTraced_state (reads : List ReadResult) :
    ∀ (data : List UInt8) (bytesRead i : Nat) (w : Option Nat × Nat),
      (readCurrentFileTraced reads data bytesRead).1[i]? = some w →
      (∀ s, w.1 = some s →
        ∃ d, readCurrentFile (reads.take i) data bytesRead = .ok (d, w.2) ∧ d.length = s) ∧
      (w.1 = none → readCurrentFile (reads.take i) data bytesRead = .error .undefinedBehaviour) := by
  have hend : ∀ (data : List UInt8) (bytesRead i : Nat) (w : Option Nat × Nat),
      (if data.length + 8192 > INT_MAX then
          ([((none : Option Nat), bytesRead)], (Except.error Failure.undefinedBehaviour :
            Except Failure (List UInt8 × Nat)))
        else ([(some (resize data (data.length + 8192)).length, bytesRead)],
          Except.ok (resize data (data.length + 8192), bytesRead))).1[i]? = some w →
      i = 0 ∧
      (∀ s, w.1 = some s →
        ∃ d, readCurrentFile [] data bytesRead = .ok (d, w.2) ∧ d.length = s) ∧
      (w.1 = none → readCurrentFile [] data bytesRead = .error .undefinedBehaviour) := by
    intro data bytesRead i w h
    by_cases hbig : data.length + 8192 > INT_MAX
    · simp only [hbig, if_true] at h
      cases i with
      | zero =>
        simp only [List.getElem?_cons_zero, Option.some.injEq] at h
        subst h
        refine ⟨rfl, fun s hs => by simp at hs, fun _ => ?_⟩
        simp only [readCurrentFile, hbig, if_true]
      | succ i => simp at h
    · simp only [hbig, if_false] at h
      cases i with
      | zero =>
        simp only [List.getElem?_cons_zero, Option.some.injEq] at h
        subst h
        refine ⟨rfl, fun s hs => ?_, fun hn => by simp at hn⟩
        simp only [Option.some.injEq] at hs
        simp only [readCurrentFile, hbig, if_false]
        exact ⟨_, rfl, hs⟩
      | succ i => simp at h
  induction reads with
  | nil =>
    intro data bytesRead i w h
    simp only [readCurrentFileTraced] at h
    rcases hend data bytesRead i w h with ⟨hi, h1, h2⟩
    subst hi
    exact ⟨h1, h2⟩
  | cons r rest ih =>
    intro data bytesRead i w h
    cases r with
    | error code =>
      simp only [readCurrentFileTraced] at h
      rcases hend data bytesRead i w h with ⟨hi, h1, h2⟩
      subst hi
      exact ⟨h1, h2⟩
    | bytes chunk =>
      by_cases hbig : data.length + 8192 > INT_MAX
      · simp only [readCurrentFileTraced, hbig, if_true] at h
        have h0 := hend data bytesRead i w (by simp only [hbig, if_true]; exact h)
        rcases h0 with ⟨hi, h1, h2⟩
        subst hi
        exact ⟨h1, h2⟩
      · by_cases hpos : (List.take 8192 chunk).length > 0
        · simp only [readCurrentFileTraced, hbig, if_false, hpos, if_true] at h
          cases i with
          | zero =>
            simp only [List.getElem?_cons_zero, Option.some.injEq] at h
            subst h
            refine ⟨fun s hs => ?_, fun hn => by simp at hn⟩
            simp only [Option.some.injEq] at hs
            simp only [List.take_zero, readCurrentFile, hbig, if_false]
            exact ⟨_, rfl, hs⟩
          | succ i =>
            simp only [List.getElem?_cons_succ] at h
            have hi := ih _ _ i w h
            simp only [List.take_succ_cons, readCurrentFile, hbig, if_false, hpos, if_true]
            exact hi
        · simp only [readCurrentFileTraced, hbig, if_false, hpos] at h
          cases i with
          | zero =>
            simp only [List.getElem?_cons_zero, Option.some.injEq] at h
            subst h
            refine ⟨fun s hs => ?_, fun hn => by simp at hn⟩
            simp only [Option.some.injEq] at hs
            simp only [List.take_zero, readCurrentFile, hbig, if_false]
            exact ⟨_, rfl, hs⟩
          | succ i => simp at h

/-- The traced loop on chunks of 1 to 8192 bytes whose last iteration, the one
that would see the end of the member, is the first whose buffer is beyond
`INT_MAX`: that iteration is started, with all the bytes of the chunks
counted, and has no buffer. -/
theorem readCurrentFileTraced_chunks_beyond (chunks : List (List UInt8)) :
    ∀ (data : List UInt8) (bytesRead k : Nat),
      data.length = 8192 * k → bytesRead ≤ data.length →
      (∀ c ∈ chunks, 1 ≤ c.length ∧ c.length ≤ 8192) →
      8192 * (k + chunks.length) ≤ INT_MAX →
      INT_MAX < 8192 * (k + chunks.length + 1) →
      (readCurrentFileTraced (chunks.map ReadResult.bytes) data bytesRead).1[chunks.length]?
        = some (none, bytesRead + chunks.flatten.length) := by
  induction chunks with
  | nil =>
    intro data bytesRead k hk hb _ _ hbig
    have hyes : data.length + 8192 > INT_MAX := by
      simp only [List.length_nil] at hbig
      omega
    simp only [List.map_nil, readCurrentFileTraced, hyes, if_true, List.length_nil,
      List.getElem?_cons_zero, List.flatten_nil, Nat.add_zero]
  | cons c rest ih =>
    intro data bytesRead k hk hb hall hfit hbig
    have hc := hall c (List.mem_cons_self _ _)
    have hrest : ∀ x ∈ rest, 1 ≤ x.length ∧ x.length ≤ 8192 :=
      fun x hx => hall x (List.mem_cons_of_mem _ hx)
    have htake : List.take 8192 c = c := List.take_of_length_le hc.2
    simp only [List.length_cons] at hfit hbig
    have hno : ¬ (data.length + 8192 > INT_MAX) := by omega
    have hpos : c.length > 0 := by omega
    have hlen1 : (resize data (data.length + 8192)).length = 8192 * (k + 1) := by
      rw [length_resize]; omega
    have hlen2 : (writeAt (resize data (data.length + 8192)) bytesRead c).length
        = 8192 * (k + 1) := by
      rw [length_writeAt _ _ _ (by rw [hlen1]; omega), hlen1]
    have hih := ih (writeAt (resize data (data.length + 8192)) bytesRead c)
      (bytesRead + c.length) (k + 1) hlen2 (by rw [hlen2]; omega) hrest (by omega) (by omega)
    simp only [List.map_cons, readCurrentFileTraced, hno, if_false, htake, hpos, if_true,
      List.length_cons, List.getElem?_cons_succ, List.flatten_cons, List.length_append]
    rw [hih, Nat.add_assoc]

/-- C19 (counterexample): a member delivered in 262143 reads of 8192 bytes each.
The read loop starts the iteration 262144 (index 262143) with `bytesRead` =
2147475456, a count that fits `int`; the resize of that iteration would need
2^31 bytes, which no `QByteArray` has, so the record has no buffer size, and
for every size an `int` can hold, `bytesRead` + 8192 is beyond it: the write
window at offset `bytesRead` is not inside the buffer, and the loop gives no
result. -/
theorem readCurrentFile_window_beyond_int :
    (∀ c ∈ largeMember, c.length = 8192) ∧
    (readCurrentFileTraced (largeMember.map ReadResult.bytes) [] 0).2
      = readCurrentFile (largeMember.map ReadResult.bytes) [] 0 ∧
    (readCurrentFileTraced (largeMember.map ReadResult.bytes) [] 0).1[262143]?
      = some (none, 2147475456) ∧
    readCurrentFile ((largeMember.map ReadResult.bytes).take 262143) [] 0
      = .error .undefinedBehaviour ∧
    (2147475456 : Nat) ≤ INT_MAX ∧
    (∀ size : Nat, size ≤ INT_MAX → ¬ (2147475456 + 8192 ≤ size)) ∧
    readCurrentFile (largeMember.map ReadResult.bytes) [] 0 = .error .undefinedBehaviour := by
  have hall8 : ∀ c ∈ largeMember, c.length = 8192 := by
    intro c hc
    unfold largeMember at hc
    rw [List.eq_of_mem_replicate hc, List.length_replicate]
  have hall : ∀ c ∈ largeMember, 1 ≤ c.length ∧ c.length ≤ 8192 := by
    intro c hc
    rw [hall8 c hc]
    exact ⟨by decide, by decide⟩
  have hlen : largeMember.length = 262143 := by
    unfold largeMember
    rw [List.length_replicate]
  have hsum : (largeMember.map List.length).sum = 2147475456 := by
    unfold largeMember
    rw [List.map_replicate, List.length_replicate, List.sum_replicate]
    rfl
  have hflat : largeMember.flatten.length = 2147475456 := by
    rw [(length_flatten_le largeMember hall).1, hsum]
  have hw := readCurrentFileTraced_chunks_beyond largeMember [] 0 0 rfl (Nat.le_refl _) hall
    (by rw [hlen]; decide) (by rw [hlen]; decide)
  rw [hlen, hflat, Nat.zero_add] at hw
  refine ⟨hall8, readCurrentFileTraced_result _ _ _, hw,
    (readCurrentFileTraced_state _ [] 0 262143 (none, 2147475456) hw).2 rfl, by decide, ?_, ?_⟩
  · intro size hsize hle
    have h : INT_MAX = 2147483647 := rfl
    omega
  · exact (readCurrentFile_chunks largeMember [] 0 0 rfl (Nat.le_refl _) hall).2
      (by rw [hlen]; decide)

/-- C19 (amended): in the read loop of `convert`, started with the empty buffer
and the count 0, the traced loop gives the result of `readCurrentFile`, and
the record of every iteration that the loop starts (the i-th, counted from 1)
is the state of `readCurrentFile` there: the size of the buffer and the count
that `readCurrentFile` returns when the member ends after the first i - 1
reads.  In every such iteration `bytesRead` is at most 8192 * (i - 1).  When
8192 * i is at most `INT_MAX`, the buffer has 8192 * i bytes after the resize
and `bytesRead` + 8192 is at most the size of the buffer: the read writes
inside the buffer.  When 8192 * i is beyond `INT_MAX`, the iteration has no
buffer and the loop gives no result.  When the loop ends with a result,
`bytesRead` is at most the size of the buffer, which is 8192 times the number
of iterations, so `truncate(bytesRead)` does not extend it and leaves exactly
`bytesRead` bytes. -/
theorem readCurrentFile_windows_within_int (reads : List ReadResult) :
    (readCurrentFileTraced reads [] 0).2 = readCurrentFile reads [] 0 ∧
    (∀ i w, (readCurrentFileTraced reads [] 0).1[i]? = some w →
      (∀ s, w.1 = some s →
        ∃ d, readCurrentFile (reads.take i) [] 0 = .ok (d, w.2) ∧ d.length = s) ∧
      (w.1 = none → readCurrentFile (reads.take i) [] 0 = .error .undefinedBehaviour) ∧
      w.2 ≤ 8192 * i ∧
      (8192 * (i + 1) ≤ INT_MAX → w.1 = some (8192 * (i + 1)) ∧ w.2 + 8192 ≤ 8192 * (i + 1)) ∧
      (INT_MAX < 8192 * (i + 1) →
        w.1 = none ∧ readCurrentFile reads [] 0 = .error .undefinedBehaviour)) ∧
    (∀ d b, readCurrentFile reads [] 0 = .ok (d, b) →
      b ≤ d.length ∧ d.length = 8192 * (readCurrentFileTraced reads [] 0).1.length ∧
      (d.take b).length = b) := by
  have h := readCurrentFileTraced_spec reads [] 0 0 rfl (Nat.le_refl _)
  refine ⟨readCurrentFileTraced_result reads [] 0, ?_, ?_⟩
  · intro i w hw
    rcases h.1 i w hw with ⟨h1, h2, h3⟩
    have hst := readCurrentFileTraced_state reads [] 0 i w hw
    refine ⟨hst.1, hst.2, by omega, fun hfit => ?_, fun hno => ?_⟩
    · have := h2 (by omega)
      simp only [Nat.zero_add] at this
      exact this
    · exact h3 (by omega)
  · intro d b hd
    rcases h.2 d b hd with ⟨h1, h2⟩
    refine ⟨h1, by omega, ?_⟩
    rw [List.length_take]
    omega

/-- C19 (witness): a member delivered in the two chunks `\x7b` and `\x7d`:
the loop starts three iterations, with buffers of 8192, 16384 and 24576 bytes
and the offsets 0, 1 and 2, and ends with the count 2. -/
theorem readCurrentFile_windows_within_int_witness :
    (readCurrentFileTraced ([[123], [125]].map ReadResult.bytes) [] 0).1
      = [(some 8192, 0), (some 16384, 1), (some 24576, 2)] ∧
    ((1 : Nat) ≤ 8192 * 1 ∧ (1 : Nat) + 8192 ≤ 8192 * (1 + 1)) ∧
    (∃ d, readCurrentFile ([[123], [125]].map ReadResult.bytes) [] 0 = .ok (d, 2) ∧
      2 ≤ d.length ∧ d.length = 8192 * 3 ∧ (d.take 2).length = 2) :=
  have ht : (readCurrentFileTraced ([[123], [125]].map ReadResult.bytes) [] 0).1
      = [(some 8192, 0), (some 16384, 1), (some 24576, 2)] := by
    simp [readCurrentFileTraced, INT_MAX, length_resize, length_writeAt]
  have h := readCurrentFile_windows_within_int ([[123], [125]].map ReadResult.bytes)
  have hw : (readCurrentFileTraced ([[123], [125]].map ReadResult.bytes) [] 0).1[1]?
      = some (some 16384, 1) := by rw [ht]; rfl
  have hrun := (readCurrentFile_chunks [[123], [125]] [] 0 0 rfl (Nat.le_refl _)
    (by decide)).1 (by decide)
  ⟨ht, ⟨(h.2.1 1 (some 16384, 1) hw).2.2.1, ((h.2.1 1 (some 16384, 1) hw).2.2.2.1 (by decide)).2⟩,
   hrun.elim (fun d hd => ⟨d, hd.1, (h.2.2 d 2 hd.1).1,
     by have := (h.2.2 d 2 hd.1).2.1; rw [ht] at this; exact this,
     (h.2.2 d 2 hd.1).2.2⟩)⟩

theorem sectionFields_append (env : Env) (secsA secsB : List JsonValue) :
    ∀ (n : Nat), sectionFields env n (secsA ++ secsB)
      = sectionFields env n secsA ++ sectionFields env (sectionsCount env n secsA) secsB := by
  induction secsA with
  | nil => intro n; rfl
  | cons sec rest ih =>
    intro n
    show sectionFields env n (sec :: (rest ++ secsB)) = _
    simp only [sectionFields, sectionsCount, ih, List.append_assoc]

/-- The section fields of an item, split at one field of one section. -/
theorem sectionFields_split (env : Env) (n : Nat) (secsBefore secsAfter : List JsonValue)
    (sec field : JsonValue) (fBefore fAfter : List JsonValue)
    (hfields : toList (value (toMap sec) "fields") = fBefore ++ field :: fAfter) :
    sectionFields env (n + 1) (secsBefore ++ sec :: secsAfter)
      = fieldsBefore env n secsBefore sec fBefore
        ++ (sectionPreIn env n secsBefore sec, field)
          :: fieldsAfter env n secsBefore sec fAfter secsAfter := by
  rw [sectionFields_append]
  unfold fieldsBefore fieldsAfter sectionPreIn
  simp only [sectionFields, hfields, List.map_append, List.map_cons, List.append_assoc,
    List.cons_append]

/-- What a section field does to the attributes: nothing, or it sets the
attribute of its own name, or it sets the attribute of a name of the probe. -/
theorem readField_attributes (env : Env) (pre : String) (field : JsonValue) (entry e : Entry)
    (h : readField env pre field entry = .ok e) :
    e.attributes = entry.attributes ∨
    (∃ v p, e.attributes = EntryAttributes.set entry.attributes (fieldName pre (toMap field)) v p) ∨
    (∃ m v, e.attributes = EntryAttributes.set entry.attributes (otpName m) v true) := by
  rcases otpName_first_unused (EntryAttributes.keys entry.attributes) with ⟨m, hm, hall⟩
  have hprobe := otpProbe_first_unused (EntryAttributes.keys entry.attributes) m hm hall
  unfold readField at h
  simp only [] at h
  split at h
  · cases h
  · split at h
    · split at h
      · rw [hprobe] at h
        simp only [Except.ok.injEq] at h
        subst h
        exact Or.inr (Or.inr ⟨m, _, rfl⟩)
      · simp only [Except.ok.injEq] at h
        subst h
        exact Or.inl rfl
    · split at h
      · simp only [Except.ok.injEq] at h
        subst h
        exact Or.inr (Or.inl ⟨_, _, rfl⟩)
      · simp only [Except.ok.injEq] at h
        subst h
        exact Or.inl rfl

theorem readField_find_other (env : Env) (pre : String) (field : JsonValue) (entry e : Entry)
    (h : readField env pre field entry = .ok e) (key : String)
    (hname : fieldName pre (toMap field) ≠ key) (hotp : ∀ m, key ≠ otpName m) :
    EntryAttributes.find e.attributes key = EntryAttributes.find entry.attributes key := by
  rcases readField_attributes env pre field entry e h with h1 | ⟨v, p, h1⟩ | ⟨m, v, h1⟩
  · rw [h1]
  · rw [h1, find_set_other _ _ _ _ _ (Ne.symm hname)]
  · rw [h1, find_set_other _ _ _ _ _ (hotp m)]

theorem readField_keys_mono (env : Env) (pre : String) (field : JsonValue) (entry e : Entry)
    (h : readField env pre field entry = .ok e) (key : String)
    (hkey : key ∈ EntryAttributes.keys entry.attributes) :
    key ∈ EntryAttributes.keys e.attributes := by
  rcases readField_attributes env pre field entry e h with h1 | ⟨v, p, h1⟩ | ⟨m, v, h1⟩
  · rw [h1]; exact hkey
  · rw [h1]; exact (mem_keys_set _ _ _ _ _).2 (Or.inr hkey)
  · rw [h1]; exact (mem_keys_set _ _ _ _ _).2 (Or.inr hkey)

/-- Section fields of other names, read one after the other, leave an
attribute as it is when its name is no name of the probe. -/
theorem readFlat_find_other (env : Env) (key : String) (hotp : ∀ m, key ≠ otpName m)
    (fields : List (String × JsonValue)) :
    ∀ (entry e : Entry), readFlat env fields entry = .ok e →
      (∀ pf ∈ fields, fieldName pf.1 (toMap pf.2) ≠ key) →
      EntryAttributes.find e.attributes key = EntryAttributes.find entry.attributes key := by
  induction fields with
  | nil =>
    intro entry e h _
    simp only [readFlat, Except.ok.injEq] at h
    rw [h]
  | cons pf rest ih =>
    intro entry e h hall
    unfold readFlat at h
    cases hr : readField env pf.1 pf.2 entry with
    | error f => rw [hr] at h; simp at h
    | ok e0 =>
      rw [hr] at h
      rw [ih e0 e h (fun p hp => hall p (List.mem_cons_of_mem _ hp))]
      exact readField_find_other env pf.1 pf.2 entry e0 hr key
        (hall pf (List.mem_cons_self _ _)) hotp

/-- No section field removes an attribute. -/
theorem readFlat_keys_mono (env : Env) (key : String) (fields : List (String × JsonValue)) :
    ∀ (entry e : Entry), readFlat env fields entry = .ok e →
      key ∈ EntryAttributes.keys entry.attributes → key ∈ EntryAttributes.keys e.attributes := by
  induction fields with
  | nil =>
    intro entry e h hk
    simp only [readFlat, Except.ok.injEq] at h
    rw [← h]; exact hk
  | cons pf rest ih =>
    intro entry e h hk
    unfold readFlat at h
    cases hr : readField env pf.1 pf.2 entry with
    | error f => rw [hr] at h; simp at h
    | ok e0 =>
      rw [hr] at h
      exact ih e0 e h (readField_keys_mono env pf.1 pf.2 entry e0 hr key hk)

/-- The run of `readItem` through one field of one section: the fields before
it are read on the basic entry, then the field, then the fields after it, and
the last steps give the entry that is returned. -/
theorem readItem_field_trace (env : Env) (n : Nat) (item : JsonObject)
    (secsBefore secsAfter : List JsonValue) (sec field : JsonValue)
    (fBefore fAfter : List JsonValue)
    (hsecs : itemSections item = secsBefore ++ sec :: secsAfter)
    (hfields : toList (value (toMap sec) "fields") = fBefore ++ field :: fAfter)
    (e : Entry) (k : Nat) (h : readItem env n item = .ok (e, k)) :
    ∃ e1 e2 e3,
      readFlat env (fieldsBefore env n secsBefore sec fBefore) (itemBasics env n item) = .ok e1 ∧
      readField env (sectionPreIn env n secsBefore sec) field e1 = .ok e2 ∧
      readFlat env (fieldsAfter env n secsBefore sec fAfter secsAfter) e2 = .ok e3 ∧
      e = itemFinish item e3 := by
  rcases readItem_inv env n item e k h with ⟨e3, h3, hfin⟩
  have hflat := readFlat_of_readSections env _ _ _ _ _ h3
  rw [hsecs, sectionFields_split env n secsBefore secsAfter sec field fBefore fAfter hfields]
    at hflat
  rcases readFlat_append_inv env _ _ _ _ hflat with ⟨e1, h1, hrest⟩
  unfold readFlat at hrest
  cases hr : readField env (sectionPreIn env n secsBefore sec) field e1 with
  | error f => rw [hr] at hrest; simp at hrest
  | ok e2 =>
    rw [hr] at hrest
    exact ⟨e1, e2, e3, h1, hr, hrest, hfin⟩

/-- The loop body for a field whose tagged key is none of `totp`, `date`,
`email`, `address` (lines 229-235): the raw value is stored when it is not
empty. -/
theorem readField_raw_step (env : Env) (pre : String) (field : JsonValue) (entry : Entry)
    (key : String) (hkey : firstKey (fieldValueMap field) = some key)
    (h1 : key ≠ "totp") (h2 : key ≠ "date") (h3 : key ≠ "email") (h4 : key ≠ "address") :
    readField env pre field entry =
      .ok (if variantToString (value (fieldValueMap field) key) = "" then entry
           else entry.setAttribute (pre ++ "_" ++ fieldTitle (toMap field))
             (variantToString (value (fieldValueMap field) key)) (key == "concealed")) := by
  have hdec : decodeValue env (fieldValueMap field) key
      = variantToString (value (fieldValueMap field) key) := by
    unfold decodeValue
    simp only [h2, h3, h4, if_false]
  have hread := readField_non_totp env pre field entry key hkey h1
  rw [hdec, fieldName_eq] at hread
  exact hread

/-- The loop body for a field tagged `address` (lines 224-235): the address
text is stored, not concealed. -/
theorem readField_address_step (env : Env) (pre : String) (field : JsonValue) (entry : Entry)
    (hkey : firstKey (fieldValueMap field) = some "address") :
    readField env pre field entry =
      .ok (entry.setAttribute (pre ++ "_" ++ fieldTitle (toMap field))
        (addressText (toMap (value (fieldValueMap field) "address"))) false) := by
  have hread := readField_non_totp env pre field entry "address" hkey (by decide)
  rw [decodeValue_address, fieldName_eq] at hread
  simp only [addressText_ne_empty, if_false] at hread
  have hb : (("address" : String) == "concealed") = false := by decide
  rw [hb] at hread
  exact hread

/-- The attribute that a field has set is the one found in the entry that
`readItem` returns, when no later field has the same name and the name is no
name of the probe. -/
theorem readFlat_find_set (env : Env) (item : JsonObject) (fields : List (String × JsonValue))
    (e1 e3 : Entry) (name v : String) (p : Bool)
    (h : readFlat env fields (e1.setAttribute name v p) = .ok e3)
    (hlater : ∀ pf ∈ fields, fieldName pf.1 (toMap pf.2) ≠ name)
    (hotp : ∀ m, name ≠ otpName m) :
    EntryAttributes.find (itemFinish item e3).attributes name = some ⟨name, v, p⟩ := by
  have hf := readFlat_find_other env name hotp fields _ e3 h hlater
  have hs : EntryAttributes.find (e1.setAttribute name v p).attributes name = some ⟨name, v, p⟩ :=
    find_set_same _ _ _ _
  rw [hs] at hf
  exact hf

/-- The attribute that a field has set is an attribute of the entry that
`readItem` returns. -/
theorem readFlat_mem_set (env : Env) (item : JsonObject) (fields : List (String × JsonValue))
    (e1 e3 : Entry) (name v : String) (p : Bool)
    (h : readFlat env fields (e1.setAttribute name v p) = .ok e3) :
    name ∈ EntryAttributes.keys (itemFinish item e3).attributes := by
  have hk : name ∈ EntryAttributes.keys (e1.setAttribute name v p).attributes :=
    (mem_keys_set _ _ _ _ _).2 (Or.inl rfl)
  exact readFlat_keys_mono env name fields _ e3 h hk

/-- C8: for an item, a section of it with the non-empty title P and a field of
that section whose tagged key is none of `totp`, `date`, `email`, `address`,
with N the title of the field, or its id when the title is empty, and raw the
raw value rendered as a string.  The prefix that `readItem` uses for the
section is P.  Whenever `readItem` returns an entry, it has read the fields
before this one, then this field, which leaves the entry as it is when raw is
empty and otherwise stores raw verbatim under the name `P_N`, concealed if and
only if the key is `concealed`, then the fields after it.  So when raw is not
empty the returned entry has an attribute `P_N`; and when no later field has
the name `P_N` and `P_N` is no name of the one-time-password probe, the
attribute `P_N` of the returned entry is the one the earlier fields left when
raw is empty, and otherwise holds raw, concealed if and only if the key is
`concealed`; so if the earlier fields left none, the returned entry has the
attribute if and only if raw is not empty.  And `readItem` does return an
entry when every section field has a tagged value. -/
theorem readItem_raw_value (env : Env) (n : Nat) (item : JsonObject)
    (secsBefore secsAfter : List JsonValue) (sec field : JsonValue)
    (fBefore fAfter : List JsonValue) (key : String)
    (hsecs : itemSections item = secsBefore ++ sec :: secsAfter)
    (hfields : toList (value (toMap sec) "fields") = fBefore ++ field :: fAfter)
    (hP : variantToString (value (toMap sec) "title") ≠ "")
    (hkey : firstKey (fieldValueMap field) = some key)
    (h1 : key ≠ "totp") (h2 : key ≠ "date") (h3 : key ≠ "email") (h4 : key ≠ "address") :
    sectionPreIn env n secsBefore sec = variantToString (value (toMap sec) "title") ∧
    (∀ e k, readItem env n item = .ok (e, k) →
      ∃ e1 e3,
        readFlat env (fieldsBefore env n secsBefore sec fBefore) (itemBasics env n item)
          = .ok e1 ∧
        readFlat env (fieldsAfter env n secsBefore sec fAfter secsAfter)
          (if variantToString (value (fieldValueMap field) key) = "" then e1
           else e1.setAttribute
             (variantToString (value (toMap sec) "title") ++ "_" ++ fieldTitle (toMap field))
             (variantToString (value (fieldValueMap field) key)) (key == "concealed"))
          = .ok e3 ∧
        e = itemFinish item e3 ∧
        (variantToString (value (fieldValueMap field) key) ≠ "" →
          variantToString (value (toMap sec) "title") ++ "_" ++ fieldTitle (toMap field)
            ∈ EntryAttributes.keys e.attributes) ∧
        ((∀ pf ∈ fieldsAfter env n secsBefore sec fAfter secsAfter,
            fieldName pf.1 (toMap pf.2)
              ≠ variantToString (value (toMap sec) "title") ++ "_" ++ fieldTitle (toMap field)) →
         (∀ m, variantToString (value (toMap sec) "title") ++ "_" ++ fieldTitle (toMap field)
            ≠ otpName m) →
         EntryAttributes.find e.attributes
            (variantToString (value (toMap sec) "title") ++ "_" ++ fieldTitle (toMap field))
           = (if variantToString (value (fieldValueMap field) key) = "" then
                EntryAttributes.find e1.attributes
                  (variantToString (value (toMap sec) "title") ++ "_" ++ fieldTitle (toMap field))
              else
                some ⟨variantToString (value (toMap sec) "title") ++ "_"
                    ++ fieldTitle (toMap field),
                  variantToString (value (fieldValueMap field) key), key == "concealed"⟩) ∧
         (EntryAttributes.find e1.attributes
            (variantToString (value (toMap sec) "title") ++ "_" ++ fieldTitle (toMap field))
            = none →
          (variantToString (value (toMap sec) "title") ++ "_" ++ fieldTitle (toMap field)
              ∈ EntryAttributes.keys e.attributes
            ↔ variantToString (value (fieldValueMap field) key) ≠ "")))) ∧
    (fieldsTagged item = true → ∃ e k, readItem env n item = .ok (e, k)) := by
  have hpre : sectionPreIn env n secsBefore sec = variantToString (value (toMap sec) "title") := by
    unfold sectionPreIn sectionPre
    simp only [hP, if_false]
  refine ⟨hpre, ?_, readItem_ok env n item⟩
  intro e k h
  rcases readItem_field_trace env n item secsBefore secsAfter sec field fBefore fAfter
    hsecs hfields e k h with ⟨e1, e2, e3, hb, hf, ha, hfin⟩
  rw [readField_raw_step env _ field e1 key hkey h1 h2 h3 h4, hpre] at hf
  simp only [Except.ok.injEq] at hf
  subst hf
  subst hfin
  refine ⟨e1, e3, hb, ha, rfl, ?_, ?_⟩
  · intro hne
    simp only [hne, if_false] at ha
    exact readFlat_mem_set env item _ e1 e3 _ _ _ ha
  · intro hlater hotp
    by_cases hraw : variantToString (value (fieldValueMap field) key) = ""
    · simp only [hraw, if_true] at ha
      have hfind := readFlat_find_other env _ hotp _ e1 e3 ha hlater
      have hfind2 : EntryAttributes.find (itemFinish item e3).attributes
          (variantToString (value (toMap sec) "title") ++ "_" ++ fieldTitle (toMap field))
          = EntryAttributes.find e1.attributes
          (variantToString (value (toMap sec) "title") ++ "_" ++ fieldTitle (toMap field)) :=
        hfind
      refine ⟨?_, ?_⟩
      · simp only [hraw, if_true]
        exact hfind2
      · intro hnone
        rw [mem_keys_iff_find, hfind2, hnone]
        simp [hraw]
    · simp only [hraw, if_false] at ha
      have hfind := readFlat_find_set env item _ e1 e3 _ _ _ ha hlater hotp
      refine ⟨?_, ?_⟩
      · simp only [hraw, if_false]
        exact hfind
      · intro _
        rw [mem_keys_iff_find, hfind]
        simp [hraw]

/-- C8 (witness): the field `PIN`, tagged `concealed`, of the section
`Security` of `sectionsItem`, which has one field after it in its section
and two sections after its section. -/
theorem readItem_raw_value_witness :
    (∃ e k, readItem sampleEnv 0 sectionsItem = .ok (e, k) ∧
      "Security_PIN" ∈ EntryAttributes.keys e.attributes ∧
      EntryAttributes.find e.attributes "Security_PIN" = some ⟨"Security_PIN", "12345", true⟩) ∧
    (readItem sampleEnv 0 sectionsItem).toOption.map (fun r => r.1.attributes)
      = some [⟨"Security_PIN", "12345", true⟩,
              ⟨"Addresses_Home", "1 Main St\nSpringfield, IL 62701\nUS", false⟩,
              ⟨"1a1b2_Home", "\n,  \n", false⟩] :=
  have h := readItem_raw_value sampleEnv 0 sectionsItem [] [addressesSection, untitledSection]
    securityFieldsSection pinField [] [emptyStringField] "concealed" rfl rfl
    (by decide) (by decide) (by decide) (by decide) (by decide) (by decide)
  have hlater : ∀ pf ∈ fieldsAfter sampleEnv 0 [] securityFieldsSection [emptyStringField]
      [addressesSection, untitledSection],
      fieldName pf.1 (toMap pf.2) ≠ "Security_PIN" := by
    intro pf hpf
    have hA : fieldsAfter sampleEnv 0 [] securityFieldsSection [emptyStringField]
        [addressesSection, untitledSection]
        = [("Security", emptyStringField), ("Addresses", addressField),
           ("Addresses", totpField), ("1a1b2", emptyAddressField)] := rfl
    rw [hA] at hpf
    simp only [List.mem_cons, List.mem_singleton, List.not_mem_nil, or_false] at hpf
    rcases hpf with rfl | rfl | rfl | rfl <;> decide
  have hotp : ∀ m, ("Security_PIN" : String) ≠ otpName m := by
    intro m hm
    have := congrArg (fun s => s.data.head?) hm
    simp only [otpName_head] at this
    exact absurd this (by decide)
  ⟨by
    rcases h.2.2 (by decide) with ⟨e, k, hr⟩
    rcases h.2.1 e k hr with ⟨e1, e3, _, _, _, hmem, hfind⟩
    exact ⟨e, k, hr, hmem (by decide), (hfind hlater hotp).1⟩,
   by decide⟩

/-- C13: for an item, a section of it and a field of that section tagged
`address`.  Whenever `readItem` returns an entry, it has read the fields
before this one, then this field, which sets exactly one attribute: the one
under the key `<prefix>_<fieldname>`, not concealed, whose value is
street + line break + city + ", " + state + " " + zip + line break + country
(an absent part read as the empty text), every attribute of another name
being left as it was; then the fields after it.  So the returned entry has an
attribute of that key, and when no later field has the same name and the name
is no name of the one-time-password probe, it holds that text, not concealed.
And `readItem` does return an entry when every section field has a tagged
value. -/
theorem readItem_address (env : Env) (n : Nat) (item : JsonObject)
    (secsBefore secsAfter : List JsonValue) (sec field : JsonValue)
    (fBefore fAfter : List JsonValue)
    (hsecs : itemSections item = secsBefore ++ sec :: secsAfter)
    (hfields : toList (value (toMap sec) "fields") = fBefore ++ field :: fAfter)
    (hkey : firstKey (fieldValueMap field) = some "address") :
    (∀ e k, readItem env n item = .ok (e, k) →
      ∃ e1 e2 e3,
        readFlat env (fieldsBefore env n secsBefore sec fBefore) (itemBasics env n item)
          = .ok e1 ∧
        e2 = e1.setAttribute (sectionPreIn env n secsBefore sec ++ "_" ++ fieldTitle (toMap field))
          (variantToString (value (toMap (value (fieldValueMap field) "address")) "street") ++ "\n"
            ++ variantToString (value (toMap (value (fieldValueMap field) "address")) "city") ++ ", "
            ++ variantToString (value (toMap (value (fieldValueMap field) "address")) "state") ++ " "
            ++ variantToString (value (toMap (value (fieldValueMap field) "address")) "zip") ++ "\n"
            ++ variantToString (value (toMap (value (fieldValueMap field) "address")) "country"))
          false ∧
        readFlat env (fieldsAfter env n secsBefore sec fAfter secsAfter) e2 = .ok e3 ∧
        e = itemFinish item e3 ∧
        (∀ name, name ≠ sectionPreIn env n secsBefore sec ++ "_" ++ fieldTitle (toMap field) →
          EntryAttributes.find e2.attributes name = EntryAttributes.find e1.attributes name) ∧
        (∀ name, name ∈ EntryAttributes.keys e2.attributes ↔
          name = sectionPreIn env n secsBefore sec ++ "_" ++ fieldTitle (toMap field)
            ∨ name ∈ EntryAttributes.keys e1.attributes) ∧
        sectionPreIn env n secsBefore sec ++ "_" ++ fieldTitle (toMap field)
          ∈ EntryAttributes.keys e.attributes ∧
        ((∀ pf ∈ fieldsAfter env n secsBefore sec fAfter secsAfter,
            fieldName pf.1 (toMap pf.2)
              ≠ sectionPreIn env n secsBefore sec ++ "_" ++ fieldTitle (toMap field)) →
         (∀ m, sectionPreIn env n secsBefore sec ++ "_" ++ fieldTitle (toMap field)
            ≠ otpName m) →
         EntryAttributes.find e.attributes
            (sectionPreIn env n secsBefore sec ++ "_" ++ fieldTitle (toMap field))
           = some ⟨sectionPreIn env n secsBefore sec ++ "_" ++ fieldTitle (toMap field),
               addressText (toMap (value (fieldValueMap field) "address")), false⟩)) ∧
    (fieldsTagged item = true → ∃ e k, readItem env n item = .ok (e, k)) := by
  refine ⟨?_, readItem_ok env n item⟩
  intro e k h
  rcases readItem_field_trace env n item secsBefore secsAfter sec field fBefore fAfter
    hsecs hfields e k h with ⟨e1, e2, e3, hb, hf, ha, hfin⟩
  rw [readField_address_step env _ field e1 hkey] at hf
  simp only [Except.ok.injEq] at hf
  subst hf
  subst hfin
  refine ⟨e1, _, e3, hb, rfl, ha, rfl, ?_, ?_, ?_, ?_⟩
  · intro name hname
    exact find_set_other _ _ _ _ _ hname
  · intro name
    exact mem_keys_set _ _ _ _ _
  · exact readFlat_mem_set env item _ e1 e3 _ _ _ ha
  · intro hlater hotp
    exact readFlat_find_set env item _ e1 e3 _ _ _ ha hlater hotp

/-- C13 (witness): the field `Home` of the section `Addresses` of
`sectionsItem`, which has a section before its section, a field after it in
its section and a section after its section. -/
theorem readItem_address_witness :
    (∃ e k, readItem sampleEnv 0 sectionsItem = .ok (e, k) ∧
      "Addresses_Home" ∈ EntryAttributes.keys e.attributes ∧
      EntryAttributes.find e.attributes "Addresses_Home"
        = some ⟨"Addresses_Home", "1 Main St\nSpringfield, IL 62701\nUS", false⟩) ∧
    (readItem sampleEnv 0 sectionsItem).toOption.map (fun r => r.1.attributes)
      = some [⟨"Security_PIN", "12345", true⟩,
              ⟨"Addresses_Home", "1 Main St\nSpringfield, IL 62701\nUS", false⟩,
              ⟨"1a1b2_Home", "\n,  \n", false⟩] :=
  have h := readItem_address sampleEnv 0 sectionsItem [securityFieldsSection] [untitledSection]
    addressesSection addressField [] [totpField] rfl rfl (by decide)
  have hlater : ∀ pf ∈ fieldsAfter sampleEnv 0 [securityFieldsSection] addressesSection
      [totpField] [untitledSection],
      fieldName pf.1 (toMap pf.2) ≠ "Addresses_Home" := by
    intro pf hpf
    have hA : fieldsAfter sampleEnv 0 [securityFieldsSection] addressesSection
        [totpField] [untitledSection]
        = [("Addresses", totpField), ("1a1b2", emptyAddressField)] := rfl
    rw [hA] at hpf
    simp only [List.mem_cons, List.mem_singleton, List.not_mem_nil, or_false] at hpf
    rcases hpf with rfl | rfl <;> decide
  have hotp : ∀ m, ("Addresses_Home" : String) ≠ otpName m := by
    intro m hm
    have := congrArg (fun s => s.data.head?) hm
    simp only [otpName_head] at this
    exact absurd this (by decide)
  ⟨by
    rcases h.2 (by decide) with ⟨e, k, hr⟩
    rcases h.1 e k hr with ⟨e1, e2, e3, _, _, _, _, _, _, hmem, hfind⟩
    exact ⟨e, k, hr, hmem, hfind hlater hotp⟩,
   by decide⟩

/-- C20: a section field tagged `address` is never dropped as empty.  For an
item, a section of it and a field of that section tagged `address`: the
decoded value of the address payload is not empty, and it is the text of the
separators alone, a line break, a comma, two blanks and a line break, when
the five parts are absent or empty.  Whenever `readItem` returns an entry,
the entry has an attribute `<prefix>_<fieldname>`, and when no later field
has the same name and the name is no name of the one-time-password probe,
that attribute holds the decoded value.  And `readItem` does return an entry,
with that attribute, when every section field has a tagged value. -/
theorem readItem_address_never_dropped (env : Env) (n : Nat) (item : JsonObject)
    (secsBefore secsAfter : List JsonValue) (sec field : JsonValue)
    (fBefore fAfter : List JsonValue)
    (hsecs : itemSections item = secsBefore ++ sec :: secsAfter)
    (hfields : toList (value (toMap sec) "fields") = fBefore ++ field :: fAfter)
    (hkey : firstKey (fieldValueMap field) = some "address") :
    decodeValue env (fieldValueMap field) "address" ≠ "" ∧
    (variantToString (value (toMap (value (fieldValueMap field) "address")) "street") = "" →
      variantToString (value (toMap (value (fieldValueMap field) "address")) "city") = "" →
      variantToString (value (toMap (value (fieldValueMap field) "address")) "state") = "" →
      variantToString (value (toMap (value (fieldValueMap field) "address")) "zip") = "" →
      variantToString (value (toMap (value (fieldValueMap field) "address")) "country") = "" →
      decodeValue env (fieldValueMap field) "address" = "\n,  \n") ∧
    (∀ e k, readItem env n item = .ok (e, k) →
      fieldName (sectionPreIn env n secsBefore sec) (toMap field)
        ∈ EntryAttributes.keys e.attributes ∧
      ((∀ pf ∈ fieldsAfter env n secsBefore sec fAfter secsAfter,
          fieldName pf.1 (toMap pf.2)
            ≠ fieldName (sectionPreIn env n secsBefore sec) (toMap field)) →
       (∀ m, fieldName (sectionPreIn env n secsBefore sec) (toMap field) ≠ otpName m) →
       EntryAttributes.find e.attributes
          (fieldName (sectionPreIn env n secsBefore sec) (toMap field))
         = some ⟨fieldName (sectionPreIn env n secsBefore sec) (toMap field),
             decodeValue env (fieldValueMap field) "address", false⟩)) ∧
    (fieldsTagged item = true →
      ∃ e k, readItem env n item = .ok (e, k) ∧
        fieldName (sectionPreIn env n secsBefore sec) (toMap field)
          ∈ EntryAttributes.keys e.attributes) := by
  have hne : decodeValue env (fieldValueMap field) "address" ≠ "" := by
    rw [decodeValue_address]
    exact addressText_ne_empty _
  have hitem : ∀ e k, readItem env n item = .ok (e, k) →
      fieldName (sectionPreIn env n secsBefore sec) (toMap field)
        ∈ EntryAttributes.keys e.attributes ∧
      ((∀ pf ∈ fieldsAfter env n secsBefore sec fAfter secsAfter,
          fieldName pf.1 (toMap pf.2)
            ≠ fieldName (sectionPreIn env n secsBefore sec) (toMap field)) →
       (∀ m, fieldName (sectionPreIn env n secsBefore sec) (toMap field) ≠ otpName m) →
       EntryAttributes.find e.attributes
          (fieldName (sectionPreIn env n secsBefore sec) (toMap field))
         = some ⟨fieldName (sectionPreIn env n secsBefore sec) (toMap field),
             decodeValue env (fieldValueMap field) "address", false⟩) := by
    intro e k h
    rcases readItem_field_trace env n item secsBefore secsAfter sec field fBefore fAfter
      hsecs hfields e k h with ⟨e1, e2, e3, hb, hf, ha, hfin⟩
    rw [readField_address_step env _ field e1 hkey] at hf
    simp only [Except.ok.injEq] at hf
    subst hf
    subst hfin
    rw [decodeValue_address, fieldName_eq]
    exact ⟨readFlat_mem_set env item _ e1 e3 _ _ _ ha,
      fun hlater hotp => readFlat_find_set env item _ e1 e3 _ _ _ ha hlater hotp⟩
  refine ⟨hne, ?_, hitem, ?_⟩
  · intro h1 h2 h3 h4 h5
    rw [decodeValue_address]
    unfold addressText
    rw [h1, h2, h3, h4, h5]
    decide
  · intro htag
    rcases readItem_ok env n item htag with ⟨e, k, hr⟩
    exact ⟨e, k, hr, (hitem e k hr).1⟩

/-- C20 (witness): the field `Home` of the section without title of
`sectionsItem`, whose address payload is the empty object. -/
theorem readItem_address_never_dropped_witness :
    (decodeValue sampleEnv (fieldValueMap emptyAddressField) "address" ≠ "" ∧
     decodeValue sampleEnv (fieldValueMap emptyAddressField) "address" = "\n,  \n") ∧
    (∃ e k, readItem sampleEnv 0 sectionsItem = .ok (e, k) ∧
      "1a1b2_Home" ∈ EntryAttributes.keys e.attributes ∧
      EntryAttributes.find e.attributes "1a1b2_Home" = some ⟨"1a1b2_Home", "\n,  \n", false⟩) ∧
    (readItem sampleEnv 0 sectionsItem).toOption.map (fun r => r.1.attributes)
      = some [⟨"Security_PIN", "12345", true⟩,
              ⟨"Addresses_Home", "1 Main St\nSpringfield, IL 62701\nUS", false⟩,
              ⟨"1a1b2_Home", "\n,  \n", false⟩] :=
  have h := readItem_address_never_dropped sampleEnv 0 sectionsItem
    [securityFieldsSection, addressesSection] [] untitledSection emptyAddressField [] []
    rfl rfl (by decide)
  have hlater : ∀ pf ∈ fieldsAfter sampleEnv 0 [securityFieldsSection, addressesSection]
      untitledSection [] [],
      fieldName pf.1 (toMap pf.2) ≠ "1a1b2_Home" := by
    intro pf hpf
    have hA : fieldsAfter sampleEnv 0 [securityFieldsSection, addressesSection]
        untitledSection [] [] = [] := rfl
    rw [hA] at hpf
    exact absurd hpf (List.not_mem_nil _)
  have hotp : ∀ m, ("1a1b2_Home" : String) ≠ otpName m := by
    intro m hm
    have := congrArg (fun s => s.data.head?) hm
    simp only [otpName_head] at this
    exact absurd this (by decide)
  ⟨⟨h.1, h.2.1 (by decide) (by decide) (by decide) (by decide) (by decide)⟩,
   by
    rcases h.2.2.2 (by decide) with ⟨e, k, hr, hmem⟩
    exact ⟨e, k, hr, hmem, (h.2.2.1 e k hr).2 hlater hotp⟩,
   by decide⟩

end OPUX
